import Mathlib

/-!
Verification development for the `infestation` grid game.

The definitions below are a shallow embedding of the Rust sources under
`src/game/src/`: `direction.rs`, `position.rs`, `grid.rs`, `game.rs` and the
submodules of `game/` (`cyborg_distance.rs`, `cyborg_rat.rs`, `rat.rs`,
`player.rs`, `animation.rs`, `explosion.rs`, `zap.rs`).

Modelling conventions:
* `i32` / `usize` values are carried as `Int` / `Nat`; where overflow is
  observable — the `CyborgDistance` comparison squares its components — the
  release-mode two's-complement wrap of every `i32` operation is modelled
  explicitly by `wrap32` (`subWrap`, `compare_with_zero_wrap`, `cmpWrap`),
  alongside the overflow-free computation used to state exactness in the
  in-range regime;
* the `f32` animation progress values and time deltas are modelled as `ℚ`;
  an infinite time delta (`f32::INFINITY`, used by `resolve_all`) is modelled
  by `none : Option ℚ`, with the operations the code performs on it
  (`p + ∞·speed = ∞`, `min ∞ 1 = 1`, `∞ - x = ∞`) built into the helpers
  `dtProg` and `dtSub`;
* Rust's `Vec::push` is `· ++ [x]`, iteration order of all loops is preserved;
* `HashMap<Position, CyborgDistance>` is an association list, and the
  `BinaryHeap` is a list popped at its least element with respect to the
  `DijkstraEntry` ordering (the heap's pop order among equal elements is
  irrelevant because `DijkstraEntry` carries exactly the compared data);
* the two unbounded loops of the source (the explosion wave loop in
  `advance_animation` and the Dijkstra loop) take an explicit fuel argument;
  the canonical fuel passed by the wrappers is proved sufficient below for
  the explosion loop, so the fuelled function agrees with the source's loop
  on every state the game reaches;
* out-of-range writes (which would be panics in Rust) leave the grid
  unchanged; `Grid.at'` returns `Wall` out of range exactly as the source.
-/

namespace Infestation

/-- Companion of `direction.rs`: the four cardinal directions (`Dir4`). -/
inductive Dir4 where
  | North
  | South
  | East
  | West
deriving DecidableEq

/-- Companion of `direction.rs`: the eight directions (`Dir8`). -/
inductive Dir8 where
  | North
  | South
  | East
  | West
  | Northeast
  | Northwest
  | Southeast
  | Southwest
deriving DecidableEq

/-- Companion of `position.rs`: a `PositionDelta` offset. -/
structure PositionDelta where
  dx : Int
  dy : Int
deriving DecidableEq

/-- Companion of `position.rs`: an integer grid `Position`. -/
structure Position where
  x : Int
  y : Int
deriving DecidableEq

def PositionDelta.magnitude_sq (d : PositionDelta) : Int :=
  d.dx * d.dx + d.dy * d.dy

instance : HAdd Position PositionDelta Position :=
  ⟨fun p d => ⟨p.x + d.dx, p.y + d.dy⟩⟩

instance : HSub Position Position PositionDelta :=
  ⟨fun p q => ⟨p.x - q.x, p.y - q.y⟩⟩

theorem Position.add_def (p : Position) (d : PositionDelta) :
    p + d = ⟨p.x + d.dx, p.y + d.dy⟩ := rfl

theorem Position.sub_def (p q : Position) :
    p - q = PositionDelta.mk (p.x - q.x) (p.y - q.y) := rfl

def Position.dist_sq (p q : Position) : Int :=
  (q - p).magnitude_sq

def Position.in_bounds (p : Position) (bounds : Nat × Nat) : Bool :=
  0 ≤ p.x ∧ p.x < (bounds.1 : Int) ∧ 0 ≤ p.y ∧ p.y < (bounds.2 : Int)

/-- Derived `Ord for Position` in the source compares the fields in
declaration order: `x` first, then `y`. -/
def Position.cmp (p q : Position) : Ordering :=
  (compare p.x q.x).then (compare p.y q.y)

def Dir4.delta : Dir4 → PositionDelta
  | .North => ⟨0, -1⟩
  | .South => ⟨0, 1⟩
  | .East => ⟨1, 0⟩
  | .West => ⟨-1, 0⟩

def Dir4.opposite : Dir4 → Dir8
  | .North => .South
  | .South => .North
  | .East => .West
  | .West => .East

def Dir8.delta : Dir8 → PositionDelta
  | .Northwest => ⟨-1, -1⟩
  | .North => ⟨0, -1⟩
  | .Northeast => ⟨1, -1⟩
  | .West => ⟨-1, 0⟩
  | .East => ⟨1, 0⟩
  | .Southwest => ⟨-1, 1⟩
  | .South => ⟨0, 1⟩
  | .Southeast => ⟨1, 1⟩

def Dir8.is_diagonal : Dir8 → Bool
  | .Northeast | .Northwest | .Southeast | .Southwest => true
  | .North | .South | .East | .West => false

def Dir8.all : List Dir8 :=
  [.Northwest, .North, .Northeast, .West, .East, .Southwest, .South, .Southeast]

def Dir8.from_delta (delta : PositionDelta) : Option Dir8 :=
  match compare delta.dx 0, compare delta.dy 0 with
  | .lt, .lt => some .Northwest
  | .eq, .lt => some .North
  | .gt, .lt => some .Northeast
  | .lt, .eq => some .West
  | .eq, .eq => none
  | .gt, .eq => some .East
  | .lt, .gt => some .Southwest
  | .eq, .gt => some .South
  | .gt, .gt => some .Southeast

def Dir8.x_only (d : Dir8) : Option Dir8 :=
  Dir8.from_delta ⟨d.delta.dx, 0⟩

def Dir8.y_only (d : Dir8) : Option Dir8 :=
  Dir8.from_delta ⟨0, d.delta.dy⟩

/-- Companion of `grid.rs`: the `Cell` sum type. -/
inductive Cell where
  | Empty
  | Wall
  | Player (facing : Dir4)
  | Rat (facing : Dir8)
  | CyborgRat (facing : Dir8)
  | Plank
  | Spiderweb
  | BlackHole
  | Explosive
  | Trigger (digit : Nat)
deriving DecidableEq

def Cell.blocks_player : Cell → Bool
  | .Wall | .Plank => true
  | _ => false

def Cell.blocks_rat : Cell → Bool
  | .Wall | .Rat _ | .CyborgRat _ | .Spiderweb => true
  | _ => false

def Cell.blocks_cyborg_rat : Cell → Bool
  | .Wall | .CyborgRat _ | .Spiderweb => true
  | _ => false

/-- Companion of `grid.rs`: the grid is its rectangular array of cells.  The
portal and note side tables play no role in any of the claims below and are
omitted; the constructor `Grid::new` asserts all rows have equal length
(captured by `Grid.Rect` as a hypothesis where needed). -/
structure Grid where
  cells : List (List Cell)
deriving DecidableEq

def Grid.height (g : Grid) : Nat := g.cells.length

def Grid.width (g : Grid) : Nat := (g.cells.headD []).length

/-- Well-formedness enforced by `Grid::new`: all rows have the same width. -/
def Grid.Rect (g : Grid) : Prop :=
  ∀ row ∈ g.cells, row.length = g.width

instance (g : Grid) : Decidable g.Rect := by
  unfold Grid.Rect; infer_instance

def Grid.bounds (g : Grid) : Nat × Nat := (g.width, g.height)

/-- Companion of `Grid::at`: out-of-bounds reads return `Wall`. -/
def Grid.at' (g : Grid) (pos : Position) : Cell :=
  if pos.in_bounds g.bounds then
    (g.cells.getD pos.y.toNat []).getD pos.x.toNat Cell.Wall
  else
    Cell.Wall

/-- Companion of a `*grid.at_mut(pos) = c` assignment.  In the source an
out-of-range write is a panic; every write the game performs is in range, and
the model makes out-of-range writes leave the grid unchanged. -/
def Grid.setCell (g : Grid) (pos : Position) (c : Cell) : Grid :=
  if pos.in_bounds g.bounds then
    ⟨g.cells.set pos.y.toNat ((g.cells.getD pos.y.toNat []).set pos.x.toNat c)⟩
  else
    g

/-- Companion of `Grid::entries`: row-major enumeration of the live cells. -/
def Grid.entries (g : Grid) : List (Position × Cell) :=
  g.cells.enum.flatMap fun yrow =>
    yrow.2.enum.map fun xc => (⟨(xc.1 : Int), (yrow.1 : Int)⟩, xc.2)

/-- Companion of `Grid::find_entities` (filter of `entries`). -/
def Grid.find_entities (g : Grid) (f : Cell → Bool) : List (Position × Cell) :=
  g.entries.filter fun pc => f pc.2

theorem Position.in_bounds_iff {p : Position} {b : Nat × Nat} :
    p.in_bounds b = true ↔ 0 ≤ p.x ∧ p.x < (b.1 : Int) ∧ 0 ≤ p.y ∧ p.y < (b.2 : Int) := by
  unfold Position.in_bounds
  simp

theorem Grid.setCell_of_not_inb {g : Grid} {p : Position} (c : Cell)
    (hp : ¬ p.in_bounds g.bounds = true) : g.setCell p c = g := by
  unfold Grid.setCell
  rw [if_neg hp]

theorem Grid.cells_setCell_of_inb {g : Grid} {p : Position} (c : Cell)
    (hp : p.in_bounds g.bounds = true) :
    (g.setCell p c).cells = g.cells.set p.y.toNat ((g.cells.getD p.y.toNat []).set p.x.toNat c) := by
  unfold Grid.setCell
  rw [if_pos hp]

theorem Grid.height_setCell (g : Grid) (p : Position) (c : Cell) :
    (g.setCell p c).height = g.height := by
  unfold Grid.setCell Grid.height
  split <;> simp

theorem Grid.ytoNat_lt {g : Grid} {p : Position} (hp : p.in_bounds g.bounds = true) :
    p.y.toNat < g.cells.length := by
  rw [Position.in_bounds_iff] at hp
  have : (g.bounds.2 : Int) = (g.cells.length : Int) := by
    unfold Grid.bounds Grid.height; simp
  omega

theorem Grid.xtoNat_lt {g : Grid} {p : Position} (hp : p.in_bounds g.bounds = true) :
    p.x.toNat < g.width := by
  rw [Position.in_bounds_iff] at hp
  unfold Grid.bounds at hp
  omega

theorem Grid.width_setCell (g : Grid) (p : Position) (c : Cell) :
    (g.setCell p c).width = g.width := by
  by_cases hp : p.in_bounds g.bounds = true
  · have hy := Grid.ytoNat_lt hp
    unfold Grid.width
    rw [Grid.cells_setCell_of_inb c hp]
    rw [List.headD_eq_head?, List.headD_eq_head?, List.head?_eq_getElem?, List.head?_eq_getElem?]
    by_cases h0 : p.y.toNat = 0
    · rw [h0] at hy ⊢
      rw [List.getElem?_set_eq_of_lt _ hy, List.getElem?_eq_getElem hy]
      simp [List.getD_eq_getElem?_getD, List.getElem?_eq_getElem hy]
    · rw [List.getElem?_set_ne (by omega)]
  · rw [Grid.setCell_of_not_inb c hp]

theorem Grid.bounds_setCell (g : Grid) (p : Position) (c : Cell) :
    (g.setCell p c).bounds = g.bounds := by
  unfold Grid.bounds
  rw [Grid.width_setCell, Grid.height_setCell]

theorem Grid.Rect.setCell {g : Grid} (hg : g.Rect) (p : Position) (c : Cell) :
    (g.setCell p c).Rect := by
  intro row hrow
  rw [Grid.width_setCell]
  by_cases hp : p.in_bounds g.bounds = true
  · have hy := Grid.ytoNat_lt hp
    rw [Grid.cells_setCell_of_inb c hp] at hrow
    rcases List.mem_or_eq_of_mem_set hrow with h | h
    · exact hg _ h
    · subst h
      rw [List.length_set]
      refine hg _ ?_
      rw [List.getD_eq_getElem?_getD, List.getElem?_eq_getElem hy]
      exact List.getElem_mem hy
  · rw [Grid.setCell_of_not_inb c hp] at hrow
    exact hg _ hrow

theorem Grid.at'_inb {g : Grid} {p : Position} (hp : p.in_bounds g.bounds = true) :
    g.at' p = ((g.cells[p.y.toNat]?.getD [])[p.x.toNat]?).getD Cell.Wall := by
  unfold Grid.at'
  rw [if_pos hp]
  simp [List.getD_eq_getElem?_getD]

theorem Grid.at'_setCell_ne (g : Grid) (p q : Position) (c : Cell) (hne : q ≠ p) :
    (g.setCell p c).at' q = g.at' q := by
  by_cases hp : p.in_bounds g.bounds = true
  · by_cases hq : q.in_bounds g.bounds = true
    · rw [Grid.at'_inb (g := g.setCell p c) (by rw [Grid.bounds_setCell]; exact hq),
        Grid.at'_inb hq, Grid.cells_setCell_of_inb c hp]
      by_cases hyy : q.y.toNat = p.y.toNat
      · have hxy : q.x.toNat ≠ p.x.toNat := by
          rw [Position.in_bounds_iff] at hp hq
          intro hxx
          apply hne
          have hx : q.x = p.x := by omega
          have hyv : q.y = p.y := by omega
          calc q = ⟨q.x, q.y⟩ := rfl
            _ = ⟨p.x, p.y⟩ := by rw [hx, hyv]
            _ = p := rfl
        rw [hyy, List.getElem?_set_eq_of_lt _ (Grid.ytoNat_lt hp)]
        simp only [Option.getD_some]
        rw [List.getElem?_set_ne (fun h => hxy h.symm), List.getD_eq_getElem?_getD]
      · rw [List.getElem?_set_ne (fun h => hyy h.symm)]
    · unfold Grid.at'
      rw [Grid.bounds_setCell, if_neg hq, if_neg hq]
  · rw [Grid.setCell_of_not_inb c hp]

theorem Grid.at'_setCell_eq {g : Grid} (hg : g.Rect) (p : Position) (c : Cell)
    (hp : p.in_bounds g.bounds = true) : (g.setCell p c).at' p = c := by
  rw [Grid.at'_inb (g := g.setCell p c) (by rw [Grid.bounds_setCell]; exact hp),
    Grid.cells_setCell_of_inb c hp]
  have hy := Grid.ytoNat_lt hp
  rw [List.getElem?_set_eq_of_lt _ hy]
  simp only [Option.getD_some]
  have hrowlen : (g.cells.getD p.y.toNat []).length = g.width := by
    refine hg _ ?_
    rw [List.getD_eq_getElem?_getD, List.getElem?_eq_getElem hy]
    exact List.getElem_mem hy
  rw [List.getElem?_set_eq_of_lt _ (by rw [hrowlen]; exact Grid.xtoNat_lt hp)]
  rfl

/-- Membership in `entries` determines the cell read by `at` (rectangular
grids). -/
theorem Grid.at'_of_mem_entries {g : Grid} (hg : g.Rect) {p : Position} {c : Cell}
    (hmem : (p, c) ∈ g.entries) : p.in_bounds g.bounds = true ∧ g.at' p = c := by
  unfold Grid.entries at hmem
  rw [List.mem_flatMap] at hmem
  obtain ⟨yrow, hyrow, hmem2⟩ := hmem
  rw [List.mem_map] at hmem2
  obtain ⟨xc, hxc, heq⟩ := hmem2
  rcases yrow with ⟨y, row⟩
  rcases xc with ⟨x, cc⟩
  simp only [Prod.mk.injEq] at heq
  obtain ⟨hp, hc⟩ := heq
  subst hc
  subst hp
  have hrow : g.cells[y]? = some row := List.mk_mem_enum_iff_getElem?.mp hyrow
  have hcc : row[x]? = some cc := List.mk_mem_enum_iff_getElem?.mp hxc
  have hy : y < g.cells.length := by
    by_contra hcon
    rw [List.getElem?_eq_none (by omega)] at hrow
    cases hrow
  have hx : x < row.length := by
    by_contra hcon
    rw [List.getElem?_eq_none (by omega)] at hcc
    cases hcc
  have hrowmem : row ∈ g.cells := by
    obtain ⟨hlt, hget⟩ := List.getElem?_eq_some_iff.mp hrow
    exact hget ▸ List.getElem_mem hlt
  have hwidth : row.length = g.width := hg _ hrowmem
  have hinb : (Position.mk (x : Int) (y : Int)).in_bounds g.bounds = true := by
    rw [Position.in_bounds_iff]
    unfold Grid.bounds Grid.height
    dsimp only
    refine ⟨by omega, by omega, by omega, by omega⟩
  refine ⟨hinb, ?_⟩
  rw [Grid.at'_inb hinb]
  dsimp only
  simp only [Int.toNat_natCast]
  rw [hrow]
  simp only [Option.getD_some]
  rw [hcc]
  rfl

/-- Cells reported as something other than `Wall` are in bounds. -/
theorem Grid.inb_of_at'_ne_wall {g : Grid} {p : Position} (h : g.at' p ≠ Cell.Wall) :
    p.in_bounds g.bounds = true := by
  by_contra hp
  unfold Grid.at' at h
  rw [if_neg hp] at h
  exact h rfl


/-- Companion of `cyborg_distance.rs`: the pathfinding metric
`CyborgDistance(orthogonal_count, diagonal_count)` denoting the real cost
`ortho + diag * sqrt 2`. -/
structure CyborgDistance where
  ortho : Int
  diag : Int
deriving DecidableEq

def CyborgDistance.ZERO : CyborgDistance := ⟨0, 0⟩

def CyborgDistance.ONE_ORTHO : CyborgDistance := ⟨1, 0⟩

def CyborgDistance.add_step (c : CyborgDistance) (dir : Dir8) : CyborgDistance :=
  if dir.is_diagonal then ⟨c.ortho, c.diag + 1⟩ else ⟨c.ortho + 1, c.diag⟩

instance : Sub CyborgDistance :=
  ⟨fun a b => ⟨a.ortho - b.ortho, a.diag - b.diag⟩⟩

/-- Companion of `CyborgDistance::compare_with_zero`. -/
def CyborgDistance.compare_with_zero (c : CyborgDistance) : Ordering :=
  compare (c.ortho ^ 2 * c.ortho.sign + 2 * c.diag ^ 2 * c.diag.sign) 0

/-- Companion of `Ord for CyborgDistance`. -/
def CyborgDistance.cmp (a b : CyborgDistance) : Ordering :=
  (a - b).compare_with_zero

/-- Strict order test used by the move-selection loop (`<` via `Ord`). -/
def cdLt (a b : CyborgDistance) : Bool :=
  CyborgDistance.cmp a b = Ordering.lt

/-- Two's-complement wrap-around of release-mode `i32` arithmetic. -/
def wrap32 (n : Int) : Int := (n + 2 ^ 31) % 2 ^ 32 - 2 ^ 31

/-- Companion of `Sub for CyborgDistance` under `i32` semantics: each
component-wise difference wraps. -/
def CyborgDistance.subWrap (a b : CyborgDistance) : CyborgDistance :=
  ⟨wrap32 (a.ortho - b.ortho), wrap32 (a.diag - b.diag)⟩

/-- Companion of `CyborgDistance::compare_with_zero` under `i32` semantics:
every arithmetic operation of
`ortho.pow(2) * ortho.signum() + 2 * diag.pow(2) * diag.signum()` wraps as in
release-mode Rust (`signum` never overflows). -/
def CyborgDistance.compare_with_zero_wrap (c : CyborgDistance) : Ordering :=
  compare
    (wrap32 (wrap32 (wrap32 (c.ortho * c.ortho) * c.ortho.sign)
      + wrap32 (wrap32 (2 * wrap32 (c.diag * c.diag)) * c.diag.sign))) 0

/-- Companion of `Ord for CyborgDistance` under `i32` semantics. -/
def CyborgDistance.cmpWrap (a b : CyborgDistance) : Ordering :=
  (a.subWrap b).compare_with_zero_wrap

theorem wrap32_eq_of_range (n : Int) (h1 : -(2 ^ 31) ≤ n) (h2 : n < 2 ^ 31) :
    wrap32 n = n := by
  unfold wrap32
  rw [Int.emod_eq_of_lt (by omega) (by omega)]
  omega

theorem sq_mul_sign (o : Int) : o ^ 2 * o.sign = o * |o| := by
  rcases lt_trichotomy o 0 with h | h | h
  · rw [Int.sign_eq_neg_one_of_neg h, abs_of_neg h]
    ring
  · subst h
    simp
  · rw [Int.sign_eq_one_of_pos h, abs_of_pos h]
    ring

/-- Sign agreement of the integer square test with the real value, positive
side.  This is the heart of the exactness of `compare_with_zero`. -/
theorem signed_square_pos_iff (o d : Int) :
    0 < o * |o| + 2 * (d * |d|) ↔ (0:ℝ) < (o : ℝ) + (d : ℝ) * Real.sqrt 2 := by
  have hs2 : (0:ℝ) < Real.sqrt 2 := Real.sqrt_pos.mpr (by norm_num)
  have hs2sq : Real.sqrt 2 * Real.sqrt 2 = 2 := by
    have := Real.sq_sqrt (show (0:ℝ) ≤ 2 by norm_num)
    nlinarith [this]
  rcases le_or_lt 0 o with ho | ho <;> rcases le_or_lt 0 d with hd | hd
  · -- both nonnegative
    rw [abs_of_nonneg ho, abs_of_nonneg hd]
    have hoR : (0:ℝ) ≤ (o:ℝ) := by exact_mod_cast ho
    have hdR : (0:ℝ) ≤ (d:ℝ) := by exact_mod_cast hd
    constructor
    · intro h
      have : 0 < o ∨ 0 < d := by
        by_contra hc
        push_neg at hc
        have h1 : o = 0 := le_antisymm hc.1 ho
        have h2 : d = 0 := le_antisymm hc.2 hd
        rw [h1, h2] at h
        simp at h
      rcases this with h1 | h1
      · have : (0:ℝ) < (o:ℝ) := by exact_mod_cast h1
        nlinarith
      · have : (0:ℝ) < (d:ℝ) := by exact_mod_cast h1
        nlinarith
    · intro h
      have : 0 < o ∨ 0 < d := by
        by_contra hc
        push_neg at hc
        have h1 : o = 0 := le_antisymm hc.1 ho
        have h2 : d = 0 := le_antisymm hc.2 hd
        rw [h1, h2] at h
        norm_num at h
      rcases this with h1 | h1 <;> nlinarith [h1]
  · -- o ≥ 0, d < 0 : compare o with |d| * sqrt 2
    rw [abs_of_nonneg ho, abs_of_neg hd]
    have hoR : (0:ℝ) ≤ (o:ℝ) := by exact_mod_cast ho
    have hdR : (d:ℝ) < 0 := by exact_mod_cast hd
    have hexp : (-(d:ℝ) * Real.sqrt 2) * (-(d:ℝ) * Real.sqrt 2) = 2 * ((d:ℝ) * (d:ℝ)) := by
      rw [show (-(d:ℝ) * Real.sqrt 2) * (-(d:ℝ) * Real.sqrt 2)
          = ((d:ℝ) * (d:ℝ)) * (Real.sqrt 2 * Real.sqrt 2) from by ring, hs2sq]
      ring
    have key : (-(d:ℝ)) * Real.sqrt 2 < (o:ℝ) ↔ ((-(d:ℝ)) * Real.sqrt 2) * ((-(d:ℝ)) * Real.sqrt 2) < (o:ℝ) * (o:ℝ) :=
      mul_self_lt_mul_self_iff (by nlinarith) hoR
    constructor
    · intro h
      have hZ : 2 * (d * d) < o * o := by nlinarith
      have h2 : 2 * ((d:ℝ) * (d:ℝ)) < (o:ℝ) * (o:ℝ) := by exact_mod_cast hZ
      have := key.mpr (by rw [hexp]; exact h2)
      nlinarith
    · intro h
      have hlt : (-(d:ℝ)) * Real.sqrt 2 < (o:ℝ) := by nlinarith
      have := key.mp hlt
      rw [hexp] at this
      have hZ : (2:ℤ) * (d * d) < o * o := by exact_mod_cast this
      nlinarith
  · -- o < 0, d ≥ 0 : compare |o| with d * sqrt 2
    rw [abs_of_neg ho, abs_of_nonneg hd]
    have hoR : (o:ℝ) < 0 := by exact_mod_cast ho
    have hdR : (0:ℝ) ≤ (d:ℝ) := by exact_mod_cast hd
    have hexp : ((d:ℝ) * Real.sqrt 2) * ((d:ℝ) * Real.sqrt 2) = 2 * ((d:ℝ) * (d:ℝ)) := by
      rw [show ((d:ℝ) * Real.sqrt 2) * ((d:ℝ) * Real.sqrt 2)
          = ((d:ℝ) * (d:ℝ)) * (Real.sqrt 2 * Real.sqrt 2) from by ring, hs2sq]
      ring
    have key : (-(o:ℝ)) < (d:ℝ) * Real.sqrt 2 ↔ (-(o:ℝ)) * (-(o:ℝ)) < ((d:ℝ) * Real.sqrt 2) * ((d:ℝ) * Real.sqrt 2) :=
      mul_self_lt_mul_self_iff (by nlinarith) (by nlinarith)
    constructor
    · intro h
      have hZ : o * o < 2 * (d * d) := by nlinarith
      have h2 : (o:ℝ) * (o:ℝ) < 2 * ((d:ℝ) * (d:ℝ)) := by exact_mod_cast hZ
      have := key.mpr (by rw [hexp]; nlinarith)
      nlinarith
    · intro h
      have hlt : (-(o:ℝ)) < (d:ℝ) * Real.sqrt 2 := by nlinarith
      have := key.mp hlt
      rw [hexp] at this
      have hZ : o * o < (2:ℤ) * (d * d) := by exact_mod_cast (show (o:ℝ) * (o:ℝ) < 2 * ((d:ℝ) * (d:ℝ)) from by nlinarith)
      nlinarith
  · -- both negative
    rw [abs_of_neg ho, abs_of_neg hd]
    have hoR : (o:ℝ) < 0 := by exact_mod_cast ho
    have hdR : (d:ℝ) < 0 := by exact_mod_cast hd
    constructor
    · intro h
      nlinarith
    · intro h
      nlinarith

/-- There is no integer solution of `o^2 = 2 d^2` with `d` nonzero
(irrationality of `sqrt 2`). -/
theorem sq_ne_two_mul_sq (o d : Int) (hd : d ≠ 0) : o * o ≠ 2 * (d * d) := by
  intro h
  have hdR : ((d:ℝ)) ≠ 0 := Int.cast_ne_zero.mpr hd
  have hdabs : (0:ℝ) < |(d:ℝ)| := abs_pos.mpr hdR
  have hR : (o:ℝ) * (o:ℝ) = 2 * ((d:ℝ) * (d:ℝ)) := by exact_mod_cast h
  have hsq : (|(o:ℝ)| / |(d:ℝ)|) ^ 2 = 2 := by
    rw [div_pow, sq_abs, sq_abs]
    rw [div_eq_iff (pow_ne_zero 2 hdR)]
    nlinarith
  have hsqrt : Real.sqrt 2 = |(o:ℝ)| / |(d:ℝ)| := by
    rw [← hsq, Real.sqrt_sq (by positivity)]
  refine irrational_sqrt_two ⟨|(o:ℚ)| / |(d:ℚ)|, ?_⟩
  rw [hsqrt]
  push_cast
  rfl

/-- The integer square test vanishes only at the origin. -/
theorem signed_square_eq_zero_iff (o d : Int) :
    o * |o| + 2 * (d * |d|) = 0 ↔ o = 0 ∧ d = 0 := by
  constructor
  · intro h
    rcases eq_or_ne d 0 with rfl | hd
    · refine ⟨?_, rfl⟩
      simp at h
      rcases abs_cases o with ⟨h1, _⟩ | ⟨h1, _⟩ <;> nlinarith
    · exfalso
      have hdd : 0 < d * d := by
        rcases lt_or_gt_of_ne hd with h1 | h1 <;> nlinarith
      rcases le_or_lt 0 o with ho | ho <;> rcases le_or_lt 0 d with hd' | hd'
      · rw [abs_of_nonneg ho, abs_of_nonneg hd'] at h
        nlinarith
      · rw [abs_of_nonneg ho, abs_of_neg hd'] at h
        exact sq_ne_two_mul_sq o d hd (by nlinarith)
      · rw [abs_of_neg ho, abs_of_nonneg hd'] at h
        exact sq_ne_two_mul_sq o d hd (by nlinarith)
      · rw [abs_of_neg ho, abs_of_neg hd'] at h
        nlinarith
  · rintro ⟨rfl, rfl⟩
    simp


/-- Exactness of the overflow-free signed-square comparison: computing
`sign(o)*o^2 + 2*sign(d)*d^2` on the component-wise difference `a - b` in
unbounded integers orders `a` before `b` exactly when the real number
`o1 + d1*sqrt 2` is less than `o2 + d2*sqrt 2`.  This is the mathematical
content of `compare_with_zero`; the source computes it in `i32`, whose
wrapping is modelled separately by `cmpWrap` below. -/
theorem cyborgDistance_cmp_ideal_exact_order (a b : CyborgDistance) :
    (CyborgDistance.cmp a b = Ordering.lt ↔
      (a.ortho : ℝ) + (a.diag : ℝ) * Real.sqrt 2 < (b.ortho : ℝ) + (b.diag : ℝ) * Real.sqrt 2) ∧
    (CyborgDistance.cmp a b = Ordering.eq ↔ a = b) ∧
    (CyborgDistance.cmp a b = Ordering.gt ↔
      (b.ortho : ℝ) + (b.diag : ℝ) * Real.sqrt 2 < (a.ortho : ℝ) + (a.diag : ℝ) * Real.sqrt 2) := by
  have hcz : CyborgDistance.cmp a b
      = compare ((a.ortho - b.ortho) * |a.ortho - b.ortho|
          + 2 * ((a.diag - b.diag) * |a.diag - b.diag|)) 0 := by
    unfold CyborgDistance.cmp CyborgDistance.compare_with_zero
    congr 1
    show (a.ortho - b.ortho) ^ 2 * (a.ortho - b.ortho).sign
        + 2 * (a.diag - b.diag) ^ 2 * (a.diag - b.diag).sign = _
    rw [sq_mul_sign]
    rw [show 2 * (a.diag - b.diag) ^ 2 * (a.diag - b.diag).sign
        = 2 * ((a.diag - b.diag) ^ 2 * (a.diag - b.diag).sign) from by ring, sq_mul_sign]
  have hval : ((a.ortho - b.ortho : ℤ) : ℝ) + ((a.diag - b.diag : ℤ) : ℝ) * Real.sqrt 2
      = ((a.ortho : ℝ) + (a.diag : ℝ) * Real.sqrt 2)
        - ((b.ortho : ℝ) + (b.diag : ℝ) * Real.sqrt 2) := by
    push_cast
    ring
  have hneg : ∀ o d : Int, (o * |o| + 2 * (d * |d|) < 0 ↔ (o:ℝ) + (d:ℝ) * Real.sqrt 2 < 0) := by
    intro o d
    have h1 : (o * |o| + 2 * (d * |d|) < 0) ↔ (0 < (-o) * |(-o)| + 2 * ((-d) * |(-d)|)) := by
      rw [abs_neg, abs_neg]
      constructor <;> intro <;> nlinarith
    rw [h1, signed_square_pos_iff]
    push_cast
    constructor <;> intro <;> linarith
  refine ⟨?_, ?_, ?_⟩
  · rw [hcz, compare_lt_iff_lt, hneg, hval]
    constructor <;> intro <;> linarith
  · rw [hcz, compare_eq_iff_eq, signed_square_eq_zero_iff]
    constructor
    · rintro ⟨h1, h2⟩
      cases a
      cases b
      simp only [CyborgDistance.mk.injEq]
      simp only at h1 h2
      omega
    · rintro rfl
      simp
  · rw [hcz, compare_gt_iff_gt, gt_iff_lt, signed_square_pos_iff, hval]
    constructor <;> intro <;> linarith


/-- Claim C2 (corrected): the source computes the signed-square comparison in
`i32`, which wraps in release mode, so the implemented ordering does *not*
agree with the real path cost for every pair of distances — the
counterexample below exhibits `(46341, 0)` compared to `(0, 0)` as `Less`.
Whenever the wrapped computation stays in `i32` range, it coincides with the
overflow-free computation and orders `a` before `b` exactly when
`o1 + d1*sqrt 2 < o2 + d2*sqrt 2`. -/
theorem c2_cyborg_distance_order_corrected (a b : CyborgDistance)
    (hdo : |a.ortho - b.ortho| ≤ 46340)
    (hdd : |a.diag - b.diag| ≤ 32767)
    (hsum : |(a.ortho - b.ortho) * (a.ortho - b.ortho) * (a.ortho - b.ortho).sign
      + 2 * ((a.diag - b.diag) * (a.diag - b.diag)) * (a.diag - b.diag).sign|
        < 2 ^ 31) :
    CyborgDistance.cmpWrap a b = CyborgDistance.cmp a b ∧
    (CyborgDistance.cmpWrap a b = Ordering.lt ↔
      (a.ortho : ℝ) + (a.diag : ℝ) * Real.sqrt 2
        < (b.ortho : ℝ) + (b.diag : ℝ) * Real.sqrt 2) ∧
    (CyborgDistance.cmpWrap a b = Ordering.eq ↔ a = b) ∧
    (CyborgDistance.cmpWrap a b = Ordering.gt ↔
      (b.ortho : ℝ) + (b.diag : ℝ) * Real.sqrt 2
        < (a.ortho : ℝ) + (a.diag : ℝ) * Real.sqrt 2) := by
  have hdo' := abs_le.mp hdo
  have hdd' := abs_le.mp hdd
  have hOsq : 0 ≤ (a.ortho - b.ortho) * (a.ortho - b.ortho) := mul_self_nonneg _
  have hOsq2 : (a.ortho - b.ortho) * (a.ortho - b.ortho) ≤ 46340 * 46340 := by
    nlinarith [hdo'.1, hdo'.2]
  have hDsq : 0 ≤ (a.diag - b.diag) * (a.diag - b.diag) := mul_self_nonneg _
  have hDsq2 : (a.diag - b.diag) * (a.diag - b.diag) ≤ 32767 * 32767 := by
    nlinarith [hdd'.1, hdd'.2]
  have hsgn : ∀ x : Int, -1 ≤ x.sign ∧ x.sign ≤ 1 := by
    intro x
    rcases lt_trichotomy x 0 with h | h | h
    · rw [Int.sign_eq_neg_one_of_neg h]
      exact ⟨le_refl _, by omega⟩
    · rw [h, Int.sign_zero]
      exact ⟨by omega, by omega⟩
    · rw [Int.sign_eq_one_of_pos h]
      exact ⟨by omega, le_refl _⟩
  have hmulsgn : ∀ x s : Int, 0 ≤ x → x < 2 ^ 31 → -1 ≤ s → s ≤ 1 →
      wrap32 (x * s) = x * s := by
    intro x s hx0 hx1 hs1 hs2
    have hu : x * s ≤ x * 1 := mul_le_mul_of_nonneg_left hs2 hx0
    have hl : x * (-1) ≤ x * s := mul_le_mul_of_nonneg_left hs1 hx0
    rw [mul_one] at hu
    rw [mul_neg_one] at hl
    exact wrap32_eq_of_range _ (by omega) (by omega)
  have habs := abs_lt.mp hsum
  have hmain : CyborgDistance.cmpWrap a b = CyborgDistance.cmp a b := by
    have hideal : CyborgDistance.cmp a b
        = compare ((a.ortho - b.ortho) ^ 2 * (a.ortho - b.ortho).sign
            + 2 * (a.diag - b.diag) ^ 2 * (a.diag - b.diag).sign) 0 := rfl
    unfold CyborgDistance.cmpWrap CyborgDistance.subWrap
      CyborgDistance.compare_with_zero_wrap
    dsimp only
    rw [wrap32_eq_of_range (a.ortho - b.ortho) (by omega) (by omega),
      wrap32_eq_of_range (a.diag - b.diag) (by omega) (by omega),
      wrap32_eq_of_range ((a.ortho - b.ortho) * (a.ortho - b.ortho))
        (by omega) (by omega),
      wrap32_eq_of_range ((a.diag - b.diag) * (a.diag - b.diag))
        (by omega) (by omega),
      wrap32_eq_of_range (2 * ((a.diag - b.diag) * (a.diag - b.diag)))
        (by omega) (by omega),
      hmulsgn _ _ hOsq (by omega) (hsgn _).1 (hsgn _).2,
      hmulsgn _ _ (by omega : (0:Int) ≤ 2 * ((a.diag - b.diag) * (a.diag - b.diag)))
        (by omega) (hsgn _).1 (hsgn _).2,
      wrap32_eq_of_range _ (by omega) (by omega),
      hideal]
    congr 1
    ring
  obtain ⟨e1, e2, e3⟩ := cyborgDistance_cmp_ideal_exact_order a b
  rw [hmain]
  exact ⟨rfl, e1, e2, e3⟩

theorem c2_cyborg_distance_order_corrected_witness :
    CyborgDistance.cmpWrap ⟨1, 0⟩ ⟨0, 0⟩ = CyborgDistance.cmp ⟨1, 0⟩ ⟨0, 0⟩ ∧
    (CyborgDistance.cmpWrap ⟨1, 0⟩ ⟨0, 0⟩ = Ordering.lt ↔
      ((1 : Int) : ℝ) + ((0 : Int) : ℝ) * Real.sqrt 2
        < ((0 : Int) : ℝ) + ((0 : Int) : ℝ) * Real.sqrt 2) ∧
    (CyborgDistance.cmpWrap ⟨1, 0⟩ ⟨0, 0⟩ = Ordering.eq ↔
      (⟨1, 0⟩ : CyborgDistance) = ⟨0, 0⟩) ∧
    (CyborgDistance.cmpWrap ⟨1, 0⟩ ⟨0, 0⟩ = Ordering.gt ↔
      ((0 : Int) : ℝ) + ((0 : Int) : ℝ) * Real.sqrt 2
        < ((1 : Int) : ℝ) + ((0 : Int) : ℝ) * Real.sqrt 2) :=
  c2_cyborg_distance_order_corrected ⟨1, 0⟩ ⟨0, 0⟩
    (by decide) (by decide) (by decide)

/-- Claim C2 counterexample: for `a = (46341, 0)` and `b = (0, 0)` the
source's `i32` squaring of the difference wraps (46341² > 2³¹ − 1), so the
implemented comparison returns `Less` although the real path cost of `a`
exceeds that of `b` (the overflow-free comparison returns `Greater`). -/
theorem c2_cyborg_distance_order_counterexample :
    CyborgDistance.cmpWrap ⟨46341, 0⟩ ⟨0, 0⟩ = Ordering.lt ∧
    ((0 : Int) : ℝ) + ((0 : Int) : ℝ) * Real.sqrt 2
      < ((46341 : Int) : ℝ) + ((0 : Int) : ℝ) * Real.sqrt 2 ∧
    CyborgDistance.cmp ⟨46341, 0⟩ ⟨0, 0⟩ = Ordering.gt := by
  refine ⟨by decide, ?_, by decide⟩
  push_cast
  norm_num

/-- Companion of `game.rs`: `PlayState`. -/
inductive PlayState where
  | Playing
  | GameOver
  | Won
deriving DecidableEq

def isPlayerCell : Cell → Bool
  | .Player _ => true
  | _ => false

def isRatLikeCell : Cell → Bool
  | .Rat _ | .CyborgRat _ => true
  | _ => false

def isRatOnlyCell : Cell → Bool
  | .Rat _ => true
  | _ => false

def isCyborgCell : Cell → Bool
  | .CyborgRat _ => true
  | _ => false

def isEntityCell : Cell → Bool
  | .Player _ | .Rat _ | .CyborgRat _ => true
  | _ => false

/-- Companion of `Grid::play_state`. -/
def Grid.play_state (g : Grid) : PlayState :=
  if g.find_entities isPlayerCell = [] then PlayState.GameOver
  else if g.find_entities isRatLikeCell = [] then PlayState.Won
  else PlayState.Playing

def MOVE_SPEED : ℚ := 15

/-- Companion of `game.rs`: a `Moving` record (`from` and `to` are reserved
words in Lean, hence `from_` and `to'`). -/
structure Moving where
  cell : Cell
  from_ : Position
  progress : ℚ
  to' : Position
deriving DecidableEq

/-- Companion of `game.rs`: an `Exploding` record. -/
structure Exploding where
  pos : Position
  progress : ℚ
deriving DecidableEq

/-- Companion of `game.rs`: a `Zapping` record. -/
structure Zapping where
  pos : Position
  progress : ℚ
deriving DecidableEq

/-- Companion of `game.rs`: `Action`. -/
inductive Action where
  | Move (dir : Dir4)
  | Stall
deriving DecidableEq

/-- Companion of `game.rs`: `MoveHandler` (the turn resolver state). -/
structure MoveHandler where
  grid : Grid
  moving : List Moving
  zapping : List Zapping
  triggered_numbers : List Nat
  exploding : List Exploding
  pending_explosions : List Position
deriving DecidableEq

def MoveHandler.new (grid : Grid) : MoveHandler :=
  ⟨grid, [], [], [], [], []⟩

/-- Companion of `MoveHandler::is_empty`. -/
def MoveHandler.is_empty (h : MoveHandler) : Bool :=
  h.moving = [] ∧ h.zapping = [] ∧ h.exploding = [] ∧ h.triggered_numbers = []
    ∧ h.pending_explosions = []

/-- Companion of `MoveHandler::begin_move`: clear the origin, push the record,
and provisionally mark the destination occupied (unless it is a black hole). -/
def MoveHandler.begin_move (h : MoveHandler) (m : Moving) : MoveHandler :=
  let g := h.grid.setCell m.from_ Cell.Empty
  let g' := if g.at' m.to' = Cell.BlackHole then g else g.setCell m.to' m.cell
  { h with grid := g', moving := h.moving ++ [m] }

/-- Companion of `MoveHandler::find_player`. -/
def MoveHandler.find_player (h : MoveHandler) : Option (Position × Dir4) :=
  h.grid.entries.findSome? fun pc =>
    match pc.2 with
    | Cell.Player d => some (pc.1, d)
    | _ => none

/-- Companion of `cyborg_distance.rs`: `DijkstraEntry`. -/
structure DijkstraEntry where
  dist : CyborgDistance
  pos : Position
deriving DecidableEq

/-- Whether `a` pops from the binary heap before `b`: the source's
`Ord for DijkstraEntry` is reversed in both components, so the heap's
maximum is the entry with the least `(dist, pos)`. -/
def DijkstraEntry.popBefore (a b : DijkstraEntry) : Bool :=
  match CyborgDistance.cmp a.dist b.dist with
  | .lt => true
  | .gt => false
  | .eq => a.pos.cmp b.pos = Ordering.lt

/-- Pop of the priority queue: select the entry that orders first.  Entries
with equal `(dist, pos)` are identical records, so which duplicate is removed
is irrelevant. -/
def popMin : List DijkstraEntry → Option (DijkstraEntry × List DijkstraEntry)
  | [] => none
  | e :: rest =>
    let m := rest.foldl (fun acc x => if DijkstraEntry.popBefore x acc then x else acc) e
    some (m, (e :: rest).erase m)

/-- Traversability test in `compute_cyborg_distances`. -/
def cyborgTraversable : Cell → Bool
  | Cell.Wall | Cell.BlackHole | Cell.Spiderweb | Cell.Explosive => false
  | Cell.Empty | Cell.Plank | Cell.Rat _ | Cell.CyborgRat _ | Cell.Trigger _
  | Cell.Player _ => true

/-- The Dijkstra loop of `compute_cyborg_distances`, with fuel.  Each loop
iteration pops one heap entry; the wrapper passes fuel exceeding the greatest
possible number of pushes (at most `1 + 8 * (width * height)`, since
neighbours are pushed only when in bounds and not yet finalized). -/
def dijkstraLoop (g : Grid) :
    Nat → List (Position × CyborgDistance) → List DijkstraEntry →
    List (Position × CyborgDistance)
  | 0, dist, _ => dist
  | fuel + 1, dist, heap =>
    match popMin heap with
    | none => dist
    | some (e, rest) =>
      if (dist.lookup e.pos).isSome then
        dijkstraLoop g fuel dist rest
      else
        let dist' := dist ++ [(e.pos, e.dist)]
        let pushes := Dir8.all.filterMap fun dir =>
          let neighbor := e.pos + dir.delta
          if ¬ neighbor.in_bounds g.bounds then none
          else if (dist'.lookup neighbor).isSome then none
          else if cyborgTraversable (g.at' neighbor) then
            some (⟨e.dist.add_step dir, neighbor⟩ : DijkstraEntry)
          else none
        dijkstraLoop g fuel dist' (rest ++ pushes)

/-- Companion of `MoveHandler::compute_cyborg_distances`. -/
def compute_cyborg_distances (g : Grid) (target : Position) :
    List (Position × CyborgDistance) :=
  dijkstraLoop g (9 * (g.width * g.height + 1) + 9) [] [⟨CyborgDistance.ZERO, target⟩]

/-- The `best_move` selection loop of `MoveHandler::move_cyborg_rats`. -/
def cyborgBestMove (distances : List (Position × CyborgDistance)) (g : Grid)
    (blocked_dir : Dir8) (player : Position) (current_dist : CyborgDistance)
    (cyborg_pos : Position) : Option (Dir8 × CyborgDistance) :=
  Dir8.all.foldl
    (fun best dir =>
      let new_pos := cyborg_pos + dir.delta
      match distances.lookup new_pos with
      | none => best
      | some target_dist =>
        if ¬ cdLt target_dist current_dist = true
            ∧ current_dist ≠ CyborgDistance.ONE_ORTHO then best
        else if target_dist = CyborgDistance.ONE_ORTHO then best
        else if new_pos = player ∧ dir = blocked_dir then best
        else if (g.at' new_pos).blocks_cyborg_rat then best
        else
          match best with
          | none => some (dir, target_dist)
          | some (_, best_dist) =>
            if cdLt target_dist best_dist then some (dir, target_dist) else best)
    none

/-- Generic sequential processing of a worklist against the handler. -/
def processList {α : Type} (step : MoveHandler → α → MoveHandler) :
    List α → MoveHandler → MoveHandler
  | [], h => h
  | a :: rest, h => processList step rest (step h a)

/-- One unreachable cyborg rat turning in place to face the player. -/
def cyborgTurnStep (player : Position) (h : MoveHandler) (cyborg_pos : Position) :
    MoveHandler :=
  match Dir8.from_delta (player - cyborg_pos) with
  | some face_dir =>
    h.begin_move ⟨Cell.CyborgRat face_dir, cyborg_pos, 1, cyborg_pos⟩
  | none => h

/-- One reachable cyborg rat choosing its move (or turning in place). -/
def cyborgMoveStep (distances : List (Position × CyborgDistance))
    (blocked_dir : Dir8) (player : Position) (h : MoveHandler)
    (cd_pos : CyborgDistance × Position) : MoveHandler :=
  match cyborgBestMove distances h.grid blocked_dir player cd_pos.1 cd_pos.2 with
  | some dirdist =>
    h.begin_move ⟨Cell.CyborgRat dirdist.1, cd_pos.2, 0, cd_pos.2 + dirdist.1.delta⟩
  | none => cyborgTurnStep player h cd_pos.2

/-- Stable insertion into a sorted list. -/
def insertSorted {α : Type} (le : α → α → Bool) (a : α) : List α → List α
  | [] => [a]
  | b :: rest => if le a b then a :: b :: rest else b :: insertSorted le a rest

/-- Stable sort (the source's `Vec::sort`/`sort_by_key` is a stable sort; the
keys sorted in this development are pairwise distinct, so any stable sort
produces the source's order). -/
def sortBy {α : Type} (le : α → α → Bool) : List α → List α
  | [] => []
  | a :: rest => insertSorted le a (sortBy le rest)

theorem insertSorted_perm {α : Type} (le : α → α → Bool) (a : α) (l : List α) :
    List.Perm (insertSorted le a l) (a :: l) := by
  induction l with
  | nil => exact List.Perm.refl _
  | cons b rest ih =>
    unfold insertSorted
    split
    · exact List.Perm.refl _
    · exact (List.Perm.cons b ih).trans (List.Perm.swap a b rest)

theorem sortBy_perm {α : Type} (le : α → α → Bool) (l : List α) :
    List.Perm (sortBy le l) l := by
  induction l with
  | nil => exact List.Perm.refl _
  | cons a rest ih =>
    exact (insertSorted_perm le a (sortBy le rest)).trans (List.Perm.cons a ih)

/-- Sort order of `movable_cyborgs.sort()` (lexicographic on the pair, with
the source's `Ord` instances). -/
def distPosLE (a b : CyborgDistance × Position) : Bool :=
  match CyborgDistance.cmp a.1 b.1 with
  | .lt => true
  | .gt => false
  | .eq => ¬ a.2.cmp b.2 = Ordering.gt

/-- Companion of `MoveHandler::move_cyborg_rats`. -/
def MoveHandler.move_cyborg_rats (h : MoveHandler) (player : Position)
    (player_facing : Dir4) : MoveHandler :=
  let distances := compute_cyborg_distances h.grid player
  let blocked_dir := player_facing.opposite
  let cyborgs := (h.grid.find_entities isCyborgCell).map Prod.fst
  let part := cyborgs.partition fun pos => (distances.lookup pos).isSome
  let h1 := processList (cyborgTurnStep player) part.2 h
  let movable :=
    sortBy distPosLE
      (part.1.map fun pos => ((distances.lookup pos).getD CyborgDistance.ZERO, pos))
  processList (cyborgMoveStep distances blocked_dir player) movable h1

/-- Sort order of `rats.sort_by_key(|&pos| (pos.dist_sq(player), pos))`. -/
def ratKeyLE (player : Position) (a b : Position) : Bool :=
  match compare (a.dist_sq player) (b.dist_sq player) with
  | .lt => true
  | .gt => false
  | .eq => ¬ a.cmp b = Ordering.gt

/-- The candidate list (`moves_to_try`) of `MoveHandler::move_rats`. -/
def ratMovesToTry (rat_pos player : Position) : List Dir8 :=
  match Dir8.from_delta (player - rat_pos) with
  | some dir =>
    if dir.is_diagonal then
      match dir.x_only, dir.y_only with
      | some h_move, some v_move =>
        let h_pos := rat_pos + h_move.delta
        let v_pos := rat_pos + v_move.delta
        if h_pos.dist_sq player ≤ v_pos.dist_sq player then [dir, h_move, v_move]
        else [dir, v_move, h_move]
      | _, _ => [dir]
    else [dir]
  | none => []

/-- One rat's turn: try the candidates in order, else turn in place. -/
def ratStep (player : Position) (blocked_dir : Dir8) (h : MoveHandler)
    (rat_pos : Position) : MoveHandler :=
  match (ratMovesToTry rat_pos player).find? fun dir =>
    decide (¬ (h.grid.at' (rat_pos + dir.delta)).blocks_rat = true
      ∧ ¬ (rat_pos + dir.delta = player ∧ dir = blocked_dir)) with
  | some dir => h.begin_move ⟨Cell.Rat dir, rat_pos, 0, rat_pos + dir.delta⟩
  | none =>
    match Dir8.from_delta (player - rat_pos) with
    | some face_dir => h.begin_move ⟨Cell.Rat face_dir, rat_pos, 1, rat_pos⟩
    | none => h

/-- Companion of `MoveHandler::move_rats`. -/
def MoveHandler.move_rats (h : MoveHandler) (player : Position)
    (player_facing : Dir4) : MoveHandler :=
  let blocked_dir := player_facing.opposite
  let rats := sortBy (ratKeyLE player) ((h.grid.find_entities isRatOnlyCell).map Prod.fst)
  processList (ratStep player blocked_dir) rats h

/-- Companion of `MoveHandler::do_player_move` (`player.rs`): the player phase
followed by the cyborg and rat phases; the grid is then rolled back to the
pre-turn snapshot with each mover's origin cleared. -/
def MoveHandler.do_player_move (h : MoveHandler) (m : Action) : MoveHandler :=
  match h.find_player with
  | none => h
  | some pd =>
    let player_pos := pd.1
    let current_dir := pd.2
    let prev_grid := h.grid
    let step1 : MoveHandler × Position × Dir4 :=
      match m with
      | Action.Move dir =>
        let candidate := player_pos + dir.delta
        let blocked := (h.grid.at' candidate).blocks_player
        let new_pos := if blocked then player_pos else candidate
        (h.begin_move ⟨Cell.Player dir, player_pos, if blocked then 1 else 0, new_pos⟩,
         new_pos, dir)
      | Action.Stall => (h, player_pos, current_dir)
    let h2 := step1.1.move_cyborg_rats step1.2.1 step1.2.2
    let h3 := h2.move_rats step1.2.1 step1.2.2
    let g := h3.moving.foldl (fun g mv => g.setCell mv.from_ Cell.Empty) prev_grid
    { h3 with grid := g }

/-- Progress update `(p + dt * MOVE_SPEED).min(1.0)`; `none` is the infinite
time delta of `resolve_all`, for which the result is exactly `1`. -/
def dtProg (p : ℚ) (dt : Option ℚ) : ℚ :=
  match dt with
  | none => 1
  | some d => min (p + d * MOVE_SPEED) 1

/-- Time-delta bookkeeping `*dt -= max_advancement / MOVE_SPEED`; subtracting
from the infinite delta leaves it infinite. -/
def dtSub (dt : Option ℚ) (adv : ℚ) : Option ℚ :=
  dt.map fun d => d - adv / MOVE_SPEED

/-- The per-batch progress loop of `advance_animation` for `Moving` records:
returns the updated records, `max_advancement`, and `all_done`. -/
def advanceMoving (dt : Option ℚ) (l : List Moving) : List Moving × ℚ × Bool :=
  (l.map fun m => { m with progress := dtProg m.progress dt },
   l.foldl (fun acc m => max acc (1 - m.progress)) 0,
   l.all fun m => decide (¬ dtProg m.progress dt < 1))

/-- The per-batch progress loop for `Zapping` records. -/
def advanceZapping (dt : Option ℚ) (l : List Zapping) : List Zapping × ℚ × Bool :=
  (l.map fun z => { z with progress := dtProg z.progress dt },
   l.foldl (fun acc z => max acc (1 - z.progress)) 0,
   l.all fun z => decide (¬ dtProg z.progress dt < 1))

/-- The per-batch progress loop for `Exploding` records. -/
def advanceExploding (dt : Option ℚ) (l : List Exploding) :
    List Exploding × ℚ × Bool :=
  (l.map fun e => { e with progress := dtProg e.progress dt },
   l.foldl (fun acc e => max acc (1 - e.progress)) 0,
   l.all fun e => decide (¬ dtProg e.progress dt < 1))

/-- One drained `Moving` record of `finish_moving`: black holes swallow the
entity, explosives and triggers are queued (deduplicated), and the entity is
placed at its destination. -/
def finishStep (acc : Grid × List Position × List Nat) (m : Moving) :
    Grid × List Position × List Nat :=
  match acc.1.at' m.to' with
  | Cell.BlackHole => acc
  | Cell.Explosive =>
    (acc.1.setCell m.to' m.cell,
     if m.to' ∈ acc.2.1 then acc.2.1 else acc.2.1 ++ [m.to'], acc.2.2)
  | Cell.Trigger n =>
    (acc.1.setCell m.to' m.cell, acc.2.1,
     if n ∈ acc.2.2 then acc.2.2 else acc.2.2 ++ [n])
  | _ => (acc.1.setCell m.to' m.cell, acc.2.1, acc.2.2)

/-- Companion of `MoveHandler::finish_moving`: drain the `moving` queue,
placing each surviving entity, queueing triggers and explosives. -/
def MoveHandler.finish_moving (h : MoveHandler) : MoveHandler :=
  let res := h.moving.foldl finishStep (h.grid, h.pending_explosions, h.triggered_numbers)
  { h with
    grid := res.1
    moving := []
    pending_explosions := res.2.1
    triggered_numbers := res.2.2 }

/-- Companion of `MoveHandler::start_zap_wave` (`zap.rs`). -/
def MoveHandler.start_zap_wave (h : MoveHandler) : MoveHandler :=
  let numbers := h.triggered_numbers
  let zap_positions := (h.grid.entries.filter fun pc =>
    match pc.2 with
    | Cell.Trigger n => decide (n ∈ numbers)
    | _ => false).map Prod.fst
  let g := zap_positions.foldl (fun g p => g.setCell p Cell.Wall) h.grid
  { h with
    triggered_numbers := []
    grid := g
    zapping := zap_positions.map fun p => (⟨p, 0⟩ : Zapping) }

/-- One neighbour inspection of `finish_zap_wave`. -/
def zapStep (acc : Grid × List Position) (pos : Position) : Grid × List Position :=
  match acc.1.at' pos with
  | Cell.Empty => (acc.1.setCell pos Cell.Wall, acc.2)
  | Cell.Explosive => (acc.1, if pos ∈ acc.2 then acc.2 else acc.2 ++ [pos])
  | _ => acc

/-- Companion of `MoveHandler::finish_zap_wave`: the nested loops over zap
records and their eight neighbours, flattened in the same order. -/
def MoveHandler.finish_zap_wave (h : MoveHandler) : MoveHandler :=
  let targets := h.zapping.flatMap fun z => Dir8.all.map fun dir => z.pos + dir.delta
  let res := targets.foldl zapStep (h.grid, h.pending_explosions)
  { h with grid := res.1, zapping := [], pending_explosions := res.2 }

/-- Companion of `MoveHandler::start_explosion_wave` (`explosion.rs`). -/
def MoveHandler.start_explosion_wave (h : MoveHandler) : MoveHandler :=
  let g := h.pending_explosions.foldl (fun g p => g.setCell p Cell.Empty) h.grid
  { h with
    grid := g
    pending_explosions := []
    exploding := h.pending_explosions.map fun p => (⟨p, 0⟩ : Exploding) }

/-- One neighbour inspection of `finish_explosion_wave`. -/
def explodeStep (acc : Grid × List Position) (pos : Position) :
    Grid × List Position :=
  match acc.1.at' pos with
  | Cell.Explosive => (acc.1, if pos ∈ acc.2 then acc.2 else acc.2 ++ [pos])
  | Cell.Rat _ | Cell.CyborgRat _ | Cell.Player _ | Cell.Spiderweb | Cell.Plank =>
    (acc.1.setCell pos Cell.Empty, acc.2)
  | _ => acc

/-- Companion of `MoveHandler::finish_explosion_wave`: the nested loops over
explosion records and their eight neighbours, flattened in the same order. -/
def MoveHandler.finish_explosion_wave (h : MoveHandler) : MoveHandler :=
  let targets := h.exploding.flatMap fun e => Dir8.all.map fun dir => e.pos + dir.delta
  let res := targets.foldl explodeStep (h.grid, h.pending_explosions)
  { h with grid := res.1, exploding := [], pending_explosions := res.2 }

/-- The `moving` block of `advance_animation`: `Sum.inl` carries on to the zap
block (with the updated time delta); `Sum.inr` is the early `return false`. -/
def movingPhase (dt : Option ℚ) (h : MoveHandler) :
    (MoveHandler × Option ℚ) ⊕ MoveHandler :=
  if h.moving = [] then Sum.inl (h, dt)
  else
    let amv := advanceMoving dt h.moving
    if amv.2.2 then
      Sum.inl (MoveHandler.finish_moving { h with moving := amv.1 }, dtSub dt amv.2.1)
    else Sum.inr { h with moving := amv.1 }

/-- The `zapping` block of `advance_animation`. -/
def zapPhase (dt : Option ℚ) (h : MoveHandler) :
    (MoveHandler × Option ℚ) ⊕ MoveHandler :=
  if h.zapping = [] then Sum.inl (h, dt)
  else
    let az := advanceZapping dt h.zapping
    if az.2.2 then
      Sum.inl (MoveHandler.finish_zap_wave { h with zapping := az.1 }, dtSub dt az.2.1)
    else Sum.inr { h with zapping := az.1 }

/-- The explosion `while` loop of `advance_animation`, with fuel. -/
def explosionLoop : Nat → Option ℚ → MoveHandler → MoveHandler × Option ℚ × Bool
  | 0, dt, h =>
    if h.pending_explosions = [] ∧ h.exploding = [] then (h, dt, true)
    else (h, dt, false)
  | fuel + 1, dt, h =>
    if h.pending_explosions = [] ∧ h.exploding = [] then (h, dt, true)
    else
      let h1 := if h.exploding = [] then h.start_explosion_wave else h
      let aex := advanceExploding dt h1.exploding
      if aex.2.2 then
        explosionLoop fuel (dtSub dt aex.2.1)
          (MoveHandler.finish_explosion_wave { h1 with exploding := aex.1 })
      else ({ h1 with exploding := aex.1 }, dt, false)

/-- Companion of `MoveHandler::advance_animation`: moving block, zap start,
zap block, explosion loop.  Returns the new state, the remaining time delta,
and whether everything completed. -/
def advanceAnimation (fuel : Nat) (dt : Option ℚ) (h : MoveHandler) :
    MoveHandler × Option ℚ × Bool :=
  match movingPhase dt h with
  | Sum.inr h' => (h', dt, false)
  | Sum.inl hd1 =>
    let h2 := if hd1.1.triggered_numbers = [] then hd1.1
      else hd1.1.start_zap_wave
    match zapPhase hd1.2 h2 with
    | Sum.inr h' => (h', hd1.2, false)
    | Sum.inl hd3 => explosionLoop fuel hd3.2 hd3.1

/-- In-bounds positions of the grid, row-major. -/
def gridPositions (g : Grid) : List Position :=
  (List.range g.height).flatMap fun (y : Nat) =>
    (List.range g.width).map fun (x : Nat) => Position.mk (x : Int) (y : Int)

/-- Count of `Explosive` cells away from the pending queue; the termination
measure of the explosion loop is built from it. -/
def countENP (g : Grid) (P : List Position) : Nat :=
  (gridPositions g).countP fun p => decide (g.at' p = Cell.Explosive ∧ ¬ p ∈ P)

/-- Canonical fuel for the explosion loop: strictly more than the loop's
termination measure `2 * countENP + 2 * pending.length (+1)`. -/
def explosionFuel (h : MoveHandler) : Nat :=
  2 * (countENP h.grid [] + h.pending_explosions.length) + 2

/-- Companion of `MoveHandler::resolve_all`: advance with an infinite time
delta.  The source asserts completion; completion is proved below for every
state the game reaches. -/
def MoveHandler.resolve_all (h : MoveHandler) : MoveHandler :=
  (advanceAnimation (explosionFuel h) none h).1

/-- Companion of `game.rs`: `GameState` (the portal/note-free part used by the
claims; `completed_levels` is carried opaquely). -/
structure GameState where
  grid : Grid
  initial_grid : Grid
  history : List Grid
  queued_move : Option Action
  completed_levels : List String
deriving DecidableEq

def GameState.new (grid : Grid) (completed_levels : List String) : GameState :=
  ⟨grid, grid, [grid], none, completed_levels⟩

/-- Companion of `GameState::find_player`. -/
def GameState.find_player (gs : GameState) : Option (Position × Dir4) :=
  match (gs.grid.find_entities isPlayerCell).head? with
  | some pc =>
    match pc.2 with
    | Cell.Player d => some (pc.1, d)
    | _ => none
  | none => none

/-- Companion of `GameState::initial_has_rats`. -/
def GameState.initial_has_rats (gs : GameState) : Bool :=
  gs.initial_grid.entries.any fun pc => isRatLikeCell pc.2

/-- Companion of `GameState::play_state`. -/
def GameState.play_state (gs : GameState) : PlayState :=
  let ps := gs.grid.play_state
  if ps = PlayState.GameOver then PlayState.GameOver
  else if gs.initial_has_rats then ps
  else PlayState.Playing

/-- Companion of `game.rs`: `Game`. -/
structure Game where
  state : GameState
  animation : Option MoveHandler
deriving DecidableEq

def Game.new (grid : Grid) (completed_levels : List String) : Game :=
  ⟨GameState.new grid completed_levels, none⟩

def Game.is_animating (g : Game) : Bool :=
  g.animation.isSome

/-- Companion of `Game::restart`. -/
def Game.restart (g : Game) : Game :=
  { state :=
      { g.state with
        grid := g.state.initial_grid
        history := [g.state.initial_grid]
        queued_move := none }
    animation := none }

/-- Companion of `Game::undo`.  The source pops the history and then reads
`history.last().unwrap()`; the unreachable empty case is the identity. -/
def Game.undo (g : Game) : Game :=
  if 1 < g.state.history.length then
    match (g.state.history.dropLast).getLast? with
    | some gr =>
      { state :=
          { g.state with
            history := g.state.history.dropLast
            grid := gr
            queued_move := none }
        animation := none }
    | none => g
  else g

/-- Companion of `Game::apply_action`: the returned `Bool` is the source's
return value. -/
def Game.apply_action (g : Game) (m : Action) : Game × Bool :=
  if g.state.play_state ≠ PlayState.Playing ∨ g.state.find_player = none then
    (g, false)
  else
    let resolved := ((MoveHandler.new g.state.grid).do_player_move m).resolve_all
    ({ g with
      state :=
        { g.state with
          grid := resolved.grid
          history := g.state.history ++ [resolved.grid] } }, true)

/-- Companion of `Game::begin_action`: instant resolution via `apply_action`,
then a second handler on the pre-turn grid for animation. -/
def Game.begin_action (g : Game) (m : Action) : Game :=
  let prev_grid := g.state.grid
  let ab := g.apply_action m
  if ab.2 = false then ab.1
  else
    let animator := (MoveHandler.new prev_grid).do_player_move m
    if animator.is_empty then ab.1
    else { ab.1 with animation := some animator }

/-- Companion of `Game::try_begin_action`. -/
def Game.try_begin_action (g : Game) (m : Action) : Game :=
  if g.is_animating then
    if g.state.queued_move = none then
      { g with state := { g.state with queued_move := some m } }
    else g
  else g.begin_action m

/-- Repeatedly advancing the animation by finite time deltas, as the driver
`Game::animate` does each frame, until a call reports completion; `none` when
the supplied deltas are exhausted before completion. -/
def runAnimation : List ℚ → MoveHandler → Option MoveHandler
  | [], _ => none
  | d :: rest, h =>
    let r := advanceAnimation (explosionFuel h) (some d) h
    if r.2.2 then some r.1 else runAnimation rest r.1


/-- Claim C3: for every `GameState`, `play_state()` returns `GameOver` exactly
when the current grid has no `Player` cell; otherwise it returns `Won` exactly
when the current grid has no `Rat`/`CyborgRat` cell and the level's initial
grid had at least one; in every other case it returns `Playing` (a level whose
initial grid had zero rats reports `Playing`, never `Won`, while a player
exists). -/
theorem c3_play_state_characterization (gs : GameState) :
    (gs.play_state = PlayState.GameOver ↔ ¬ ∃ pc ∈ gs.grid.entries, isPlayerCell pc.2 = true) ∧
    (gs.play_state = PlayState.Won ↔
      ((∃ pc ∈ gs.grid.entries, isPlayerCell pc.2 = true)
        ∧ (¬ ∃ pc ∈ gs.grid.entries, isRatLikeCell pc.2 = true)
        ∧ (∃ pc ∈ gs.initial_grid.entries, isRatLikeCell pc.2 = true))) ∧
    (gs.play_state = PlayState.Playing ↔
      ((∃ pc ∈ gs.grid.entries, isPlayerCell pc.2 = true)
        ∧ ((∃ pc ∈ gs.grid.entries, isRatLikeCell pc.2 = true)
            ∨ ¬ ∃ pc ∈ gs.initial_grid.entries, isRatLikeCell pc.2 = true))) := by
  have hplayer : gs.grid.find_entities isPlayerCell = []
      ↔ ¬ ∃ pc ∈ gs.grid.entries, isPlayerCell pc.2 = true := by
    unfold Grid.find_entities
    rw [List.filter_eq_nil_iff]
    simp
  have hrats : gs.grid.find_entities isRatLikeCell = []
      ↔ ¬ ∃ pc ∈ gs.grid.entries, isRatLikeCell pc.2 = true := by
    unfold Grid.find_entities
    rw [List.filter_eq_nil_iff]
    simp
  have hinit : gs.initial_has_rats = true
      ↔ ∃ pc ∈ gs.initial_grid.entries, isRatLikeCell pc.2 = true := by
    unfold GameState.initial_has_rats
    rw [List.any_eq_true]
  unfold GameState.play_state Grid.play_state
  by_cases hA : ∃ pc ∈ gs.grid.entries, isPlayerCell pc.2 = true <;>
    by_cases hB : ∃ pc ∈ gs.grid.entries, isRatLikeCell pc.2 = true <;>
      by_cases hC : ∃ pc ∈ gs.initial_grid.entries, isRatLikeCell pc.2 = true <;>
        (simp only [hplayer, hrats, hinit]; simp [hA, hB, hC])

/-- Claim C8: `apply_action` returns `false` — leaving the whole game state
unchanged — exactly when `play_state()` is not `Playing` or no player cell
exists; when it returns `true` it resolves the turn instantly and appends
exactly one grid snapshot (the resolved grid) to the history, changing
nothing else. -/
theorem c8_apply_action_total (g : Game) (m : Action) :
    ((g.apply_action m).2 = false ↔
      (g.state.play_state ≠ PlayState.Playing ∨ g.state.find_player = none)) ∧
    ((g.apply_action m).2 = false → (g.apply_action m).1 = g) ∧
    ((g.apply_action m).2 = true →
      (g.apply_action m).1.state.grid
          = ((MoveHandler.new g.state.grid).do_player_move m).resolve_all.grid
        ∧ (g.apply_action m).1.state.history
          = g.state.history
            ++ [((MoveHandler.new g.state.grid).do_player_move m).resolve_all.grid]
        ∧ (g.apply_action m).1.state.initial_grid = g.state.initial_grid
        ∧ (g.apply_action m).1.state.queued_move = g.state.queued_move
        ∧ (g.apply_action m).1.state.completed_levels = g.state.completed_levels
        ∧ (g.apply_action m).1.animation = g.animation) := by
  unfold Game.apply_action
  by_cases hc : g.state.play_state ≠ PlayState.Playing ∨ g.state.find_player = none
  · rw [if_pos hc]
    simp [hc]
  · rw [if_neg hc]
    simp [hc]

/-- Claim C10: `restart()` resets the grid and history to the initial layout
and cancels both the in-flight animation and any buffered queued move;
`undo()` with more than the initial history entry pops one snapshot and
likewise cancels animation and queued move; `undo()` when the history holds
only the initial entry changes nothing at all. -/
theorem c10_undo_restart_cancel (g : Game) :
    (g.restart.animation = none ∧ g.restart.state.queued_move = none
      ∧ g.restart.state.grid = g.state.initial_grid
      ∧ g.restart.state.history = [g.state.initial_grid]
      ∧ g.restart.is_animating = false) ∧
    (1 < g.state.history.length →
      g.undo.animation = none ∧ g.undo.state.queued_move = none
        ∧ g.undo.state.history = g.state.history.dropLast
        ∧ (g.state.history.dropLast).getLast? = some g.undo.state.grid
        ∧ g.undo.is_animating = false) ∧
    (¬ 1 < g.state.history.length → g.undo = g) := by
  refine ⟨?_, ?_, ?_⟩
  · unfold Game.restart Game.is_animating
    simp
  · intro hlen
    have hne : g.state.history.dropLast ≠ [] := by
      intro hnil
      have := congrArg List.length hnil
      rw [List.length_dropLast] at this
      simp at this
      omega
    have hsome : (g.state.history.dropLast).getLast?.isSome := by
      rw [Option.isSome_iff_ne_none]
      intro hnone
      exact hne (List.getLast?_eq_none_iff.mp hnone)
    obtain ⟨gr, hgr⟩ := Option.isSome_iff_exists.mp hsome
    unfold Game.undo Game.is_animating
    rw [if_pos hlen, hgr]
    simp [hgr]
  · intro hlen
    unfold Game.undo
    rw [if_neg hlen]


theorem c8_apply_action_total_witness :
    ((Game.new (⟨[[Cell.Player Dir4.South, Cell.Rat Dir8.West]]⟩ : Grid) []).apply_action
        Action.Stall).1.state.history
      = (Game.new (⟨[[Cell.Player Dir4.South, Cell.Rat Dir8.West]]⟩ : Grid) []).state.history
        ++ [((MoveHandler.new (Game.new (⟨[[Cell.Player Dir4.South, Cell.Rat Dir8.West]]⟩ : Grid)
            []).state.grid).do_player_move Action.Stall).resolve_all.grid] :=
  ((c8_apply_action_total
      (Game.new (⟨[[Cell.Player Dir4.South, Cell.Rat Dir8.West]]⟩ : Grid) [])
      Action.Stall).2.2 (by decide)).2.1

theorem c10_undo_restart_cancel_witness :
    (((Game.new (⟨[[Cell.Player Dir4.South, Cell.Rat Dir8.West]]⟩ : Grid) []).apply_action
        Action.Stall).1.undo).state.history
      = ((Game.new (⟨[[Cell.Player Dir4.South, Cell.Rat Dir8.West]]⟩ : Grid) []).apply_action
          Action.Stall).1.state.history.dropLast :=
  ((c10_undo_restart_cancel
      ((Game.new (⟨[[Cell.Player Dir4.South, Cell.Rat Dir8.West]]⟩ : Grid) []).apply_action
        Action.Stall).1).2.1 (by decide)).2.2.1


theorem foldl_preserve {α β : Type} (P : β → Prop) (f : β → α → β)
    (l : List α) (b : β) (hb : P b) (hf : ∀ b a, P b → P (f b a)) :
    P (l.foldl f b) := by
  induction l generalizing b with
  | nil => exact hb
  | cons a rest ih => exact ih _ (hf _ _ hb)

theorem MoveHandler.moving_begin_move (h : MoveHandler) (m : Moving) :
    (h.begin_move m).moving = h.moving ++ [m] := rfl

theorem processList_moving {α : Type} (step : MoveHandler → α → MoveHandler)
    (Q : Moving → Prop)
    (hstep : ∀ h a m, m ∈ (step h a).moving → m ∈ h.moving ∨ Q m) :
    ∀ (l : List α) (h : MoveHandler) (m : Moving),
      m ∈ (processList step l h).moving → m ∈ h.moving ∨ Q m := by
  intro l
  induction l with
  | nil =>
    intro h m hm
    exact Or.inl hm
  | cons a rest ih =>
    intro h m hm
    rcases ih _ m hm with hin | hq
    · exact hstep _ _ _ hin
    · exact Or.inr hq

theorem Dir8.delta_ne_zero (d : Dir8) : d.delta ≠ (⟨0, 0⟩ : PositionDelta) := by
  cases d <;> decide

theorem Position.add_delta_cancel (p : Position) (d1 d2 : PositionDelta)
    (h : p + d1 = p + d2) : d1 = d2 := by
  rw [Position.add_def, Position.add_def, Position.mk.injEq] at h
  cases d1
  cases d2
  simp only [PositionDelta.mk.injEq]
  simp only at h
  omega

theorem Position.ne_add_delta_of_ne_zero (p : Position) (d : PositionDelta)
    (hd : d ≠ (⟨0, 0⟩ : PositionDelta)) : p ≠ p + d := by
  intro h
  apply hd
  cases d
  rw [Position.add_def] at h
  have h2 := congrArg Position.x h
  have h3 := congrArg Position.y h
  simp only at h2 h3
  simp only [PositionDelta.mk.injEq]
  omega

/-- What a successful `best_move` selection in `move_cyborg_rats` guarantees:
the destination was looked up in the distance map, its distance is not
`ONE_ORTHO`, it is not a frontal attack, and it does not block cyborg rats. -/
theorem cyborgBestMove_spec (distances : List (Position × CyborgDistance))
    (g : Grid) (blocked_dir : Dir8) (player : Position)
    (cd : CyborgDistance) (pos : Position) :
    ∀ dir td, cyborgBestMove distances g blocked_dir player cd pos = some (dir, td) →
      distances.lookup (pos + dir.delta) = some td
        ∧ td ≠ CyborgDistance.ONE_ORTHO
        ∧ ¬ (pos + dir.delta = player ∧ dir = blocked_dir)
        ∧ (g.at' (pos + dir.delta)).blocks_cyborg_rat = false := by
  unfold cyborgBestMove
  refine foldl_preserve
    (fun best => ∀ dir td, best = some (dir, td) →
      distances.lookup (pos + dir.delta) = some td
        ∧ td ≠ CyborgDistance.ONE_ORTHO
        ∧ ¬ (pos + dir.delta = player ∧ dir = blocked_dir)
        ∧ (g.at' (pos + dir.delta)).blocks_cyborg_rat = false)
    _ Dir8.all none (by intro dir td hcon; cases hcon) ?_
  intro b a hb
  simp only
  rcases hl : distances.lookup (pos + a.delta) with _ | target
  · exact hb
  dsimp only
  by_cases c1 : ¬ cdLt target cd = true ∧ cd ≠ CyborgDistance.ONE_ORTHO
  · rw [if_pos c1]
    exact hb
  rw [if_neg c1]
  by_cases c2 : target = CyborgDistance.ONE_ORTHO
  · rw [if_pos c2]
    exact hb
  rw [if_neg c2]
  by_cases c3 : pos + a.delta = player ∧ a = blocked_dir
  · rw [if_pos c3]
    exact hb
  rw [if_neg c3]
  by_cases c4 : (g.at' (pos + a.delta)).blocks_cyborg_rat = true
  · rw [if_pos c4]
    exact hb
  rw [if_neg c4]
  have hgood : distances.lookup (pos + a.delta) = some target
      ∧ target ≠ CyborgDistance.ONE_ORTHO
      ∧ ¬ (pos + a.delta = player ∧ a = blocked_dir)
      ∧ (g.at' (pos + a.delta)).blocks_cyborg_rat = false :=
    ⟨hl, c2, c3, by simpa using c4⟩
  rcases b with _ | ⟨bdir, bdist⟩
  · intro dir td hres
    simp only [Option.some.injEq, Prod.mk.injEq] at hres
    obtain ⟨rfl, rfl⟩ := hres
    exact hgood
  · dsimp only
    by_cases c5 : cdLt target bdist = true
    · rw [if_pos c5]
      intro dir td hres
      simp only [Option.some.injEq, Prod.mk.injEq] at hres
      obtain ⟨rfl, rfl⟩ := hres
      exact hgood
    · rw [if_neg c5]
      exact hb

/-- Claim C4: the cyborg move-selection loop never chooses a destination cell
whose Dijkstra distance (from the player's post-move position) equals
`ONE_ORTHO`, even when the cyborg is fleeing from distance `ONE_ORTHO`: every
record added by the cyborg-rat phase is either a turn in place
(`to' = from_`, the only-legal-action exception) or targets a cell whose
distance is not `ONE_ORTHO`. -/
theorem c4_cyborg_never_moves_to_one_ortho (h : MoveHandler) (player : Position)
    (facing : Dir4) :
    ∀ m ∈ (h.move_cyborg_rats player facing).moving,
      m ∈ h.moving ∨ m.to' = m.from_
        ∨ (compute_cyborg_distances h.grid player).lookup m.to'
            ≠ some CyborgDistance.ONE_ORTHO := by
  intro m hm
  simp only [MoveHandler.move_cyborg_rats] at hm
  have hQturn : ∀ (hh : MoveHandler) (a : Position) (mm : Moving),
      mm ∈ (cyborgTurnStep player hh a).moving →
        mm ∈ hh.moving ∨ (mm.to' = mm.from_
          ∨ (compute_cyborg_distances h.grid player).lookup mm.to'
              ≠ some CyborgDistance.ONE_ORTHO) := by
    intro hh a mm hmm
    unfold cyborgTurnStep at hmm
    rcases hfd : Dir8.from_delta (player - a) with _ | fd
    · rw [hfd] at hmm
      exact Or.inl hmm
    · rw [hfd] at hmm
      rw [MoveHandler.moving_begin_move] at hmm
      rcases List.mem_append.mp hmm with h1 | h1
      · exact Or.inl h1
      · rw [List.mem_singleton] at h1
        subst h1
        exact Or.inr (Or.inl rfl)
  have hQmove : ∀ (hh : MoveHandler) (a : CyborgDistance × Position) (mm : Moving),
      mm ∈ (cyborgMoveStep (compute_cyborg_distances h.grid player)
          facing.opposite player hh a).moving →
        mm ∈ hh.moving ∨ (mm.to' = mm.from_
          ∨ (compute_cyborg_distances h.grid player).lookup mm.to'
              ≠ some CyborgDistance.ONE_ORTHO) := by
    intro hh a mm hmm
    unfold cyborgMoveStep at hmm
    rcases hbm : cyborgBestMove (compute_cyborg_distances h.grid player) hh.grid
        facing.opposite player a.1 a.2 with _ | dirdist
    · rw [hbm] at hmm
      exact hQturn _ _ _ hmm
    · rw [hbm] at hmm
      rw [MoveHandler.moving_begin_move] at hmm
      rcases List.mem_append.mp hmm with h1 | h1
      · exact Or.inl h1
      · rw [List.mem_singleton] at h1
        subst h1
        obtain ⟨hlook, hne, _, _⟩ :=
          cyborgBestMove_spec (compute_cyborg_distances h.grid player) hh.grid
            facing.opposite player a.1 a.2 dirdist.1 dirdist.2 (by rw [hbm])
        refine Or.inr (Or.inr ?_)
        simp only
        rw [hlook]
        intro hcon
        exact hne (by injection hcon)
  rcases processList_moving _ _ hQmove _ _ m hm with h1 | hq
  · rcases processList_moving _ _ hQturn _ _ m h1 with h2 | hq2
    · exact Or.inl h2
    · exact Or.inr hq2
  · exact Or.inr hq


theorem Dir8.delta_injective : ∀ d1 d2 : Dir8, d1.delta = d2.delta → d1 = d2 := by
  intro d1 d2 h
  revert h
  cases d1 <;> cases d2 <;> decide

/-- Claim C5: no rat and no cyborg rat ever moves into the player's cell via
the direction opposite the player's facing (the frontal sword block): every
record added by either creature phase either does not target the player's
cell or did not approach it from directly in front. -/
theorem c5_no_frontal_attack (h : MoveHandler) (player : Position)
    (facing : Dir4) :
    (∀ m ∈ (h.move_rats player facing).moving,
      m ∈ h.moving
        ∨ ¬ (m.to' = player ∧ m.to' = m.from_ + (facing.opposite).delta)) ∧
    (∀ m ∈ (h.move_cyborg_rats player facing).moving,
      m ∈ h.moving
        ∨ ¬ (m.to' = player ∧ m.to' = m.from_ + (facing.opposite).delta)) := by
  have hturnQ : ∀ (cell : Dir8 → Cell) (hh : MoveHandler) (a : Position) (mm : Moving)
      (fd : Dir8), mm ∈ (hh.begin_move ⟨cell fd, a, 1, a⟩).moving →
        mm ∈ hh.moving
          ∨ ¬ (mm.to' = player ∧ mm.to' = mm.from_ + (facing.opposite).delta) := by
    intro cell hh a mm fd hmm
    rw [MoveHandler.moving_begin_move] at hmm
    rcases List.mem_append.mp hmm with h1 | h1
    · exact Or.inl h1
    · rw [List.mem_singleton] at h1
      subst h1
      refine Or.inr ?_
      rintro ⟨_, hd⟩
      exact Position.ne_add_delta_of_ne_zero a _ (Dir8.delta_ne_zero facing.opposite) hd
  refine ⟨?_, ?_⟩
  · intro m hm
    simp only [MoveHandler.move_rats] at hm
    refine processList_moving _
      (fun mm => ¬ (mm.to' = player ∧ mm.to' = mm.from_ + (facing.opposite).delta))
      ?_ _ _ m hm
    intro hh a mm hmm
    unfold ratStep at hmm
    split at hmm
    · rename_i dir hfind
      rw [MoveHandler.moving_begin_move] at hmm
      rcases List.mem_append.mp hmm with h1 | h1
      · exact Or.inl h1
      · rw [List.mem_singleton] at h1
        subst h1
        refine Or.inr ?_
        rintro ⟨hp, hd⟩
        simp only at hp hd
        have hpred := List.find?_some hfind
        rw [decide_eq_true_eq] at hpred
        have hdir : dir = facing.opposite :=
          Dir8.delta_injective _ _ (Position.add_delta_cancel a _ _ hd)
        exact hpred.2 ⟨hp, hdir⟩
    · split at hmm
      · rename_i fd hfd
        exact hturnQ Cell.Rat hh a mm fd hmm
      · exact Or.inl hmm
  · intro m hm
    simp only [MoveHandler.move_cyborg_rats] at hm
    have hQturn : ∀ (hh : MoveHandler) (a : Position) (mm : Moving),
        mm ∈ (cyborgTurnStep player hh a).moving →
          mm ∈ hh.moving
            ∨ ¬ (mm.to' = player ∧ mm.to' = mm.from_ + (facing.opposite).delta) := by
      intro hh a mm hmm
      unfold cyborgTurnStep at hmm
      rcases hfd : Dir8.from_delta (player - a) with _ | fd
      · rw [hfd] at hmm
        exact Or.inl hmm
      · rw [hfd] at hmm
        exact hturnQ Cell.CyborgRat hh a mm fd hmm
    have hQmove : ∀ (hh : MoveHandler) (a : CyborgDistance × Position) (mm : Moving),
        mm ∈ (cyborgMoveStep (compute_cyborg_distances h.grid player)
            facing.opposite player hh a).moving →
          mm ∈ hh.moving
            ∨ ¬ (mm.to' = player ∧ mm.to' = mm.from_ + (facing.opposite).delta) := by
      intro hh a mm hmm
      unfold cyborgMoveStep at hmm
      rcases hbm : cyborgBestMove (compute_cyborg_distances h.grid player) hh.grid
          facing.opposite player a.1 a.2 with _ | dirdist
      · rw [hbm] at hmm
        exact hQturn _ _ _ hmm
      · rw [hbm] at hmm
        rw [MoveHandler.moving_begin_move] at hmm
        rcases List.mem_append.mp hmm with h1 | h1
        · exact Or.inl h1
        · rw [List.mem_singleton] at h1
          subst h1
          obtain ⟨_, _, hfr, _⟩ :=
            cyborgBestMove_spec (compute_cyborg_distances h.grid player) hh.grid
              facing.opposite player a.1 a.2 dirdist.1 dirdist.2 (by rw [hbm])
          refine Or.inr ?_
          rintro ⟨hp, hd⟩
          simp only at hp hd
          have hdir : dirdist.1 = facing.opposite :=
            Dir8.delta_injective _ _ (Position.add_delta_cancel a.2 _ _ hd)
          exact hfr ⟨hp, hdir⟩
    rcases processList_moving _ _ hQmove _ _ m hm with h1 | hq
    · rcases processList_moving _ _ hQturn _ _ m h1 with h2 | hq2
      · exact Or.inl h2
      · exact Or.inr hq2
    · exact Or.inr hq


theorem c4_cyborg_never_moves_to_one_ortho_witness :
    (⟨Cell.CyborgRat Dir8.East, ⟨0, 0⟩, 0, ⟨1, 0⟩⟩ : Moving)
        ∈ (MoveHandler.new
            (⟨[[Cell.CyborgRat Dir8.East, Cell.Empty, Cell.Empty,
                Cell.Player Dir4.West]]⟩ : Grid)).moving
      ∨ (⟨Cell.CyborgRat Dir8.East, ⟨0, 0⟩, 0, ⟨1, 0⟩⟩ : Moving).to'
          = (⟨Cell.CyborgRat Dir8.East, ⟨0, 0⟩, 0, ⟨1, 0⟩⟩ : Moving).from_
      ∨ (compute_cyborg_distances
            (MoveHandler.new
              (⟨[[Cell.CyborgRat Dir8.East, Cell.Empty, Cell.Empty,
                  Cell.Player Dir4.West]]⟩ : Grid)).grid
            (⟨3, 0⟩ : Position)).lookup
            (⟨Cell.CyborgRat Dir8.East, ⟨0, 0⟩, 0, ⟨1, 0⟩⟩ : Moving).to'
          ≠ some CyborgDistance.ONE_ORTHO :=
  c4_cyborg_never_moves_to_one_ortho
    (MoveHandler.new
      (⟨[[Cell.CyborgRat Dir8.East, Cell.Empty, Cell.Empty,
          Cell.Player Dir4.West]]⟩ : Grid))
    ⟨3, 0⟩ Dir4.West
    ⟨Cell.CyborgRat Dir8.East, ⟨0, 0⟩, 0, ⟨1, 0⟩⟩ (by decide)

theorem c5_no_frontal_attack_witness :
    (⟨Cell.Rat Dir8.East, ⟨0, 0⟩, 0, ⟨1, 0⟩⟩ : Moving)
        ∈ (MoveHandler.new
            (⟨[[Cell.Rat Dir8.East, Cell.Empty, Cell.Empty,
                Cell.Player Dir4.West]]⟩ : Grid)).moving
      ∨ ¬ ((⟨Cell.Rat Dir8.East, ⟨0, 0⟩, 0, ⟨1, 0⟩⟩ : Moving).to' = (⟨3, 0⟩ : Position)
            ∧ (⟨Cell.Rat Dir8.East, ⟨0, 0⟩, 0, ⟨1, 0⟩⟩ : Moving).to'
              = (⟨Cell.Rat Dir8.East, ⟨0, 0⟩, 0, ⟨1, 0⟩⟩ : Moving).from_
                + (Dir4.West.opposite).delta) :=
  (c5_no_frontal_attack
    (MoveHandler.new
      (⟨[[Cell.Rat Dir8.East, Cell.Empty, Cell.Empty,
          Cell.Player Dir4.West]]⟩ : Grid))
    ⟨3, 0⟩ Dir4.West).1
    ⟨Cell.Rat Dir8.East, ⟨0, 0⟩, 0, ⟨1, 0⟩⟩ (by decide)


theorem finishStep_at'_ne (acc : Grid × List Position × List Nat) (m : Moving)
    (q : Position) (hne : q ≠ m.to') :
    (finishStep acc m).1.at' q = acc.1.at' q := by
  unfold finishStep
  split
  · rfl
  · exact Grid.at'_setCell_ne _ _ _ _ hne
  · exact Grid.at'_setCell_ne _ _ _ _ hne
  · exact Grid.at'_setCell_ne _ _ _ _ hne

theorem finishStep_rect (acc : Grid × List Position × List Nat) (m : Moving)
    (hR : acc.1.Rect) : (finishStep acc m).1.Rect := by
  unfold finishStep
  split
  · exact hR
  · exact hR.setCell _ _
  · exact hR.setCell _ _
  · exact hR.setCell _ _

theorem finishStep_trig_mono (acc : Grid × List Position × List Nat) (m : Moving)
    (n : Nat) (hn : n ∈ acc.2.2) : n ∈ (finishStep acc m).2.2 := by
  unfold finishStep
  split
  · exact hn
  · exact hn
  · dsimp only
    split
    · exact hn
    · exact List.mem_append_left _ hn
  · exact hn

theorem finish_fold_trigger (p : Position) (n : Nat) :
    ∀ (l : List Moving) (acc : Grid × List Position × List Nat),
      acc.1.Rect → (∀ m ∈ l, isEntityCell m.cell = true) →
      ((acc.1.at' p = Cell.Trigger n ∧ ∃ m ∈ l, m.to' = p) ∨
        (n ∈ acc.2.2 ∧ isEntityCell (acc.1.at' p) = true)) →
      n ∈ (l.foldl finishStep acc).2.2
        ∧ isEntityCell ((l.foldl finishStep acc).1.at' p) = true := by
  intro l
  induction l with
  | nil =>
    intro acc hR hent hcase
    rcases hcase with ⟨_, ⟨m, hm, _⟩⟩ | ⟨h1, h2⟩
    · cases hm
    · exact ⟨h1, h2⟩
  | cons m rest ih =>
    intro acc hR hent hcase
    rw [List.foldl_cons]
    apply ih (finishStep acc m) (finishStep_rect _ _ hR)
      (fun mm hmm => hent mm (List.mem_cons_of_mem _ hmm))
    rcases hcase with ⟨htrig, ⟨mw, hmw, hmwp⟩⟩ | ⟨h1, h2⟩
    · by_cases hmp : m.to' = p
      · right
        have hinb : p.in_bounds acc.1.bounds = true :=
          Grid.inb_of_at'_ne_wall (by rw [htrig]; intro hcon; cases hcon)
        have hstep : finishStep acc m
            = (acc.1.setCell m.to' m.cell, acc.2.1,
               if n ∈ acc.2.2 then acc.2.2 else acc.2.2 ++ [n]) := by
          unfold finishStep
          rw [hmp, htrig]
        rw [hstep]
        constructor
        · dsimp only
          split
          · assumption
          · exact List.mem_append_right _ (List.mem_singleton.mpr rfl)
        · dsimp only
          rw [hmp, Grid.at'_setCell_eq hR p m.cell hinb]
          exact hent m (List.mem_cons_self _ _)
      · left
        refine ⟨?_, ?_⟩
        · rw [finishStep_at'_ne _ _ _ (fun hcon => hmp hcon.symm)]
          exact htrig
        · rcases List.mem_cons.mp hmw with heq | hmw'
          · exact absurd (heq ▸ hmwp) hmp
          · exact ⟨mw, hmw', hmwp⟩
    · right
      refine ⟨finishStep_trig_mono _ _ _ h1, ?_⟩
      by_cases hmp : m.to' = p
      · have hinb : p.in_bounds acc.1.bounds = true := by
          refine Grid.inb_of_at'_ne_wall ?_
          intro hcon
          rw [hcon] at h2
          simp [isEntityCell] at h2
        have hstep1 : (finishStep acc m).1 = acc.1.setCell m.to' m.cell := by
          unfold finishStep
          rw [hmp]
          rcases hcell : acc.1.at' p with _ | _ | d | d | d | _ | _ | _ | _ | k <;>
            first
              | rfl
              | (rw [hcell] at h2; simp [isEntityCell] at h2)
        rw [hstep1, hmp, Grid.at'_setCell_eq hR p m.cell hinb]
        exact hent m (List.mem_cons_self _ _)
      · rw [finishStep_at'_ne _ _ _ (fun hcon => hmp hcon.symm)]
        exact h2

theorem foldl_setCell_at'_of_not_mem (c : Cell) (q : Position) :
    ∀ (l : List Position) (g : Grid), (∀ p ∈ l, p ≠ q) →
      (l.foldl (fun g p => g.setCell p c) g).at' q = g.at' q := by
  intro l
  induction l with
  | nil =>
    intro g _
    rfl
  | cons p rest ih =>
    intro g hl
    rw [List.foldl_cons]
    rw [ih _ (fun pp hpp => hl pp (List.mem_cons_of_mem _ hpp))]
    exact Grid.at'_setCell_ne _ _ _ _ (fun hcon => hl p (List.mem_cons_self _ _) hcon.symm)

/-- The zap wave start converts only cells that currently hold a queued
trigger; every other cell is untouched. -/
theorem start_zap_wave_at'_of_not_trigger (hh : MoveHandler) (q : Position)
    (hR : hh.grid.Rect) (hq : ∀ k, hh.grid.at' q ≠ Cell.Trigger k) :
    hh.start_zap_wave.grid.at' q = hh.grid.at' q := by
  simp only [MoveHandler.start_zap_wave]
  apply foldl_setCell_at'_of_not_mem
  intro p hp
  rw [List.mem_map] at hp
  obtain ⟨pc, hpc, hfst⟩ := hp
  rw [List.mem_filter] at hpc
  obtain ⟨hmem, hpred⟩ := hpc
  rcases pc with ⟨pp, cell⟩
  rcases cell with _ | _ | d | d | d | _ | _ | _ | _ | k <;> simp only at hpred
  · cases hpred
  all_goals try cases hpred
  · -- Trigger k with k among the queued digits
    intro hcon
    subst hfst
    subst hcon
    exact hq k (Grid.at'_of_mem_entries hR hmem).2

/-- Claim C9: when an entity finishes a move onto a `Trigger(n)` cell, the
digit `n` is queued for the zap phase and the entity overwrites the trigger
cell, so the cell the activating entity stands on holds the entity (never a
trigger) and the zap wave — which converts only trigger cells — leaves it
alone: the activating entity is never walled in by its own activation. -/
theorem c9_trigger_activator_shielded (h : MoveHandler) (p : Position) (n : Nat)
    (hR : h.grid.Rect)
    (htrig : h.grid.at' p = Cell.Trigger n)
    (hstep : ∃ m ∈ h.moving, m.to' = p)
    (hent : ∀ m ∈ h.moving, isEntityCell m.cell = true) :
    n ∈ h.finish_moving.triggered_numbers
      ∧ isEntityCell (h.finish_moving.grid.at' p) = true
      ∧ h.finish_moving.start_zap_wave.grid.at' p = h.finish_moving.grid.at' p
      ∧ (∀ (hh : MoveHandler) (q : Position), hh.grid.Rect →
          (∀ k, hh.grid.at' q ≠ Cell.Trigger k) →
            hh.start_zap_wave.grid.at' q = hh.grid.at' q) := by
  have hfold := finish_fold_trigger p n h.moving
    (h.grid, h.pending_explosions, h.triggered_numbers) hR hent
    (Or.inl ⟨htrig, hstep⟩)
  have hgrid : h.finish_moving.grid
      = (h.moving.foldl finishStep (h.grid, h.pending_explosions, h.triggered_numbers)).1 := rfl
  have htrignum : h.finish_moving.triggered_numbers
      = (h.moving.foldl finishStep (h.grid, h.pending_explosions, h.triggered_numbers)).2.2 := rfl
  have hRfold : h.finish_moving.grid.Rect := by
    rw [hgrid]
    have : ∀ (l : List Moving) (acc : Grid × List Position × List Nat), acc.1.Rect →
        (l.foldl finishStep acc).1.Rect := by
      intro l
      induction l with
      | nil => intro acc hacc; exact hacc
      | cons mm rest ih =>
        intro acc hacc
        rw [List.foldl_cons]
        exact ih _ (finishStep_rect _ _ hacc)
    exact this _ _ hR
  refine ⟨htrignum ▸ hfold.1, hgrid ▸ hfold.2, ?_, ?_⟩
  · apply start_zap_wave_at'_of_not_trigger _ _ hRfold
    intro k hcon
    have := hfold.2
    rw [← hgrid] at this
    rw [hcon] at this
    simp [isEntityCell] at this
  · intro hh q hhR hq
    exact start_zap_wave_at'_of_not_trigger hh q hhR hq


theorem c9_trigger_activator_shielded_witness :
    1 ∈ (MoveHandler.mk (⟨[[Cell.Trigger 1, Cell.Empty]]⟩ : Grid)
        [⟨Cell.Rat Dir8.West, ⟨1, 0⟩, 0, ⟨0, 0⟩⟩] [] [] [] []).finish_moving.triggered_numbers
      ∧ isEntityCell ((MoveHandler.mk (⟨[[Cell.Trigger 1, Cell.Empty]]⟩ : Grid)
          [⟨Cell.Rat Dir8.West, ⟨1, 0⟩, 0, ⟨0, 0⟩⟩] [] [] [] []).finish_moving.grid.at'
          ⟨0, 0⟩) = true
      ∧ (MoveHandler.mk (⟨[[Cell.Trigger 1, Cell.Empty]]⟩ : Grid)
          [⟨Cell.Rat Dir8.West, ⟨1, 0⟩, 0, ⟨0, 0⟩⟩] [] [] [] []).finish_moving.start_zap_wave.grid.at'
          ⟨0, 0⟩
        = (MoveHandler.mk (⟨[[Cell.Trigger 1, Cell.Empty]]⟩ : Grid)
            [⟨Cell.Rat Dir8.West, ⟨1, 0⟩, 0, ⟨0, 0⟩⟩] [] [] [] []).finish_moving.grid.at' ⟨0, 0⟩ :=
  ⟨(c9_trigger_activator_shielded
      (MoveHandler.mk (⟨[[Cell.Trigger 1, Cell.Empty]]⟩ : Grid)
        [⟨Cell.Rat Dir8.West, ⟨1, 0⟩, 0, ⟨0, 0⟩⟩] [] [] [] [])
      ⟨0, 0⟩ 1 (by decide) (by decide) (by decide) (by decide)).1,
   (c9_trigger_activator_shielded
      (MoveHandler.mk (⟨[[Cell.Trigger 1, Cell.Empty]]⟩ : Grid)
        [⟨Cell.Rat Dir8.West, ⟨1, 0⟩, 0, ⟨0, 0⟩⟩] [] [] [] [])
      ⟨0, 0⟩ 1 (by decide) (by decide) (by decide) (by decide)).2.1,
   (c9_trigger_activator_shielded
      (MoveHandler.mk (⟨[[Cell.Trigger 1, Cell.Empty]]⟩ : Grid)
        [⟨Cell.Rat Dir8.West, ⟨1, 0⟩, 0, ⟨0, 0⟩⟩] [] [] [] [])
      ⟨0, 0⟩ 1 (by decide) (by decide) (by decide) (by decide)).2.2.1⟩


theorem begin_move_grid_eq (h : MoveHandler) (m : Moving) :
    (h.begin_move m).grid
      = if (h.grid.setCell m.from_ Cell.Empty).at' m.to' = Cell.BlackHole
          then h.grid.setCell m.from_ Cell.Empty
          else (h.grid.setCell m.from_ Cell.Empty).setCell m.to' m.cell := rfl

/-- The invariant of one creature phase (rats or cyborg rats): `g0` is the
grid at phase entry, `base` the `moving` queue at phase entry, `rs` the
positions still to process.  Marked destinations block the phase's own kind
(or are black holes), destinations never collide with unprocessed creatures,
and two destinations coincide only on a black hole. -/
def PhaseInv (blocksX isKind : Cell → Bool) (g0 : Grid) (base : List Moving)
    (h : MoveHandler) (rs : List Position) : Prop :=
  h.grid.Rect
  ∧ rs.Nodup
  ∧ (∀ r ∈ rs, isKind (h.grid.at' r) = true)
  ∧ (∀ q, h.grid.at' q = Cell.BlackHole ↔ g0.at' q = Cell.BlackHole)
  ∧ ∃ nw, h.moving = base ++ nw
      ∧ (∀ m ∈ nw, blocksX (h.grid.at' m.to') = true ∨ h.grid.at' m.to' = Cell.BlackHole)
      ∧ (∀ m ∈ nw, m.to' ∉ rs)
      ∧ List.Pairwise (fun m1 m2 => m1.to' = m2.to' → g0.at' m1.to' = Cell.BlackHole) nw

/-- Shape of one worklist step of a creature phase: either no record, or a
`begin_move` from the creature's position, to itself (turn in place) or to a
cell that does not block the phase's kind. -/
def StepShape {α : Type} (blocksX isKind : Cell → Bool) (posOf : α → Position)
    (step : MoveHandler → α → MoveHandler) : Prop :=
  ∀ (hh : MoveHandler) (a : α), step hh a = hh
    ∨ ∃ cell pr c, isKind cell = true
        ∧ step hh a = hh.begin_move ⟨cell, posOf a, pr, c⟩
        ∧ (c = posOf a ∨ (blocksX (hh.grid.at' c) = false ∧ c ≠ posOf a))

theorem phase_inv_one {α : Type} (blocksX isKind : Cell → Bool)
    (posOf : α → Position) (step : MoveHandler → α → MoveHandler)
    (hKB : ∀ cell, isKind cell = true → blocksX cell = true)
    (hKnotBH : ∀ cell, isKind cell = true → cell ≠ Cell.BlackHole)
    (hKnotWall : ∀ cell, isKind cell = true → cell ≠ Cell.Wall)
    (hWallB : blocksX Cell.Wall = true)
    (hShape : StepShape blocksX isKind posOf step)
    (g0 : Grid) (base : List Moving) (h : MoveHandler) (a : α)
    (rs' : List Position)
    (hInv : PhaseInv blocksX isKind g0 base h (posOf a :: rs')) :
    PhaseInv blocksX isKind g0 base (step h a) rs' := by
  obtain ⟨hR, hnd, hkind, hbh, nw, hmov, hblk, hnotrs, hpw⟩ := hInv
  rcases hShape h a with hid | ⟨cell, pr, c, hkc, hstep, hc⟩
  · rw [hid]
    refine ⟨hR, hnd.of_cons, fun r hr => hkind r (List.mem_cons_of_mem _ hr), hbh,
      nw, hmov, hblk, fun m hm => ?_, hpw⟩
    intro hcon
    exact hnotrs m hm (List.mem_cons_of_mem _ hcon)
  · -- one record is appended
    set r := posOf a with hrdef
    have hkr : isKind (h.grid.at' r) = true := hkind r (List.mem_cons_self _ _)
    have hrinb : r.in_bounds h.grid.bounds = true :=
      Grid.inb_of_at'_ne_wall (fun hw => by rw [hw] at hkr; exact hKnotWall _ hkr rfl)
    have hrnotbh : h.grid.at' r ≠ Cell.BlackHole := hKnotBH _ hkr
    -- the intermediate grid with the origin cleared
    set g1 := h.grid.setCell r Cell.Empty with hg1def
    have hg1R : g1.Rect := hR.setCell _ _
    have hg1r : g1.at' r = Cell.Empty := Grid.at'_setCell_eq hR r Cell.Empty hrinb
    have hg1ne : ∀ q, q ≠ r → g1.at' q = h.grid.at' q :=
      fun q hq => Grid.at'_setCell_ne _ _ _ _ hq
    -- c is not an unprocessed creature, and is distinct from r or equals it
    have hcnotrs : c ∉ rs' := by
      rcases hc with rfl | ⟨hcb, hcner⟩
      · exact fun hcon => (List.nodup_cons.mp hnd).1 hcon
      · intro hcon
        have := hkind c (List.mem_cons_of_mem _ hcon)
        rw [hKB _ this] at hcb
        cases hcb
    have hgrid2 := begin_move_grid_eq h ⟨cell, r, pr, c⟩
    simp only at hgrid2
    rw [hstep]
    by_cases hbhc : g1.at' c = Cell.BlackHole
    · -- the destination is a black hole: no occupancy write
      have hgr : (h.begin_move ⟨cell, r, pr, c⟩).grid = g1 := by
        rw [hgrid2, if_pos hbhc]
      have hcner : c ≠ r := by
        intro hcon
        rw [hcon, hg1r] at hbhc
        cases hbhc
      have hcoldbh : h.grid.at' c = Cell.BlackHole := by
        rw [← hg1ne c hcner]
        exact hbhc
      refine ⟨hgr ▸ hg1R, hnd.of_cons, ?_, ?_, nw ++ [⟨cell, r, pr, c⟩], ?_, ?_, ?_, ?_⟩
      · intro rr hrr
        rw [hgr]
        have hrrne : rr ≠ r := by
          intro hcon
          exact (List.nodup_cons.mp hnd).1 (hcon ▸ hrr)
        rw [hg1ne rr hrrne]
        exact hkind rr (List.mem_cons_of_mem _ hrr)
      · intro q
        rw [hgr]
        by_cases hq : q = r
        · subst hq
          rw [hg1r]
          constructor
          · intro hcon
            cases hcon
          · intro hcon
            exact absurd ((hbh r).mpr hcon) hrnotbh
        · rw [hg1ne q hq]
          exact hbh q
      · rw [MoveHandler.moving_begin_move, hmov, List.append_assoc]
      · intro m hm
        rw [hgr]
        rcases List.mem_append.mp hm with hm1 | hm2
        · have hto : m.to' ≠ r := by
            intro hcon
            exact hnotrs m hm1 (hcon ▸ List.mem_cons_self _ _)
          rw [hg1ne _ hto]
          exact hblk m hm1
        · rw [List.mem_singleton] at hm2
          subst hm2
          right
          simp only
          exact hbhc
      · intro m hm
        rcases List.mem_append.mp hm with hm1 | hm2
        · intro hcon
          exact hnotrs m hm1 (List.mem_cons_of_mem _ hcon)
        · rw [List.mem_singleton] at hm2
          subst hm2
          simpa using hcnotrs
      · rw [List.pairwise_append]
        refine ⟨hpw, List.pairwise_singleton _ _, ?_⟩
        intro m1 hm1 m2 hm2 hcon
        rw [List.mem_singleton] at hm2
        subst hm2
        simp only at hcon
        rw [hcon]
        exact (hbh c).mp hcoldbh
    · -- the destination is marked occupied
      have hgr : (h.begin_move ⟨cell, r, pr, c⟩).grid = g1.setCell c cell := by
        rw [hgrid2, if_neg hbhc]
      have hcoldnotbh : h.grid.at' c ≠ Cell.BlackHole := by
        by_cases hcr : c = r
        · subst hcr
          exact hrnotbh
        · rw [← hg1ne c hcr]
          exact hbhc
      have hcinb : c.in_bounds g1.bounds = true := by
        rcases hc with rfl | ⟨hcb, hcner⟩
        · rw [Grid.bounds_setCell]
          exact hrinb
        · refine Grid.inb_of_at'_ne_wall (fun hw => ?_)
          rw [hg1ne c hcner] at hw
          rw [hw, hWallB] at hcb
          cases hcb
      have hg2c : (g1.setCell c cell).at' c = cell := Grid.at'_setCell_eq hg1R c cell hcinb
      have hg2ne : ∀ q, q ≠ c → q ≠ r → (g1.setCell c cell).at' q = h.grid.at' q := by
        intro q hq1 hq2
        rw [Grid.at'_setCell_ne _ _ _ _ hq1]
        exact hg1ne q hq2
      have hnoclaim : ∀ m ∈ nw, m.to' ≠ c := by
        intro m hm hcon
        rcases hc with hceq | ⟨hcb, hcner⟩
        · exact hnotrs m hm (hceq ▸ hcon ▸ List.mem_cons_self _ _)
        · rcases hblk m hm with hb | hbh2
          · rw [hcon, hcb] at hb
            cases hb
          · rw [hcon] at hbh2
            exact hcoldnotbh hbh2
      refine ⟨hgr ▸ (hg1R.setCell _ _), hnd.of_cons, ?_, ?_,
        nw ++ [⟨cell, r, pr, c⟩], ?_, ?_, ?_, ?_⟩
      · intro rr hrr
        rw [hgr]
        have hrrne : rr ≠ r := by
          intro hcon
          exact (List.nodup_cons.mp hnd).1 (hcon ▸ hrr)
        have hrrnec : rr ≠ c := fun hcon => hcnotrs (hcon ▸ hrr)
        rw [hg2ne rr hrrnec hrrne]
        exact hkind rr (List.mem_cons_of_mem _ hrr)
      · intro q
        rw [hgr]
        by_cases hqc : q = c
        · subst hqc
          rw [hg2c]
          constructor
          · intro hcon
            exact absurd hcon (hKnotBH _ hkc)
          · intro hcon
            exact absurd ((hbh q).mpr hcon) hcoldnotbh
        · by_cases hqr : q = r
          · subst hqr
            rw [Grid.at'_setCell_ne _ _ _ _ hqc, hg1r]
            constructor
            · intro hcon
              cases hcon
            · intro hcon
              exact absurd ((hbh r).mpr hcon) hrnotbh
          · rw [hg2ne q hqc hqr]
            exact hbh q
      · rw [MoveHandler.moving_begin_move, hmov, List.append_assoc]
      · intro m hm
        rw [hgr]
        rcases List.mem_append.mp hm with hm1 | hm2
        · have hto : m.to' ≠ r := by
            intro hcon
            exact hnotrs m hm1 (hcon ▸ List.mem_cons_self _ _)
          rw [hg2ne _ (hnoclaim m hm1) hto]
          exact hblk m hm1
        · rw [List.mem_singleton] at hm2
          subst hm2
          left
          simp only
          rw [hg2c]
          exact hKB _ hkc
      · intro m hm
        rcases List.mem_append.mp hm with hm1 | hm2
        · intro hcon
          exact hnotrs m hm1 (List.mem_cons_of_mem _ hcon)
        · rw [List.mem_singleton] at hm2
          subst hm2
          simpa using hcnotrs
      · rw [List.pairwise_append]
        refine ⟨hpw, List.pairwise_singleton _ _, ?_⟩
        intro m1 hm1 m2 hm2 hcon
        rw [List.mem_singleton] at hm2
        subst hm2
        simp only at hcon
        exact absurd hcon (hnoclaim m1 hm1)

theorem phase_inv_run {α : Type} (blocksX isKind : Cell → Bool)
    (posOf : α → Position) (step : MoveHandler → α → MoveHandler)
    (hKB : ∀ cell, isKind cell = true → blocksX cell = true)
    (hKnotBH : ∀ cell, isKind cell = true → cell ≠ Cell.BlackHole)
    (hKnotWall : ∀ cell, isKind cell = true → cell ≠ Cell.Wall)
    (hWallB : blocksX Cell.Wall = true)
    (hShape : StepShape blocksX isKind posOf step)
    (g0 : Grid) (base : List Moving) :
    ∀ (work : List α) (future : List Position) (h : MoveHandler),
      PhaseInv blocksX isKind g0 base h (work.map posOf ++ future) →
      PhaseInv blocksX isKind g0 base (processList step work h) future := by
  intro work
  induction work with
  | nil =>
    intro future h hInv
    exact hInv
  | cons a rest ih =>
    intro future h hInv
    have h1 := phase_inv_one blocksX isKind posOf step hKB hKnotBH hKnotWall hWallB
      hShape g0 base h a (rest.map posOf ++ future) (by simpa using hInv)
    exact ih future (step h a) h1


theorem ratStep_shape (player : Position) (blocked : Dir8) :
    StepShape Cell.blocks_rat isRatOnlyCell id (ratStep player blocked) := by
  intro hh a
  unfold ratStep
  split
  · rename_i dir hfind
    right
    refine ⟨Cell.Rat dir, 0, a + dir.delta, rfl, rfl, Or.inr ⟨?_, ?_⟩⟩
    · have hpred := List.find?_some hfind
      rw [decide_eq_true_eq] at hpred
      have := hpred.1
      simpa using this
    · exact fun hcon =>
        Position.ne_add_delta_of_ne_zero a _ (Dir8.delta_ne_zero dir) hcon.symm
  · split
    · rename_i fd hfd
      right
      exact ⟨Cell.Rat fd, 1, a, rfl, rfl, Or.inl rfl⟩
    · left
      rfl

theorem cyborgTurnStep_shape (player : Position) :
    StepShape Cell.blocks_cyborg_rat isCyborgCell id (cyborgTurnStep player) := by
  intro hh a
  unfold cyborgTurnStep
  split
  · rename_i fd hfd
    right
    exact ⟨Cell.CyborgRat fd, 1, a, rfl, rfl, Or.inl rfl⟩
  · left
    rfl

theorem cyborgMoveStep_shape (distances : List (Position × CyborgDistance))
    (blocked : Dir8) (player : Position) :
    StepShape Cell.blocks_cyborg_rat isCyborgCell Prod.snd
      (cyborgMoveStep distances blocked player) := by
  intro hh a
  unfold cyborgMoveStep
  split
  · rename_i dirdist hbm
    right
    obtain ⟨_, _, _, hnb⟩ := cyborgBestMove_spec distances hh.grid blocked player
      a.1 a.2 dirdist.1 dirdist.2 (by rw [hbm])
    refine ⟨Cell.CyborgRat dirdist.1, 0, a.2 + dirdist.1.delta, rfl, rfl,
      Or.inr ⟨hnb, ?_⟩⟩
    exact fun hcon =>
      Position.ne_add_delta_of_ne_zero a.2 _ (Dir8.delta_ne_zero _) hcon.symm
  · exact cyborgTurnStep_shape player hh a.2

theorem Grid.entries_fst_nodup (g : Grid) : (g.entries.map Prod.fst).Nodup := by
  unfold Grid.entries
  rw [List.map_flatMap]
  rw [List.nodup_flatMap]
  constructor
  · intro yrow hyrow
    rw [List.map_map]
    have henum : yrow.2.enum.Nodup := by
      have := List.enum_map_fst yrow.2
      have hn : (yrow.2.enum.map Prod.fst).Nodup := by
        rw [this]
        exact List.nodup_range _
      exact hn.of_map _
    refine henum.map_on ?_
    intro a ha b hb hfb
    have ha' := List.mk_mem_enum_iff_getElem?.mp (show (a.1, a.2) ∈ yrow.2.enum from ha)
    have hb' := List.mk_mem_enum_iff_getElem?.mp (show (b.1, b.2) ∈ yrow.2.enum from hb)
    simp only [Function.comp, Prod.mk.injEq, Position.mk.injEq] at hfb
    have hx : a.1 = b.1 := by omega
    rw [hx] at ha'
    rw [ha'] at hb'
    have : a.2 = b.2 := Option.some.inj hb'
    rcases a with ⟨a1, a2⟩
    rcases b with ⟨b1, b2⟩
    simp only at hx this
    rw [hx, this]
  · have hfst : (g.cells.enum.map Prod.fst).Nodup := by
      rw [List.enum_map_fst]
      exact List.nodup_range _
    have hpw : g.cells.enum.Pairwise (fun a b => a.1 ≠ b.1) := by
      rw [List.Nodup, List.pairwise_map] at hfst
      exact hfst
    refine hpw.imp ?_
    intro a b hne
    intro pos hpa hpb
    simp only [List.map_map, List.mem_map] at hpa hpb
    obtain ⟨xa, _, hxa⟩ := hpa
    obtain ⟨xb, _, hxb⟩ := hpb
    apply hne
    have := hxa.trans hxb.symm
    simp only [Function.comp, Position.mk.injEq] at this
    omega

theorem mem_find_entities_kind {g : Grid} (hg : g.Rect) {f : Cell → Bool}
    {r : Position} (hr : r ∈ (g.find_entities f).map Prod.fst) :
    f (g.at' r) = true := by
  rw [List.mem_map] at hr
  obtain ⟨pc, hpc, hfst⟩ := hr
  unfold Grid.find_entities at hpc
  rw [List.mem_filter] at hpc
  obtain ⟨hmem, hpred⟩ := hpc
  have := (Grid.at'_of_mem_entries hg (show (pc.1, pc.2) ∈ g.entries from hmem)).2
  rw [hfst] at this
  rw [this]
  exact hpred

theorem find_entities_fst_nodup (g : Grid) (f : Cell → Bool) :
    ((g.find_entities f).map Prod.fst).Nodup := by
  refine (g.entries_fst_nodup).sublist ?_
  exact List.Sublist.map _ (List.filter_sublist _)

theorem finish_moving_preserves_black_hole (hh : MoveHandler) (p : Position)
    (hbh : hh.grid.at' p = Cell.BlackHole) :
    hh.finish_moving.grid.at' p = Cell.BlackHole := by
  have : ∀ (l : List Moving) (acc : Grid × List Position × List Nat),
      acc.1.at' p = Cell.BlackHole → (l.foldl finishStep acc).1.at' p = Cell.BlackHole := by
    intro l
    induction l with
    | nil =>
      intro acc hacc
      exact hacc
    | cons m rest ih =>
      intro acc hacc
      rw [List.foldl_cons]
      apply ih
      by_cases hmp : m.to' = p
      · unfold finishStep
        rw [hmp, hacc]
        exact hacc
      · rw [finishStep_at'_ne _ _ _ (fun hcon => hmp hcon.symm)]
        exact hacc
  exact this hh.moving _ hbh

/-- Claim C7: two actors moved by the same creature phase never end the turn
occupying the same cell.  Within each phase, the provisional occupancy marks
of `begin_move` make every previously claimed destination block the phase's
own kind, so two records of one phase share a destination only when that
destination is a black hole — and a black-hole cell swallows every mover, so
`finish_moving` places no entity there at all. -/
theorem c7_no_same_phase_collision (h : MoveHandler) (player : Position)
    (facing : Dir4) (hR : h.grid.Rect) :
    (∃ nw, (h.move_rats player facing).moving = h.moving ++ nw
      ∧ List.Pairwise
          (fun m1 m2 => m1.to' = m2.to' → h.grid.at' m1.to' = Cell.BlackHole) nw) ∧
    (∃ nw, (h.move_cyborg_rats player facing).moving = h.moving ++ nw
      ∧ List.Pairwise
          (fun m1 m2 => m1.to' = m2.to' → h.grid.at' m1.to' = Cell.BlackHole) nw) ∧
    (∀ (hh : MoveHandler) (p : Position), hh.grid.at' p = Cell.BlackHole →
      hh.finish_moving.grid.at' p = Cell.BlackHole) := by
  have hKBr : ∀ cell, isRatOnlyCell cell = true → cell.blocks_rat = true := by
    intro cell hc
    cases cell <;> simp_all [isRatOnlyCell, Cell.blocks_rat]
  have hBHr : ∀ cell, isRatOnlyCell cell = true → cell ≠ Cell.BlackHole := by
    intro cell hc
    cases cell <;> simp_all [isRatOnlyCell]
  have hWr : ∀ cell, isRatOnlyCell cell = true → cell ≠ Cell.Wall := by
    intro cell hc
    cases cell <;> simp_all [isRatOnlyCell]
  have hKBc : ∀ cell, isCyborgCell cell = true → cell.blocks_cyborg_rat = true := by
    intro cell hc
    cases cell <;> simp_all [isCyborgCell, Cell.blocks_cyborg_rat]
  have hBHc : ∀ cell, isCyborgCell cell = true → cell ≠ Cell.BlackHole := by
    intro cell hc
    cases cell <;> simp_all [isCyborgCell]
  have hWc : ∀ cell, isCyborgCell cell = true → cell ≠ Cell.Wall := by
    intro cell hc
    cases cell <;> simp_all [isCyborgCell]
  refine ⟨?_, ?_, fun hh p => finish_moving_preserves_black_hole hh p⟩
  · -- rat phase
    have hrun := phase_inv_run Cell.blocks_rat isRatOnlyCell id
      (ratStep player facing.opposite) hKBr hBHr hWr rfl
      (ratStep_shape player facing.opposite) h.grid h.moving
      (sortBy (ratKeyLE player) ((h.grid.find_entities isRatOnlyCell).map Prod.fst))
      [] h ?_
    · obtain ⟨_, _, _, _, nw, hmv, _, _, hpw⟩ := hrun
      exact ⟨nw, hmv, hpw⟩
    · have hperm := sortBy_perm (ratKeyLE player)
        ((h.grid.find_entities isRatOnlyCell).map Prod.fst)
      refine ⟨hR, ?_, ?_, fun q => Iff.rfl, [], by rw [List.append_nil], ?_, ?_, ?_⟩
      · rw [List.map_id, List.append_nil]
        exact hperm.nodup_iff.mpr (find_entities_fst_nodup _ _)
      · intro r hr
        rw [List.map_id, List.append_nil] at hr
        exact mem_find_entities_kind hR (hperm.mem_iff.mp hr)
      · intro m hm
        cases hm
      · intro m hm
        cases hm
      · exact List.Pairwise.nil
  · -- cyborg phase
    simp only [MoveHandler.move_cyborg_rats]
    have hcy := find_entities_fst_nodup h.grid isCyborgCell
    set cyborgs := (h.grid.find_entities isCyborgCell).map Prod.fst with hcydef
    set distances := compute_cyborg_distances h.grid player with hdists
    set part := cyborgs.partition fun pos => (distances.lookup pos).isSome with hpart
    set movable := sortBy distPosLE
      (part.1.map fun pos => ((distances.lookup pos).getD CyborgDistance.ZERO, pos))
      with hmovable
    have hpartperm : List.Perm (part.2 ++ movable.map Prod.snd) cyborgs := by
      have h1 : List.Perm (movable.map Prod.snd)
          ((part.1.map fun pos => ((distances.lookup pos).getD CyborgDistance.ZERO, pos)).map
            Prod.snd) :=
        (sortBy_perm _ _).map _
      have h2 : ((part.1.map fun pos =>
          ((distances.lookup pos).getD CyborgDistance.ZERO, pos)).map Prod.snd) = part.1 := by
        rw [List.map_map]
        exact List.map_id _
      have h3 : List.Perm (part.2 ++ movable.map Prod.snd) (part.2 ++ part.1) :=
        List.Perm.append_left _ (h2 ▸ h1)
      refine h3.trans ?_
      have h4 : part.1 = cyborgs.filter fun pos => (distances.lookup pos).isSome := by
        rw [hpart, List.partition_eq_filter_filter]
      have h5 : part.2 = cyborgs.filter
          fun pos => ! (distances.lookup pos).isSome := by
        rw [hpart, List.partition_eq_filter_filter]
        rfl
      rw [h4, h5]
      refine (List.perm_append_comm).trans ?_
      exact List.filter_append_perm _ _
    have hrun1 := phase_inv_run Cell.blocks_cyborg_rat isCyborgCell id
      (cyborgTurnStep player) hKBc hBHc hWc rfl (cyborgTurnStep_shape player)
      h.grid h.moving part.2 (movable.map Prod.snd) h ?_
    · have hrun2 := phase_inv_run Cell.blocks_cyborg_rat isCyborgCell Prod.snd
        (cyborgMoveStep distances facing.opposite player) hKBc hBHc hWc rfl
        (cyborgMoveStep_shape distances facing.opposite player)
        h.grid h.moving movable [] (processList (cyborgTurnStep player) part.2 h)
        (by rw [List.append_nil]; exact hrun1)
      obtain ⟨_, _, _, _, nw, hmv, _, _, hpw⟩ := hrun2
      exact ⟨nw, hmv, hpw⟩
    · refine ⟨hR, ?_, ?_, fun q => Iff.rfl, [], by rw [List.append_nil], ?_, ?_, ?_⟩
      · rw [List.map_id]
        exact hpartperm.nodup_iff.mpr hcy
      · intro r hr
        rw [List.map_id] at hr
        exact mem_find_entities_kind hR (hpartperm.mem_iff.mp hr)
      · intro m hm
        cases hm
      · intro m hm
        cases hm
      · exact List.Pairwise.nil


theorem c7_no_same_phase_collision_witness :
    (∃ nw, ((MoveHandler.new ⟨[[Cell.Rat Dir8.East, Cell.Empty,
          Cell.Player Dir4.West]]⟩).move_rats ⟨2, 0⟩ Dir4.West).moving =
        (MoveHandler.new ⟨[[Cell.Rat Dir8.East, Cell.Empty,
          Cell.Player Dir4.West]]⟩).moving ++ nw
      ∧ List.Pairwise
          (fun m1 m2 => m1.to' = m2.to' →
            (MoveHandler.new ⟨[[Cell.Rat Dir8.East, Cell.Empty,
              Cell.Player Dir4.West]]⟩).grid.at' m1.to' = Cell.BlackHole) nw) ∧
    (∃ nw, ((MoveHandler.new ⟨[[Cell.Rat Dir8.East, Cell.Empty,
          Cell.Player Dir4.West]]⟩).move_cyborg_rats ⟨2, 0⟩ Dir4.West).moving =
        (MoveHandler.new ⟨[[Cell.Rat Dir8.East, Cell.Empty,
          Cell.Player Dir4.West]]⟩).moving ++ nw
      ∧ List.Pairwise
          (fun m1 m2 => m1.to' = m2.to' →
            (MoveHandler.new ⟨[[Cell.Rat Dir8.East, Cell.Empty,
              Cell.Player Dir4.West]]⟩).grid.at' m1.to' = Cell.BlackHole) nw) ∧
    (∀ (hh : MoveHandler) (p : Position), hh.grid.at' p = Cell.BlackHole →
      hh.finish_moving.grid.at' p = Cell.BlackHole) :=
  c7_no_same_phase_collision
    (MoveHandler.new ⟨[[Cell.Rat Dir8.East, Cell.Empty, Cell.Player Dir4.West]]⟩)
    ⟨2, 0⟩ Dir4.West (by decide)


theorem mem_gridPositions {g : Grid} {p : Position} :
    p ∈ gridPositions g ↔ p.in_bounds g.bounds = true := by
  unfold gridPositions
  rw [Position.in_bounds_iff]
  unfold Grid.bounds
  constructor
  · intro hp
    rw [List.mem_flatMap] at hp
    obtain ⟨y, hy, hp2⟩ := hp
    rw [List.mem_map] at hp2
    obtain ⟨x, hx, rfl⟩ := hp2
    rw [List.mem_range] at hy hx
    dsimp only
    omega
  · intro hp
    dsimp only at hp
    rw [List.mem_flatMap]
    refine ⟨p.y.toNat, ?_, ?_⟩
    · rw [List.mem_range]
      omega
    · rw [List.mem_map]
      refine ⟨p.x.toNat, ?_, ?_⟩
      · rw [List.mem_range]
        omega
      · rcases p with ⟨px, py⟩
        dsimp only at hp ⊢
        simp only [Position.mk.injEq]
        constructor <;> omega

theorem gridPositions_nodup (g : Grid) : (gridPositions g).Nodup := by
  unfold gridPositions
  rw [List.nodup_flatMap]
  constructor
  · intro y hy
    refine (List.nodup_range _).map_on ?_
    intro a ha b hb hab
    have := congrArg Position.x hab
    dsimp only at this
    exact_mod_cast this
  · have hpw : (List.range g.height).Pairwise (fun a b => a ≠ b) :=
      List.nodup_range _
    refine hpw.imp ?_
    intro a b hne pos hpa hpb
    rw [List.mem_map] at hpa hpb
    obtain ⟨xa, _, hxa⟩ := hpa
    obtain ⟨xb, _, hxb⟩ := hpb
    apply hne
    have := congrArg Position.y (hxa.trans hxb.symm)
    dsimp only at this
    exact_mod_cast this

theorem gridPositions_eq_of_dims {g1 g2 : Grid} (hh : g1.height = g2.height)
    (hw : g1.width = g2.width) : gridPositions g1 = gridPositions g2 := by
  unfold gridPositions
  rw [hh, hw]

theorem countP_drop_one {α : Type} [DecidableEq α] (p : α → Bool) :
    ∀ (l : List α), l.Nodup → ∀ a ∈ l, p a = true →
      l.countP (fun x => p x && decide (x ≠ a)) + 1 = l.countP p := by
  intro l
  induction l with
  | nil =>
    intro _ a ha
    cases ha
  | cons b t ih =>
    intro hnd a ha hpa
    rw [List.nodup_cons] at hnd
    rw [List.countP_cons, List.countP_cons]
    rcases List.mem_cons.mp ha with rfl | hat
    · have h1 : (p a && decide (a ≠ a)) = false := by simp
      have h2 : t.countP (fun x => p x && decide (x ≠ a)) = t.countP p := by
        apply List.countP_congr
        intro x hx
        have hxa : x ≠ a := fun hcon => hnd.1 (hcon ▸ hx)
        simp [hxa]
      rw [h1, h2, hpa]
      simp
    · have hba : b ≠ a := fun hcon => hnd.1 (hcon ▸ hat)
      have h1 : (p b && decide (b ≠ a)) = p b := by simp [hba]
      have h2 := ih hnd.2 a hat hpa
      rw [h1]
      omega

theorem fold_setCell_height (c : Cell) :
    ∀ (P : List Position) (g : Grid),
      (P.foldl (fun gg p => gg.setCell p c) g).height = g.height := by
  intro P
  induction P with
  | nil =>
    intro g
    rfl
  | cons p t ih =>
    intro g
    rw [List.foldl_cons, ih (g.setCell p c), Grid.height_setCell]

theorem fold_setCell_width (c : Cell) :
    ∀ (P : List Position) (g : Grid),
      (P.foldl (fun gg p => gg.setCell p c) g).width = g.width := by
  intro P
  induction P with
  | nil =>
    intro g
    rfl
  | cons p t ih =>
    intro g
    rw [List.foldl_cons, ih (g.setCell p c), Grid.width_setCell]

theorem fold_setCell_rect (c : Cell) (P : List Position) {g : Grid} (hg : g.Rect) :
    (P.foldl (fun gg p => gg.setCell p c) g).Rect :=
  foldl_preserve Grid.Rect _ P g hg (fun _gg p hgg => hgg.setCell p c)

theorem fold_setCell_at' (c : Cell) :
    ∀ (P : List Position) (g : Grid), g.Rect → ∀ q : Position,
      (P.foldl (fun gg p => gg.setCell p c) g).at' q =
        if q ∈ P ∧ q.in_bounds g.bounds = true then c else g.at' q := by
  intro P
  induction P with
  | nil =>
    intro g hg q
    simp
  | cons p t ih =>
    intro g hg q
    rw [List.foldl_cons, ih (g.setCell p c) (hg.setCell p c) q, Grid.bounds_setCell]
    by_cases hqt : q ∈ t ∧ q.in_bounds g.bounds = true
    · rw [if_pos hqt, if_pos ⟨List.mem_cons_of_mem p hqt.1, hqt.2⟩]
    · rw [if_neg hqt]
      by_cases hqp : q = p
      · subst hqp
        by_cases hinb : q.in_bounds g.bounds = true
        · rw [Grid.at'_setCell_eq hg _ _ hinb,
            if_pos ⟨List.mem_cons_self _ _, hinb⟩]
        · rw [Grid.setCell_of_not_inb c hinb, if_neg (fun hcon => hinb hcon.2)]
      · rw [Grid.at'_setCell_ne g p q c hqp,
          if_neg (fun hcon =>
            hqt ⟨(List.mem_cons.mp hcon.1).resolve_left hqp, hcon.2⟩)]


/-- The cells `finish_explosion_wave` destroys (the entity arm of its match). -/
def destructibleCell : Cell → Bool
  | Cell.Rat _ | Cell.CyborgRat _ | Cell.Player _ | Cell.Spiderweb | Cell.Plank => true
  | _ => false

theorem explodeStep_spec (acc : Grid × List Position) (pos : Position)
    (hR : acc.1.Rect) :
    (explodeStep acc pos).1.Rect ∧
    (explodeStep acc pos).1.height = acc.1.height ∧
    (explodeStep acc pos).1.width = acc.1.width ∧
    (countENP (explodeStep acc pos).1 (explodeStep acc pos).2
        + (explodeStep acc pos).2.length
      = countENP acc.1 acc.2 + acc.2.length) ∧
    (∀ p, (explodeStep acc pos).1.at' p = acc.1.at' p ∨
      ((explodeStep acc pos).1.at' p = Cell.Empty ∧
        destructibleCell (acc.1.at' p) = true)) ∧
    (∀ q ∈ (explodeStep acc pos).2, q ∈ acc.2 ∨ acc.1.at' q = Cell.Explosive) := by
  unfold explodeStep
  split
  case _ heq =>
    by_cases hmem : pos ∈ acc.2
    · rw [if_pos hmem]
      exact ⟨hR, rfl, rfl, rfl, fun p => Or.inl rfl, fun q hq => Or.inl hq⟩
    · rw [if_neg hmem]
      have hinb : pos.in_bounds acc.1.bounds = true :=
        Grid.inb_of_at'_ne_wall (by rw [heq]; exact fun hcon => Cell.noConfusion hcon)
      have hposmem : pos ∈ gridPositions acc.1 := mem_gridPositions.mpr hinb
      have hdrop := countP_drop_one
        (fun q => decide (acc.1.at' q = Cell.Explosive ∧ ¬ q ∈ acc.2))
        (gridPositions acc.1) (gridPositions_nodup _) pos hposmem
        (by simp [heq, hmem])
      have hcongr : countENP acc.1 (acc.2 ++ [pos]) =
          (gridPositions acc.1).countP
            (fun q => decide (acc.1.at' q = Cell.Explosive ∧ ¬ q ∈ acc.2)
              && decide (q ≠ pos)) := by
        unfold countENP
        apply List.countP_congr
        intro q hq
        simp only [decide_eq_true_eq, Bool.and_eq_true, List.mem_append,
          List.mem_singleton]
        constructor
        · rintro ⟨ha, hb⟩
          exact ⟨⟨ha, fun hc => hb (Or.inl hc)⟩, fun hc => hb (Or.inr hc)⟩
        · rintro ⟨⟨ha, hb⟩, hc⟩
          exact ⟨ha, fun hd => hd.elim hb hc⟩
      have hdrop2 : (gridPositions acc.1).countP
            (fun q => decide (acc.1.at' q = Cell.Explosive ∧ ¬ q ∈ acc.2)
              && decide (q ≠ pos)) + 1 =
          (gridPositions acc.1).countP
            (fun q => decide (acc.1.at' q = Cell.Explosive ∧ ¬ q ∈ acc.2)) := hdrop
      refine ⟨hR, rfl, rfl, ?_, fun p => Or.inl rfl, ?_⟩
      · show countENP acc.1 (acc.2 ++ [pos]) + (acc.2 ++ [pos]).length
          = countENP acc.1 acc.2 + acc.2.length
        rw [hcongr, List.length_append]
        unfold countENP
        simp only [List.length_singleton]
        omega
      · intro q hq
        rw [List.mem_append, List.mem_singleton] at hq
        rcases hq with hq | rfl
        · exact Or.inl hq
        · exact Or.inr heq
  case _ d heq =>
    have hinb : pos.in_bounds acc.1.bounds = true :=
      Grid.inb_of_at'_ne_wall (by rw [heq]; exact fun hcon => Cell.noConfusion hcon)
    refine ⟨hR.setCell pos Cell.Empty, Grid.height_setCell _ _ _,
      Grid.width_setCell _ _ _, ?_, ?_, fun q hq => Or.inl hq⟩
    · show countENP (acc.1.setCell pos Cell.Empty) acc.2 + acc.2.length
        = countENP acc.1 acc.2 + acc.2.length
      unfold countENP
      rw [gridPositions_eq_of_dims (Grid.height_setCell acc.1 pos Cell.Empty)
        (Grid.width_setCell acc.1 pos Cell.Empty)]
      congr 1
      apply List.countP_congr
      intro q hq
      by_cases hqp : q = pos
      · subst hqp
        rw [Grid.at'_setCell_eq hR _ _ hinb, heq]
        simp
      · rw [Grid.at'_setCell_ne _ _ _ _ hqp]
    · intro p
      by_cases hpp : p = pos
      · subst hpp
        refine Or.inr ⟨Grid.at'_setCell_eq hR _ _ hinb, ?_⟩
        rw [heq]
        rfl
      · exact Or.inl (Grid.at'_setCell_ne _ _ _ _ hpp)
  case _ d heq =>
    have hinb : pos.in_bounds acc.1.bounds = true :=
      Grid.inb_of_at'_ne_wall (by rw [heq]; exact fun hcon => Cell.noConfusion hcon)
    refine ⟨hR.setCell pos Cell.Empty, Grid.height_setCell _ _ _,
      Grid.width_setCell _ _ _, ?_, ?_, fun q hq => Or.inl hq⟩
    · show countENP (acc.1.setCell pos Cell.Empty) acc.2 + acc.2.length
        = countENP acc.1 acc.2 + acc.2.length
      unfold countENP
      rw [gridPositions_eq_of_dims (Grid.height_setCell acc.1 pos Cell.Empty)
        (Grid.width_setCell acc.1 pos Cell.Empty)]
      congr 1
      apply List.countP_congr
      intro q hq
      by_cases hqp : q = pos
      · subst hqp
        rw [Grid.at'_setCell_eq hR _ _ hinb, heq]
        simp
      · rw [Grid.at'_setCell_ne _ _ _ _ hqp]
    · intro p
      by_cases hpp : p = pos
      · subst hpp
        refine Or.inr ⟨Grid.at'_setCell_eq hR _ _ hinb, ?_⟩
        rw [heq]
        rfl
      · exact Or.inl (Grid.at'_setCell_ne _ _ _ _ hpp)
  case _ d heq =>
    have hinb : pos.in_bounds acc.1.bounds = true :=
      Grid.inb_of_at'_ne_wall (by rw [heq]; exact fun hcon => Cell.noConfusion hcon)
    refine ⟨hR.setCell pos Cell.Empty, Grid.height_setCell _ _ _,
      Grid.width_setCell _ _ _, ?_, ?_, fun q hq => Or.inl hq⟩
    · show countENP (acc.1.setCell pos Cell.Empty) acc.2 + acc.2.length
        = countENP acc.1 acc.2 + acc.2.length
      unfold countENP
      rw [gridPositions_eq_of_dims (Grid.height_setCell acc.1 pos Cell.Empty)
        (Grid.width_setCell acc.1 pos Cell.Empty)]
      congr 1
      apply List.countP_congr
      intro q hq
      by_cases hqp : q = pos
      · subst hqp
        rw [Grid.at'_setCell_eq hR _ _ hinb, heq]
        simp
      · rw [Grid.at'_setCell_ne _ _ _ _ hqp]
    · intro p
      by_cases hpp : p = pos
      · subst hpp
        refine Or.inr ⟨Grid.at'_setCell_eq hR _ _ hinb, ?_⟩
        rw [heq]
        rfl
      · exact Or.inl (Grid.at'_setCell_ne _ _ _ _ hpp)
  case _ heq =>
    have hinb : pos.in_bounds acc.1.bounds = true :=
      Grid.inb_of_at'_ne_wall (by rw [heq]; exact fun hcon => Cell.noConfusion hcon)
    refine ⟨hR.setCell pos Cell.Empty, Grid.height_setCell _ _ _,
      Grid.width_setCell _ _ _, ?_, ?_, fun q hq => Or.inl hq⟩
    · show countENP (acc.1.setCell pos Cell.Empty) acc.2 + acc.2.length
        = countENP acc.1 acc.2 + acc.2.length
      unfold countENP
      rw [gridPositions_eq_of_dims (Grid.height_setCell acc.1 pos Cell.Empty)
        (Grid.width_setCell acc.1 pos Cell.Empty)]
      congr 1
      apply List.countP_congr
      intro q hq
      by_cases hqp : q = pos
      · subst hqp
        rw [Grid.at'_setCell_eq hR _ _ hinb, heq]
        simp
      · rw [Grid.at'_setCell_ne _ _ _ _ hqp]
    · intro p
      by_cases hpp : p = pos
      · subst hpp
        refine Or.inr ⟨Grid.at'_setCell_eq hR _ _ hinb, ?_⟩
        rw [heq]
        rfl
      · exact Or.inl (Grid.at'_setCell_ne _ _ _ _ hpp)
  case _ heq =>
    have hinb : pos.in_bounds acc.1.bounds = true :=
      Grid.inb_of_at'_ne_wall (by rw [heq]; exact fun hcon => Cell.noConfusion hcon)
    refine ⟨hR.setCell pos Cell.Empty, Grid.height_setCell _ _ _,
      Grid.width_setCell _ _ _, ?_, ?_, fun q hq => Or.inl hq⟩
    · show countENP (acc.1.setCell pos Cell.Empty) acc.2 + acc.2.length
        = countENP acc.1 acc.2 + acc.2.length
      unfold countENP
      rw [gridPositions_eq_of_dims (Grid.height_setCell acc.1 pos Cell.Empty)
        (Grid.width_setCell acc.1 pos Cell.Empty)]
      congr 1
      apply List.countP_congr
      intro q hq
      by_cases hqp : q = pos
      · subst hqp
        rw [Grid.at'_setCell_eq hR _ _ hinb, heq]
        simp
      · rw [Grid.at'_setCell_ne _ _ _ _ hqp]
    · intro p
      by_cases hpp : p = pos
      · subst hpp
        refine Or.inr ⟨Grid.at'_setCell_eq hR _ _ hinb, ?_⟩
        rw [heq]
        rfl
      · exact Or.inl (Grid.at'_setCell_ne _ _ _ _ hpp)
  case _ =>
    exact ⟨hR, rfl, rfl, rfl, fun p => Or.inl rfl, fun q hq => Or.inl hq⟩

theorem explodeFold_spec :
    ∀ (targets : List Position) (acc : Grid × List Position), acc.1.Rect →
      (targets.foldl explodeStep acc).1.Rect ∧
      (targets.foldl explodeStep acc).1.height = acc.1.height ∧
      (targets.foldl explodeStep acc).1.width = acc.1.width ∧
      (countENP (targets.foldl explodeStep acc).1 (targets.foldl explodeStep acc).2
          + (targets.foldl explodeStep acc).2.length
        = countENP acc.1 acc.2 + acc.2.length) ∧
      (∀ p, (targets.foldl explodeStep acc).1.at' p = acc.1.at' p ∨
        ((targets.foldl explodeStep acc).1.at' p = Cell.Empty ∧
          destructibleCell (acc.1.at' p) = true)) ∧
      (∀ q ∈ (targets.foldl explodeStep acc).2,
        q ∈ acc.2 ∨ acc.1.at' q = Cell.Explosive) := by
  intro targets
  induction targets with
  | nil =>
    intro acc hR
    exact ⟨hR, rfl, rfl, rfl, fun p => Or.inl rfl, fun q hq => Or.inl hq⟩
  | cons pos rest ih =>
    intro acc hR
    rw [List.foldl_cons]
    obtain ⟨hR1, hh1, hw1, hmu1, hpt1, hpd1⟩ := explodeStep_spec acc pos hR
    obtain ⟨hR2, hh2, hw2, hmu2, hpt2, hpd2⟩ := ih (explodeStep acc pos) hR1
    refine ⟨hR2, hh2.trans hh1, hw2.trans hw1, by omega, ?_, ?_⟩
    · intro p
      rcases hpt2 p with h2 | h2
      · rw [h2]
        exact hpt1 p
      · rcases hpt1 p with h1 | h1
        · rw [h1] at h2
          exact Or.inr h2
        · rw [h1.1] at h2
          exact absurd h2.2 (by decide)
    · intro q hq
      rcases hpd2 q hq with h2 | h2
      · exact hpd1 q h2
      · rcases hpt1 q with h1 | h1
        · rw [h1] at h2
          exact Or.inr h2
        · rw [h1.1] at h2
          cases h2


theorem start_explosion_wave_spec (h : MoveHandler) (hR : h.grid.Rect) :
    (h.start_explosion_wave).grid.Rect ∧
    (h.start_explosion_wave).grid.height = h.grid.height ∧
    (h.start_explosion_wave).grid.width = h.grid.width ∧
    (h.start_explosion_wave).pending_explosions = [] ∧
    countENP (h.start_explosion_wave).grid []
      = countENP h.grid h.pending_explosions := by
  simp only [MoveHandler.start_explosion_wave]
  refine ⟨fold_setCell_rect Cell.Empty _ hR,
    fold_setCell_height Cell.Empty _ _, fold_setCell_width Cell.Empty _ _,
    by trivial, ?_⟩
  unfold countENP
  rw [gridPositions_eq_of_dims (fold_setCell_height Cell.Empty _ _)
    (fold_setCell_width Cell.Empty _ _)]
  apply List.countP_congr
  intro q hq
  have hinb : q.in_bounds h.grid.bounds = true := mem_gridPositions.mp hq
  rw [fold_setCell_at' Cell.Empty _ _ hR q]
  simp only [decide_eq_true_eq, List.not_mem_nil, not_false_eq_true, and_true]
  by_cases hqP : q ∈ h.pending_explosions
  · rw [if_pos ⟨hqP, hinb⟩]
    constructor
    · intro hcon
      cases hcon
    · rintro ⟨_, hcon⟩
      exact absurd hqP hcon
  · rw [if_neg (fun hcon => hqP hcon.1)]
    constructor
    · intro ha
      exact ⟨ha, hqP⟩
    · rintro ⟨ha, _⟩
      exact ha

theorem finish_explosion_wave_spec (h : MoveHandler) (hR : h.grid.Rect) :
    (h.finish_explosion_wave).grid.Rect ∧
    (h.finish_explosion_wave).exploding = [] ∧
    (countENP (h.finish_explosion_wave).grid
          (h.finish_explosion_wave).pending_explosions
        + (h.finish_explosion_wave).pending_explosions.length
      = countENP h.grid h.pending_explosions + h.pending_explosions.length) ∧
    (∀ p, (h.finish_explosion_wave).grid.at' p = h.grid.at' p ∨
      ((h.finish_explosion_wave).grid.at' p = Cell.Empty ∧
        destructibleCell (h.grid.at' p) = true)) ∧
    (∀ q ∈ (h.finish_explosion_wave).pending_explosions,
      q ∈ h.pending_explosions ∨ h.grid.at' q = Cell.Explosive) := by
  simp only [MoveHandler.finish_explosion_wave]
  obtain ⟨h1, _, _, h4, h5, h6⟩ := explodeFold_spec
    (h.exploding.flatMap fun e => Dir8.all.map fun dir => e.pos + dir.delta)
    (h.grid, h.pending_explosions) hR
  exact ⟨h1, by trivial, h4, h5, h6⟩

theorem advanceExploding_none_done (l : List Exploding) :
    (advanceExploding none l).2.2 = true := by
  unfold advanceExploding dtProg
  simp

theorem explosionLoop_completes :
    ∀ (fuel : Nat) (h : MoveHandler), h.grid.Rect →
      2 * (countENP h.grid h.pending_explosions + h.pending_explosions.length)
          + (if h.exploding = [] then 0 else 1) < fuel →
      (explosionLoop fuel none h).2.2 = true := by
  intro fuel
  induction fuel with
  | zero =>
    intro h hR hm
    omega
  | succ fuel ih =>
    intro h hR hm
    by_cases hdone : h.pending_explosions = [] ∧ h.exploding = []
    · simp only [explosionLoop]
      rw [if_pos hdone]
    · simp only [explosionLoop]
      rw [if_neg hdone]
      by_cases hexp : h.exploding = []
      · rw [if_pos hexp]
        have hpne : h.pending_explosions ≠ [] := fun hcon => hdone ⟨hcon, hexp⟩
        obtain ⟨hR1, hh1, hw1, hp1, hc1⟩ := start_explosion_wave_spec h hR
        rw [advanceExploding_none_done]
        simp only [if_pos rfl]
        set h1 := h.start_explosion_wave with hh1def
        set hmid : MoveHandler :=
          { h1 with exploding := (advanceExploding none h1.exploding).1 } with hmiddef
        have hmgrid : hmid.grid = h1.grid := rfl
        have hmpend : hmid.pending_explosions = h1.pending_explosions := rfl
        obtain ⟨hR2, he2, hc2, _, _⟩ := finish_explosion_wave_spec hmid
          (by rw [hmgrid]; exact hR1)
        apply ih _ hR2
        rw [he2]
        simp only [reduceIte]
        rw [hmgrid, hmpend] at hc2
        rw [hp1] at hc2
        simp only [List.length_nil] at hc2
        have hlen : 1 ≤ h.pending_explosions.length :=
          List.length_pos.mpr hpne
        omega
      · rw [if_neg hexp]
        rw [advanceExploding_none_done]
        simp only [if_pos rfl]
        set hmid : MoveHandler :=
          { h with exploding := (advanceExploding none h.exploding).1 } with hmiddef
        have hmgrid : hmid.grid = h.grid := rfl
        have hmpend : hmid.pending_explosions = h.pending_explosions := rfl
        obtain ⟨hR2, he2, hc2, _, _⟩ := finish_explosion_wave_spec hmid
          (by rw [hmgrid]; exact hR)
        apply ih _ hR2
        rw [he2]
        simp only [reduceIte]
        rw [hmgrid, hmpend] at hc2
        rw [if_neg hexp] at hm
        omega


theorem countENP_le_nil (g : Grid) (P : List Position) :
    countENP g P ≤ countENP g [] := by
  unfold countENP
  apply List.countP_mono_left
  intro q hq
  simp only [decide_eq_true_eq, List.not_mem_nil, not_false_eq_true, and_true]
  exact fun hh => hh.1

/-- Claim C6: the explosion phase always terminates — the pending queue is
deduplicated and a starting wave clears its cells to `Empty`, so the measure
`countENP + pending.length` falls with every wave and the canonical fuel
`explosionFuel` drains the loop completely — and a finishing wave never
touches a neighbouring `Wall`, `BlackHole` or `Trigger` cell: the only grid
writes clear `Rat`, `CyborgRat`, `Player`, `Spiderweb` or `Plank` cells to
`Empty`, and only `Explosive` cells are chained into the pending queue. -/
theorem c6_explosion_termination_and_immunity (h : MoveHandler)
    (hR : h.grid.Rect) :
    (∀ fuel, explosionFuel h ≤ fuel →
      (explosionLoop fuel none h).2.2 = true) ∧
    (∀ p, (h.grid.at' p = Cell.Wall ∨ h.grid.at' p = Cell.BlackHole ∨
        (∃ n, h.grid.at' p = Cell.Trigger n)) →
      (h.finish_explosion_wave).grid.at' p = h.grid.at' p) ∧
    (∀ p, (h.finish_explosion_wave).grid.at' p ≠ h.grid.at' p →
      (h.finish_explosion_wave).grid.at' p = Cell.Empty ∧
        destructibleCell (h.grid.at' p) = true) ∧
    (∀ q ∈ (h.finish_explosion_wave).pending_explosions,
      q ∈ h.pending_explosions ∨ h.grid.at' q = Cell.Explosive) := by
  obtain ⟨_, _, _, hpt, hpd⟩ := finish_explosion_wave_spec h hR
  refine ⟨?_, ?_, ?_, hpd⟩
  · intro fuel hfuel
    apply explosionLoop_completes fuel h hR
    have hle := countENP_le_nil h.grid h.pending_explosions
    unfold explosionFuel at hfuel
    by_cases hexp : h.exploding = []
    · rw [if_pos hexp]
      omega
    · rw [if_neg hexp]
      omega
  · intro p hp
    rcases hpt p with h1 | h1
    · exact h1
    · rcases hp with hw | hbh | ⟨n, ht⟩
      · rw [hw] at h1
        exact Bool.noConfusion h1.2
      · rw [hbh] at h1
        exact Bool.noConfusion h1.2
      · rw [ht] at h1
        exact Bool.noConfusion h1.2
  · intro p hne
    rcases hpt p with h1 | h1
    · exact absurd h1 hne
    · exact h1

theorem c6_explosion_termination_and_immunity_witness :
    (∀ fuel, explosionFuel (MoveHandler.mk (⟨[[Cell.Explosive, Cell.Rat Dir8.East]]⟩ : Grid)
        [] [] [] [] [⟨0, 0⟩]) ≤ fuel →
      (explosionLoop fuel none (MoveHandler.mk (⟨[[Cell.Explosive, Cell.Rat Dir8.East]]⟩ : Grid)
        [] [] [] [] [⟨0, 0⟩])).2.2 = true) ∧
    (∀ p, ((MoveHandler.mk (⟨[[Cell.Explosive, Cell.Rat Dir8.East]]⟩ : Grid)
        [] [] [] [] [⟨0, 0⟩]).grid.at' p = Cell.Wall ∨
        (MoveHandler.mk (⟨[[Cell.Explosive, Cell.Rat Dir8.East]]⟩ : Grid)
        [] [] [] [] [⟨0, 0⟩]).grid.at' p = Cell.BlackHole ∨
        (∃ n, (MoveHandler.mk (⟨[[Cell.Explosive, Cell.Rat Dir8.East]]⟩ : Grid)
        [] [] [] [] [⟨0, 0⟩]).grid.at' p = Cell.Trigger n)) →
      ((MoveHandler.mk (⟨[[Cell.Explosive, Cell.Rat Dir8.East]]⟩ : Grid)
        [] [] [] [] [⟨0, 0⟩]).finish_explosion_wave).grid.at' p =
        (MoveHandler.mk (⟨[[Cell.Explosive, Cell.Rat Dir8.East]]⟩ : Grid)
        [] [] [] [] [⟨0, 0⟩]).grid.at' p) ∧
    (∀ p, ((MoveHandler.mk (⟨[[Cell.Explosive, Cell.Rat Dir8.East]]⟩ : Grid)
        [] [] [] [] [⟨0, 0⟩]).finish_explosion_wave).grid.at' p ≠
        (MoveHandler.mk (⟨[[Cell.Explosive, Cell.Rat Dir8.East]]⟩ : Grid)
        [] [] [] [] [⟨0, 0⟩]).grid.at' p →
      ((MoveHandler.mk (⟨[[Cell.Explosive, Cell.Rat Dir8.East]]⟩ : Grid)
        [] [] [] [] [⟨0, 0⟩]).finish_explosion_wave).grid.at' p = Cell.Empty ∧
        destructibleCell ((MoveHandler.mk (⟨[[Cell.Explosive, Cell.Rat Dir8.East]]⟩ : Grid)
        [] [] [] [] [⟨0, 0⟩]).grid.at' p) = true) ∧
    (∀ q ∈ ((MoveHandler.mk (⟨[[Cell.Explosive, Cell.Rat Dir8.East]]⟩ : Grid)
        [] [] [] [] [⟨0, 0⟩]).finish_explosion_wave).pending_explosions,
      q ∈ (MoveHandler.mk (⟨[[Cell.Explosive, Cell.Rat Dir8.East]]⟩ : Grid)
        [] [] [] [] [⟨0, 0⟩]).pending_explosions ∨
        (MoveHandler.mk (⟨[[Cell.Explosive, Cell.Rat Dir8.East]]⟩ : Grid)
        [] [] [] [] [⟨0, 0⟩]).grid.at' q = Cell.Explosive) :=
  c6_explosion_termination_and_immunity
    (MoveHandler.mk (⟨[[Cell.Explosive, Cell.Rat Dir8.East]]⟩ : Grid)
      [] [] [] [] [⟨0, 0⟩]) (by decide)


theorem advanceMoving_none_done (l : List Moving) :
    (advanceMoving none l).2.2 = true := by
  unfold advanceMoving dtProg
  simp

theorem advanceZapping_none_done (l : List Zapping) :
    (advanceZapping none l).2.2 = true := by
  unfold advanceZapping dtProg
  simp

theorem advanceMoving_fst (dt : Option ℚ) (l : List Moving) :
    (advanceMoving dt l).1
      = l.map fun m => { m with progress := dtProg m.progress dt } := rfl

theorem advanceZapping_fst (dt : Option ℚ) (l : List Zapping) :
    (advanceZapping dt l).1
      = l.map fun z => { z with progress := dtProg z.progress dt } := rfl

theorem advanceExploding_fst (dt : Option ℚ) (l : List Exploding) :
    (advanceExploding dt l).1
      = l.map fun e => { e with progress := dtProg e.progress dt } := rfl

theorem foldl_finishStep_progress (f : Moving → ℚ) :
    ∀ (l : List Moving) (acc : Grid × List Position × List Nat),
      ((l.map fun m => { m with progress := f m }).foldl finishStep acc)
        = l.foldl finishStep acc := by
  intro l
  induction l with
  | nil =>
    intro acc
    rfl
  | cons m t ih =>
    intro acc
    rw [List.map_cons, List.foldl_cons, List.foldl_cons]
    have hstep : finishStep acc { m with progress := f m } = finishStep acc m := rfl
    rw [hstep]
    exact ih _

theorem finish_moving_map_progress (h : MoveHandler) (f : Moving → ℚ) :
    MoveHandler.finish_moving
        { h with moving := h.moving.map fun m => { m with progress := f m } }
      = h.finish_moving := by
  unfold MoveHandler.finish_moving
  rw [foldl_finishStep_progress]

theorem zap_targets_map_progress (f : Zapping → ℚ) :
    ∀ (l : List Zapping),
      ((l.map fun z => { z with progress := f z }).flatMap
          fun z => Dir8.all.map fun dir => z.pos + dir.delta)
        = l.flatMap fun z => Dir8.all.map fun dir => z.pos + dir.delta := by
  intro l
  induction l with
  | nil => rfl
  | cons z t ih =>
    rw [List.map_cons, List.flatMap_cons, List.flatMap_cons, ih]

theorem finish_zap_wave_map_progress (h : MoveHandler) (f : Zapping → ℚ) :
    MoveHandler.finish_zap_wave
        { h with zapping := h.zapping.map fun z => { z with progress := f z } }
      = h.finish_zap_wave := by
  unfold MoveHandler.finish_zap_wave
  rw [zap_targets_map_progress]

theorem explode_targets_map_progress (f : Exploding → ℚ) :
    ∀ (l : List Exploding),
      ((l.map fun e => { e with progress := f e }).flatMap
          fun e => Dir8.all.map fun dir => e.pos + dir.delta)
        = l.flatMap fun e => Dir8.all.map fun dir => e.pos + dir.delta := by
  intro l
  induction l with
  | nil => rfl
  | cons e t ih =>
    rw [List.map_cons, List.flatMap_cons, List.flatMap_cons, ih]

theorem finish_explosion_wave_map_progress (h : MoveHandler) (f : Exploding → ℚ) :
    MoveHandler.finish_explosion_wave
        { h with exploding := h.exploding.map fun e => { e with progress := f e } }
      = h.finish_explosion_wave := by
  unfold MoveHandler.finish_explosion_wave
  rw [explode_targets_map_progress]

/-- The moving block once it completes: identity on an empty queue, otherwise
`finish_moving`. -/
def movingDone (h : MoveHandler) : MoveHandler :=
  if h.moving = [] then h else h.finish_moving

/-- The zap-wave start once the moving block is done. -/
def trigDone (h : MoveHandler) : MoveHandler :=
  if h.triggered_numbers = [] then h else h.start_zap_wave

/-- The zap block once it completes. -/
def zapDone (h : MoveHandler) : MoveHandler :=
  if h.zapping = [] then h else h.finish_zap_wave

/-- The state entering the explosion loop: moving block, zap-wave start, zap
block. -/
def zapStage (h : MoveHandler) : MoveHandler :=
  zapDone (trigDone (movingDone h))

/-- Termination measure of the wave chain. -/
def muHandler (h : MoveHandler) : Nat :=
  countENP h.grid h.pending_explosions + h.pending_explosions.length

/-- Termination measure of the explosion loop. -/
def mEHandler (h : MoveHandler) : Nat :=
  2 * muHandler h + (if h.exploding = [] then 0 else 1)

theorem explosionFuel_ge (h : MoveHandler) :
    2 * muHandler h + 2 ≤ explosionFuel h := by
  unfold explosionFuel muHandler
  have := countENP_le_nil h.grid h.pending_explosions
  omega

theorem mEHandler_lt_explosionFuel (h : MoveHandler) :
    mEHandler h < explosionFuel h := by
  have h1 := explosionFuel_ge h
  unfold mEHandler
  by_cases hexp : h.exploding = []
  · rw [if_pos hexp]
    omega
  · rw [if_neg hexp]
    omega


theorem countENP_setCell_eq {g : Grid} (hR : g.Rect) (pos : Position) (c : Cell)
    (hc : c ≠ Cell.Explosive) (hold : g.at' pos ≠ Cell.Explosive)
    (P : List Position) : countENP (g.setCell pos c) P = countENP g P := by
  unfold countENP
  rw [gridPositions_eq_of_dims (Grid.height_setCell g pos c)
    (Grid.width_setCell g pos c)]
  apply List.countP_congr
  intro q hq
  by_cases hqp : q = pos
  · subst hqp
    by_cases hinb : q.in_bounds g.bounds = true
    · rw [Grid.at'_setCell_eq hR _ _ hinb]
      simp only [decide_eq_true_eq]
      constructor
      · rintro ⟨hcc, -⟩
        exact absurd hcc hc
      · rintro ⟨hcc, -⟩
        exact absurd hcc hold
    · rw [Grid.setCell_of_not_inb c hinb]
  · rw [Grid.at'_setCell_ne _ _ _ _ hqp]

theorem countENP_setCell_mem {g : Grid} (pos : Position) (c : Cell)
    (P : List Position) (hmem : pos ∈ P) :
    countENP (g.setCell pos c) P = countENP g P := by
  unfold countENP
  rw [gridPositions_eq_of_dims (Grid.height_setCell g pos c)
    (Grid.width_setCell g pos c)]
  apply List.countP_congr
  intro q hq
  by_cases hqp : q = pos
  · subst hqp
    simp only [decide_eq_true_eq]
    constructor
    · rintro ⟨-, hb⟩
      exact absurd hmem hb
    · rintro ⟨-, hb⟩
      exact absurd hmem hb
  · rw [Grid.at'_setCell_ne _ _ _ _ hqp]

theorem countENP_setCell_append {g : Grid} (hR : g.Rect) (pos : Position)
    (c : Cell) (hc : c ≠ Cell.Explosive) (hold : g.at' pos = Cell.Explosive)
    (P : List Position) (hmem : ¬ pos ∈ P) :
    countENP (g.setCell pos c) (P ++ [pos]) + 1 = countENP g P := by
  have hinb : pos.in_bounds g.bounds = true :=
    Grid.inb_of_at'_ne_wall (by rw [hold]; exact fun hcon => Cell.noConfusion hcon)
  have hdrop := countP_drop_one
    (fun q => decide (g.at' q = Cell.Explosive ∧ ¬ q ∈ P))
    (gridPositions g) (gridPositions_nodup _) pos (mem_gridPositions.mpr hinb)
    (by simp [hold, hmem])
  have hdrop2 : (gridPositions g).countP
        (fun q => decide (g.at' q = Cell.Explosive ∧ ¬ q ∈ P)
          && decide (q ≠ pos)) + 1 =
      (gridPositions g).countP
        (fun q => decide (g.at' q = Cell.Explosive ∧ ¬ q ∈ P)) := hdrop
  have hcongr : countENP (g.setCell pos c) (P ++ [pos]) =
      (gridPositions g).countP
        (fun q => decide (g.at' q = Cell.Explosive ∧ ¬ q ∈ P)
          && decide (q ≠ pos)) := by
    unfold countENP
    rw [gridPositions_eq_of_dims (Grid.height_setCell g pos c)
      (Grid.width_setCell g pos c)]
    apply List.countP_congr
    intro q hq
    simp only [decide_eq_true_eq, Bool.and_eq_true, List.mem_append,
      List.mem_singleton]
    by_cases hqp : q = pos
    · subst hqp
      rw [Grid.at'_setCell_eq hR _ _ hinb]
      constructor
      · rintro ⟨hcc, -⟩
        exact absurd hcc hc
      · rintro ⟨-, hne⟩
        exact absurd rfl hne
    · rw [Grid.at'_setCell_ne _ _ _ _ hqp]
      constructor
      · rintro ⟨ha, hb⟩
        exact ⟨⟨ha, fun hc2 => hb (Or.inl hc2)⟩, hqp⟩
      · rintro ⟨⟨ha, hb⟩, hc2⟩
        exact ⟨ha, fun hd => hd.elim hb hc2⟩
  rw [hcongr]
  unfold countENP
  omega

theorem countENP_append_explosive {g : Grid} {pos : Position}
    (hold : g.at' pos = Cell.Explosive) (P : List Position) (hmem : ¬ pos ∈ P) :
    countENP g (P ++ [pos]) + 1 = countENP g P := by
  have hinb : pos.in_bounds g.bounds = true :=
    Grid.inb_of_at'_ne_wall (by rw [hold]; exact fun hcon => Cell.noConfusion hcon)
  have hdrop := countP_drop_one
    (fun q => decide (g.at' q = Cell.Explosive ∧ ¬ q ∈ P))
    (gridPositions g) (gridPositions_nodup _) pos (mem_gridPositions.mpr hinb)
    (by simp [hold, hmem])
  have hdrop2 : (gridPositions g).countP
        (fun q => decide (g.at' q = Cell.Explosive ∧ ¬ q ∈ P)
          && decide (q ≠ pos)) + 1 =
      (gridPositions g).countP
        (fun q => decide (g.at' q = Cell.Explosive ∧ ¬ q ∈ P)) := hdrop
  have hcongr : countENP g (P ++ [pos]) =
      (gridPositions g).countP
        (fun q => decide (g.at' q = Cell.Explosive ∧ ¬ q ∈ P)
          && decide (q ≠ pos)) := by
    unfold countENP
    apply List.countP_congr
    intro q hq
    simp only [decide_eq_true_eq, Bool.and_eq_true, List.mem_append,
      List.mem_singleton]
    constructor
    · rintro ⟨ha, hb⟩
      exact ⟨⟨ha, fun hc2 => hb (Or.inl hc2)⟩, fun hc2 => hb (Or.inr hc2)⟩
    · rintro ⟨⟨ha, hb⟩, hc2⟩
      exact ⟨ha, fun hd => hd.elim hb hc2⟩
  rw [hcongr]
  unfold countENP
  omega

theorem finishStep_mu (acc : Grid × List Position × List Nat) (m : Moving)
    (hok : m.cell ≠ Cell.Explosive) (hR : acc.1.Rect) :
    (finishStep acc m).1.Rect ∧
    countENP (finishStep acc m).1 (finishStep acc m).2.1
        + (finishStep acc m).2.1.length
      = countENP acc.1 acc.2.1 + acc.2.1.length := by
  unfold finishStep
  cases hat : acc.1.at' m.to'
  case BlackHole => exact ⟨hR, rfl⟩
  case Explosive =>
    dsimp only
    by_cases hmem : m.to' ∈ acc.2.1
    · rw [if_pos hmem]
      exact ⟨hR.setCell _ _, by rw [countENP_setCell_mem _ _ _ hmem]⟩
    · rw [if_neg hmem]
      have hstep := countENP_setCell_append hR m.to' m.cell hok hat acc.2.1 hmem
      refine ⟨hR.setCell _ _, ?_⟩
      rw [List.length_append, List.length_singleton]
      omega
  all_goals
    dsimp only
    exact ⟨hR.setCell _ _, by rw [countENP_setCell_eq hR _ _ hok
      (by rw [hat]; exact fun hcon => Cell.noConfusion hcon) acc.2.1]⟩

theorem finishFold_mu :
    ∀ (l : List Moving) (acc : Grid × List Position × List Nat),
      (∀ m ∈ l, m.cell ≠ Cell.Explosive) → acc.1.Rect →
      (l.foldl finishStep acc).1.Rect ∧
      countENP (l.foldl finishStep acc).1 (l.foldl finishStep acc).2.1
          + (l.foldl finishStep acc).2.1.length
        = countENP acc.1 acc.2.1 + acc.2.1.length := by
  intro l
  induction l with
  | nil =>
    intro acc hok hR
    exact ⟨hR, rfl⟩
  | cons m t ih =>
    intro acc hok hR
    rw [List.foldl_cons]
    obtain ⟨hR1, hmu1⟩ := finishStep_mu acc m (hok m (List.mem_cons_self _ _)) hR
    obtain ⟨hR2, hmu2⟩ := ih (finishStep acc m)
      (fun mm hmm => hok mm (List.mem_cons_of_mem _ hmm)) hR1
    exact ⟨hR2, by omega⟩

theorem finish_moving_spec2 (h : MoveHandler) (hR : h.grid.Rect)
    (hok : ∀ m ∈ h.moving, m.cell ≠ Cell.Explosive) :
    h.finish_moving.grid.Rect ∧
    muHandler h.finish_moving = muHandler h ∧
    h.finish_moving.moving = [] ∧
    h.finish_moving.zapping = h.zapping ∧
    h.finish_moving.exploding = h.exploding := by
  obtain ⟨hR1, hmu⟩ := finishFold_mu h.moving
    (h.grid, h.pending_explosions, h.triggered_numbers) hok hR
  exact ⟨hR1, hmu, rfl, rfl, rfl⟩

theorem mem_zap_positions {h : MoveHandler} (hR : h.grid.Rect) {q : Position}
    (hq : q ∈ (h.grid.entries.filter fun pc =>
      match pc.2 with
      | Cell.Trigger n => decide (n ∈ h.triggered_numbers)
      | _ => false).map Prod.fst) :
    ∃ n, h.grid.at' q = Cell.Trigger n := by
  rw [List.mem_map] at hq
  obtain ⟨pc, hpc, hfst⟩ := hq
  rw [List.mem_filter] at hpc
  obtain ⟨hmem, hpred⟩ := hpc
  have hat := (Grid.at'_of_mem_entries hR
    (show (pc.1, pc.2) ∈ h.grid.entries from hmem)).2
  rw [hfst] at hat
  cases hc : pc.2 with
  | Trigger n =>
    exact ⟨n, by rw [hat, hc]⟩
  | _ =>
    rw [hc] at hpred
    exact Bool.noConfusion hpred

theorem start_zap_wave_spec2 (h : MoveHandler) (hR : h.grid.Rect) :
    h.start_zap_wave.grid.Rect ∧
    muHandler h.start_zap_wave = muHandler h ∧
    h.start_zap_wave.triggered_numbers = [] ∧
    h.start_zap_wave.moving = h.moving ∧
    h.start_zap_wave.pending_explosions = h.pending_explosions ∧
    h.start_zap_wave.exploding = h.exploding := by
  simp only [MoveHandler.start_zap_wave]
  refine ⟨fold_setCell_rect Cell.Wall _ hR, ?_, by trivial, by trivial, by trivial, by trivial⟩
  unfold muHandler
  dsimp only
  congr 1
  unfold countENP
  rw [gridPositions_eq_of_dims (fold_setCell_height Cell.Wall _ _)
    (fold_setCell_width Cell.Wall _ _)]
  apply List.countP_congr
  intro q hq
  rw [fold_setCell_at' Cell.Wall _ _ hR q]
  by_cases hqz : q ∈ (h.grid.entries.filter fun pc =>
      match pc.2 with
      | Cell.Trigger n => decide (n ∈ h.triggered_numbers)
      | _ => false).map Prod.fst
  · by_cases hinb : q.in_bounds h.grid.bounds = true
    · rw [if_pos ⟨hqz, hinb⟩]
      obtain ⟨n, hn⟩ := mem_zap_positions hR hqz
      rw [hn]
      simp only [decide_eq_true_eq]
      constructor
      · rintro ⟨hcc, -⟩
        exact absurd hcc (by decide)
      · rintro ⟨hcc, -⟩
        exact absurd hcc (by exact fun hcon => Cell.noConfusion hcon)
    · rw [if_neg (fun hcon => hinb hcon.2)]
  · rw [if_neg (fun hcon => hqz hcon.1)]

theorem zapStep_mu (acc : Grid × List Position) (pos : Position)
    (hR : acc.1.Rect) :
    (zapStep acc pos).1.Rect ∧
    countENP (zapStep acc pos).1 (zapStep acc pos).2
        + (zapStep acc pos).2.length
      = countENP acc.1 acc.2 + acc.2.length := by
  unfold zapStep
  cases hat : acc.1.at' pos
  case Empty =>
    dsimp only
    exact ⟨hR.setCell _ _, by rw [countENP_setCell_eq hR _ _
      (by exact fun hcon => Cell.noConfusion hcon)
      (by rw [hat]; exact fun hcon => Cell.noConfusion hcon) acc.2]⟩
  case Explosive =>
    dsimp only
    by_cases hmem : pos ∈ acc.2
    · rw [if_pos hmem]
      exact ⟨hR, rfl⟩
    · rw [if_neg hmem]
      have hstep := countENP_append_explosive hat acc.2 hmem
      refine ⟨hR, ?_⟩
      rw [List.length_append, List.length_singleton]
      omega
  all_goals exact ⟨hR, rfl⟩

theorem zapFold_mu :
    ∀ (targets : List Position) (acc : Grid × List Position), acc.1.Rect →
      (targets.foldl zapStep acc).1.Rect ∧
      countENP (targets.foldl zapStep acc).1 (targets.foldl zapStep acc).2
          + (targets.foldl zapStep acc).2.length
        = countENP acc.1 acc.2 + acc.2.length := by
  intro targets
  induction targets with
  | nil =>
    intro acc hR
    exact ⟨hR, rfl⟩
  | cons pos rest ih =>
    intro acc hR
    rw [List.foldl_cons]
    obtain ⟨hR1, hmu1⟩ := zapStep_mu acc pos hR
    obtain ⟨hR2, hmu2⟩ := ih (zapStep acc pos) hR1
    exact ⟨hR2, by omega⟩

theorem finish_zap_wave_spec2 (h : MoveHandler) (hR : h.grid.Rect) :
    h.finish_zap_wave.grid.Rect ∧
    muHandler h.finish_zap_wave = muHandler h ∧
    h.finish_zap_wave.zapping = [] ∧
    h.finish_zap_wave.moving = h.moving ∧
    h.finish_zap_wave.triggered_numbers = h.triggered_numbers ∧
    h.finish_zap_wave.exploding = h.exploding := by
  obtain ⟨hR1, hmu⟩ := zapFold_mu
    (h.zapping.flatMap fun z => Dir8.all.map fun dir => z.pos + dir.delta)
    (h.grid, h.pending_explosions) hR
  exact ⟨hR1, hmu, rfl, rfl, rfl, rfl⟩


theorem dtSub_none (a : ℚ) : dtSub none a = none := rfl

theorem muHandler_start_explosion (h : MoveHandler) (hR : h.grid.Rect) :
    h.start_explosion_wave.grid.Rect ∧
    muHandler h.start_explosion_wave + h.pending_explosions.length
      = muHandler h ∧
    h.start_explosion_wave.moving = h.moving ∧
    h.start_explosion_wave.zapping = h.zapping ∧
    h.start_explosion_wave.triggered_numbers = h.triggered_numbers ∧
    h.start_explosion_wave.exploding
      = h.pending_explosions.map fun p => (⟨p, 0⟩ : Exploding) := by
  obtain ⟨h1, _, _, h4, h5⟩ := start_explosion_wave_spec h hR
  refine ⟨h1, ?_, rfl, rfl, rfl, rfl⟩
  unfold muHandler
  rw [h4, h5]
  simp

theorem muHandler_finish_explosion (h : MoveHandler) (hR : h.grid.Rect) :
    h.finish_explosion_wave.grid.Rect ∧
    muHandler h.finish_explosion_wave = muHandler h ∧
    h.finish_explosion_wave.exploding = [] ∧
    h.finish_explosion_wave.moving = h.moving ∧
    h.finish_explosion_wave.zapping = h.zapping ∧
    h.finish_explosion_wave.triggered_numbers = h.triggered_numbers := by
  obtain ⟨h1, h2, h3, _, _⟩ := finish_explosion_wave_spec h hR
  exact ⟨h1, h3, h2, rfl, rfl, rfl⟩

theorem explosionLoop_done (fuel : Nat) (dt : Option ℚ) (h : MoveHandler)
    (hdone : h.pending_explosions = [] ∧ h.exploding = []) :
    explosionLoop fuel dt h = (h, dt, true) := by
  cases fuel <;> (simp only [explosionLoop]; rw [if_pos hdone])

theorem explosionLoop_zero_stall (dt : Option ℚ) (h : MoveHandler)
    (hnd : ¬ (h.pending_explosions = [] ∧ h.exploding = [])) :
    explosionLoop 0 dt h = (h, dt, false) := by
  simp only [explosionLoop]
  rw [if_neg hnd]

theorem explosionLoop_step_of_adv (fuel : Nat) (dt : Option ℚ) (h : MoveHandler)
    (hnd : ¬ (h.pending_explosions = [] ∧ h.exploding = []))
    (hadv : (advanceExploding dt
      (if h.exploding = [] then h.start_explosion_wave else h).exploding).2.2
        = true) :
    explosionLoop (fuel + 1) dt h
      = explosionLoop fuel
          (dtSub dt (advanceExploding dt
            (if h.exploding = [] then h.start_explosion_wave else h).exploding).2.1)
          (MoveHandler.finish_explosion_wave
            (if h.exploding = [] then h.start_explosion_wave else h)) := by
  simp only [explosionLoop]
  rw [if_neg hnd, if_pos hadv, advanceExploding_fst,
    finish_explosion_wave_map_progress]

theorem explosionLoop_step_stall (fuel : Nat) (dt : Option ℚ) (h : MoveHandler)
    (hnd : ¬ (h.pending_explosions = [] ∧ h.exploding = []))
    (hadv : ¬ (advanceExploding dt
      (if h.exploding = [] then h.start_explosion_wave else h).exploding).2.2
        = true) :
    explosionLoop (fuel + 1) dt h
      = ({ (if h.exploding = [] then h.start_explosion_wave else h) with
            exploding := (advanceExploding dt
              (if h.exploding = [] then h.start_explosion_wave else h).exploding).1 },
         dt, false) := by
  simp only [explosionLoop]
  rw [if_neg hnd, if_neg hadv]

theorem explosionLoop_none_step (fuel : Nat) (h : MoveHandler)
    (hnd : ¬ (h.pending_explosions = [] ∧ h.exploding = [])) :
    explosionLoop (fuel + 1) none h
      = explosionLoop fuel none
          (MoveHandler.finish_explosion_wave
            (if h.exploding = [] then h.start_explosion_wave else h)) := by
  rw [explosionLoop_step_of_adv fuel none h hnd (advanceExploding_none_done _),
    dtSub_none]

theorem mEHandler_step_lt (h : MoveHandler) (hR : h.grid.Rect)
    (hnd : ¬ (h.pending_explosions = [] ∧ h.exploding = [])) :
    mEHandler (MoveHandler.finish_explosion_wave
        (if h.exploding = [] then h.start_explosion_wave else h)) < mEHandler h ∧
    (MoveHandler.finish_explosion_wave
        (if h.exploding = [] then h.start_explosion_wave else h)).grid.Rect ∧
    (MoveHandler.finish_explosion_wave
        (if h.exploding = [] then h.start_explosion_wave else h)).moving
      = h.moving ∧
    (MoveHandler.finish_explosion_wave
        (if h.exploding = [] then h.start_explosion_wave else h)).zapping
      = h.zapping ∧
    (MoveHandler.finish_explosion_wave
        (if h.exploding = [] then h.start_explosion_wave else h)).triggered_numbers
      = h.triggered_numbers := by
  by_cases hexp : h.exploding = []
  · rw [if_pos hexp]
    have hpne : h.pending_explosions ≠ [] := fun hcon => hnd ⟨hcon, hexp⟩
    have hlen : 1 ≤ h.pending_explosions.length := List.length_pos.mpr hpne
    obtain ⟨hRs, hmus, hms, hzs, hts, _⟩ := muHandler_start_explosion h hR
    obtain ⟨hRf, hmuf, hef, hmf, hzf, htf⟩ :=
      muHandler_finish_explosion h.start_explosion_wave hRs
    refine ⟨?_, hRf, hmf.trans hms, hzf.trans hzs, htf.trans hts⟩
    unfold mEHandler
    rw [if_pos hef]
    by_cases hexph : h.exploding = []
    · rw [if_pos hexph]
      omega
    · rw [if_neg hexph]
      omega
  · rw [if_neg hexp]
    obtain ⟨hRf, hmuf, hef, hmf, hzf, htf⟩ := muHandler_finish_explosion h hR
    refine ⟨?_, hRf, hmf, hzf, htf⟩
    unfold mEHandler
    rw [if_pos hef, if_neg hexp]
    omega

theorem explosionLoop_fuel_stable :
    ∀ (f1 f2 : Nat) (h : MoveHandler), h.grid.Rect →
      mEHandler h < f1 → mEHandler h < f2 →
      explosionLoop f1 none h = explosionLoop f2 none h := by
  intro f1
  induction f1 with
  | zero =>
    intro f2 h hR h1 h2
    omega
  | succ f1 ih =>
    intro f2 h hR h1 h2
    by_cases hdone : h.pending_explosions = [] ∧ h.exploding = []
    · rw [explosionLoop_done _ _ _ hdone, explosionLoop_done _ _ _ hdone]
    · obtain ⟨hlt, hRf, _, _, _⟩ := mEHandler_step_lt h hR hdone
      cases f2 with
      | zero => omega
      | succ f2 =>
        rw [explosionLoop_none_step f1 h hdone,
          explosionLoop_none_step f2 h hdone]
        exact ih f2 _ hRf (by omega) (by omega)

theorem explosionLoop_true_eq :
    ∀ (fuel : Nat) (h : MoveHandler) (dt : Option ℚ), h.grid.Rect →
      (explosionLoop fuel dt h).2.2 = true →
      (explosionLoop fuel dt h).1
          = (explosionLoop (mEHandler h + 1) none h).1 ∧
      (explosionLoop (mEHandler h + 1) none h).2.2 = true := by
  intro fuel
  induction fuel with
  | zero =>
    intro h dt hR htrue
    by_cases hdone : h.pending_explosions = [] ∧ h.exploding = []
    · rw [explosionLoop_done _ _ _ hdone, explosionLoop_done _ _ _ hdone]
      exact ⟨rfl, rfl⟩
    · rw [explosionLoop_zero_stall _ _ hdone] at htrue
      cases htrue
  | succ fuel ih =>
    intro h dt hR htrue
    by_cases hdone : h.pending_explosions = [] ∧ h.exploding = []
    · rw [explosionLoop_done _ _ _ hdone, explosionLoop_done _ _ _ hdone]
      exact ⟨rfl, rfl⟩
    · by_cases hadv : (advanceExploding dt
          (if h.exploding = [] then h.start_explosion_wave else h).exploding).2.2
            = true
      · rw [explosionLoop_step_of_adv fuel dt h hdone hadv] at htrue ⊢
        obtain ⟨hlt, hRf, _, _, _⟩ := mEHandler_step_lt h hR hdone
        obtain ⟨hres, hcan⟩ := ih _ _ hRf htrue
        have hchain : (explosionLoop (mEHandler h + 1) none h)
            = explosionLoop (mEHandler
                (MoveHandler.finish_explosion_wave
                  (if h.exploding = [] then h.start_explosion_wave else h)) + 1)
              none
              (MoveHandler.finish_explosion_wave
                (if h.exploding = [] then h.start_explosion_wave else h)) := by
          rw [explosionLoop_none_step (mEHandler h) h hdone]
          refine explosionLoop_fuel_stable _ _ _ hRf ?_ ?_
          · omega
          · omega
        rw [hchain]
        exact ⟨hres, hcan⟩
      · rw [explosionLoop_step_stall fuel dt h hdone hadv] at htrue
        cases htrue

theorem explosionLoop_false_eq :
    ∀ (fuel : Nat) (h : MoveHandler) (dt : Option ℚ), h.grid.Rect →
      (explosionLoop fuel dt h).2.2 = false →
      (explosionLoop fuel dt h).1.grid.Rect ∧
      (explosionLoop fuel dt h).1.moving = h.moving ∧
      (explosionLoop fuel dt h).1.zapping = h.zapping ∧
      (explosionLoop fuel dt h).1.triggered_numbers = h.triggered_numbers ∧
      (explosionLoop (mEHandler (explosionLoop fuel dt h).1 + 1) none
          (explosionLoop fuel dt h).1).1
        = (explosionLoop (mEHandler h + 1) none h).1 := by
  intro fuel
  induction fuel with
  | zero =>
    intro h dt hR hfalse
    by_cases hdone : h.pending_explosions = [] ∧ h.exploding = []
    · rw [explosionLoop_done _ _ _ hdone] at hfalse
      cases hfalse
    · rw [explosionLoop_zero_stall _ _ hdone]
      exact ⟨hR, rfl, rfl, rfl, rfl⟩
  | succ fuel ih =>
    intro h dt hR hfalse
    by_cases hdone : h.pending_explosions = [] ∧ h.exploding = []
    · rw [explosionLoop_done _ _ _ hdone] at hfalse
      cases hfalse
    · by_cases hadv : (advanceExploding dt
          (if h.exploding = [] then h.start_explosion_wave else h).exploding).2.2
            = true
      · rw [explosionLoop_step_of_adv fuel dt h hdone hadv] at hfalse ⊢
        obtain ⟨hlt, hRf, hmf, hzf, htf⟩ := mEHandler_step_lt h hR hdone
        obtain ⟨i1, i2, i3, i4, i5⟩ := ih _ _ hRf hfalse
        refine ⟨i1, i2.trans hmf, i3.trans hzf, i4.trans htf, ?_⟩
        rw [i5]
        rw [explosionLoop_none_step (mEHandler h) h hdone]
        refine congrArg (fun (t : MoveHandler × Option ℚ × Bool) => t.1) ?_
        refine (explosionLoop_fuel_stable _ _ _ hRf ?_ ?_).symm
        · omega
        · omega
      · rw [explosionLoop_step_stall fuel dt h hdone hadv]
        have hR1 : (if h.exploding = [] then h.start_explosion_wave else h).grid.Rect := by
          by_cases hexp : h.exploding = []
          · rw [if_pos hexp]
            exact (start_explosion_wave_spec h hR).1
          · rw [if_neg hexp]
            exact hR
        have hne1 : (if h.exploding = [] then h.start_explosion_wave else h).exploding ≠ [] := by
          intro hcon
          apply hadv
          rw [hcon]
          rfl
        set h1 := if h.exploding = [] then h.start_explosion_wave else h with hh1
        set hs : MoveHandler :=
          { h1 with exploding := (advanceExploding dt h1.exploding).1 } with hhs
        have hsgrid : hs.grid = h1.grid := rfl
        have hspend : hs.pending_explosions = h1.pending_explosions := rfl
        have hsexp : hs.exploding = (advanceExploding dt h1.exploding).1 := rfl
        have hsne : hs.exploding ≠ [] := by
          rw [hsexp, advanceExploding_fst]
          intro hcon
          exact hne1 (List.map_eq_nil_iff.mp hcon)
        have hsnd : ¬ (hs.pending_explosions = [] ∧ hs.exploding = []) :=
          fun hcon => hsne hcon.2
        have hfin : MoveHandler.finish_explosion_wave
            (if hs.exploding = [] then hs.start_explosion_wave else hs)
              = MoveHandler.finish_explosion_wave h1 := by
          rw [if_neg hsne]
          show MoveHandler.finish_explosion_wave
              { h1 with exploding := (advanceExploding dt h1.exploding).1 }
            = MoveHandler.finish_explosion_wave h1
          rw [advanceExploding_fst]
          exact finish_explosion_wave_map_progress h1 _
        have hmv : h1.moving = h.moving := by
          rw [hh1]
          by_cases hexp : h.exploding = []
          · rw [if_pos hexp]
            rfl
          · rw [if_neg hexp]
        have hzp : h1.zapping = h.zapping := by
          rw [hh1]
          by_cases hexp : h.exploding = []
          · rw [if_pos hexp]
            rfl
          · rw [if_neg hexp]
        have htg : h1.triggered_numbers = h.triggered_numbers := by
          rw [hh1]
          by_cases hexp : h.exploding = []
          · rw [if_pos hexp]
            rfl
          · rw [if_neg hexp]
        refine ⟨hR1, hmv, hzp, htg, ?_⟩
        rw [explosionLoop_none_step (mEHandler hs) hs hsnd, hfin]
        rw [explosionLoop_none_step (mEHandler h) h hdone]
        rw [← hh1]
        obtain ⟨hRf2, hmuf2, hef2, _, _, _⟩ := muHandler_finish_explosion h1 hR1
        obtain ⟨hlt0, _, _, _, _⟩ := mEHandler_step_lt h hR hdone
        rw [← hh1] at hlt0
        refine congrArg (fun (t : MoveHandler × Option ℚ × Bool) => t.1) ?_
        refine explosionLoop_fuel_stable _ _ _ hRf2 ?_ ?_
        · unfold mEHandler
          rw [if_pos hef2, if_neg hsne]
          have hmuhs : muHandler hs = muHandler h1 := rfl
          omega
        · omega


theorem movingPhase_none (h : MoveHandler) :
    movingPhase none h = Sum.inl (movingDone h, none) := by
  unfold movingPhase movingDone
  by_cases hm : h.moving = []
  · rw [if_pos hm, if_pos hm]
  · rw [if_neg hm, if_neg hm, if_pos (advanceMoving_none_done h.moving),
      advanceMoving_fst, finish_moving_map_progress, dtSub_none]

theorem movingPhase_inl (dt : Option ℚ) (h : MoveHandler)
    (p : MoveHandler × Option ℚ) (hmp : movingPhase dt h = Sum.inl p) :
    p.1 = movingDone h := by
  unfold movingPhase at hmp
  unfold movingDone
  by_cases hm : h.moving = []
  · rw [if_pos hm] at hmp
    rw [if_pos hm]
    injection hmp with h2
    rw [← h2]
  · rw [if_neg hm] at hmp
    rw [if_neg hm]
    by_cases hdone : (advanceMoving dt h.moving).2.2 = true
    · rw [if_pos hdone] at hmp
      injection hmp with h2
      rw [← h2]
      dsimp only
      rw [advanceMoving_fst, finish_moving_map_progress]
    · rw [if_neg hdone] at hmp
      exact Sum.noConfusion hmp

theorem movingPhase_inr (dt : Option ℚ) (h h' : MoveHandler)
    (hmp : movingPhase dt h = Sum.inr h') :
    h' = { h with moving := h.moving.map (fun m => { m with progress := dtProg m.progress dt }) }
      ∧ h.moving ≠ [] := by
  unfold movingPhase at hmp
  by_cases hm : h.moving = []
  · rw [if_pos hm] at hmp
    exact Sum.noConfusion hmp
  · rw [if_neg hm] at hmp
    by_cases hdone : (advanceMoving dt h.moving).2.2 = true
    · rw [if_pos hdone] at hmp
      exact Sum.noConfusion hmp
    · rw [if_neg hdone] at hmp
      injection hmp with h2
      refine ⟨?_, hm⟩
      rw [← h2, advanceMoving_fst]

theorem zapPhase_none (h : MoveHandler) :
    zapPhase none h = Sum.inl (zapDone h, none) := by
  unfold zapPhase zapDone
  by_cases hz : h.zapping = []
  · rw [if_pos hz, if_pos hz]
  · rw [if_neg hz, if_neg hz, if_pos (advanceZapping_none_done h.zapping),
      advanceZapping_fst, finish_zap_wave_map_progress, dtSub_none]

theorem zapPhase_inl (dt : Option ℚ) (h : MoveHandler)
    (p : MoveHandler × Option ℚ) (hzp : zapPhase dt h = Sum.inl p) :
    p.1 = zapDone h := by
  unfold zapPhase at hzp
  unfold zapDone
  by_cases hz : h.zapping = []
  · rw [if_pos hz] at hzp
    rw [if_pos hz]
    injection hzp with h2
    rw [← h2]
  · rw [if_neg hz] at hzp
    rw [if_neg hz]
    by_cases hdone : (advanceZapping dt h.zapping).2.2 = true
    · rw [if_pos hdone] at hzp
      injection hzp with h2
      rw [← h2]
      dsimp only
      rw [advanceZapping_fst, finish_zap_wave_map_progress]
    · rw [if_neg hdone] at hzp
      exact Sum.noConfusion hzp

theorem zapPhase_inr (dt : Option ℚ) (h h' : MoveHandler)
    (hzp : zapPhase dt h = Sum.inr h') :
    h' = { h with zapping := h.zapping.map (fun z => { z with progress := dtProg z.progress dt }) }
      ∧ h.zapping ≠ [] := by
  unfold zapPhase at hzp
  by_cases hz : h.zapping = []
  · rw [if_pos hz] at hzp
    exact Sum.noConfusion hzp
  · rw [if_neg hz] at hzp
    by_cases hdone : (advanceZapping dt h.zapping).2.2 = true
    · rw [if_pos hdone] at hzp
      exact Sum.noConfusion hzp
    · rw [if_neg hdone] at hzp
      injection hzp with h2
      refine ⟨?_, hz⟩
      rw [← h2, advanceZapping_fst]

theorem advanceAnimation_none (F : Nat) (h : MoveHandler) :
    advanceAnimation F none h = explosionLoop F none (zapStage h) := by
  unfold advanceAnimation
  rw [movingPhase_none]
  dsimp only
  rw [zapPhase_none]
  dsimp only
  rfl

theorem movingDone_spec (h : MoveHandler) (hR : h.grid.Rect)
    (hok : ∀ m ∈ h.moving, m.cell ≠ Cell.Explosive) :
    (movingDone h).grid.Rect ∧ muHandler (movingDone h) = muHandler h
      ∧ (movingDone h).moving = [] ∧ (movingDone h).exploding = h.exploding := by
  unfold movingDone
  by_cases hm : h.moving = []
  · rw [if_pos hm]
    exact ⟨hR, rfl, hm, rfl⟩
  · rw [if_neg hm]
    obtain ⟨a1, a2, a3, _, a5⟩ := finish_moving_spec2 h hR hok
    exact ⟨a1, a2, a3, a5⟩

theorem trigDone_movingDone_spec (h : MoveHandler) (hR : h.grid.Rect)
    (hok : ∀ m ∈ h.moving, m.cell ≠ Cell.Explosive) :
    (trigDone (movingDone h)).grid.Rect ∧
    muHandler (trigDone (movingDone h)) = muHandler h ∧
    (trigDone (movingDone h)).moving = [] ∧
    (trigDone (movingDone h)).triggered_numbers = [] ∧
    (trigDone (movingDone h)).exploding = h.exploding := by
  obtain ⟨A1, A2, A3, A4⟩ := movingDone_spec h hR hok
  unfold trigDone
  by_cases ht : (movingDone h).triggered_numbers = []
  · rw [if_pos ht]
    exact ⟨A1, A2, A3, ht, A4⟩
  · rw [if_neg ht]
    obtain ⟨b1, b2, b3, b4, _, b6⟩ := start_zap_wave_spec2 (movingDone h) A1
    exact ⟨b1, b2.trans A2, b4.trans A3, b3, b6.trans A4⟩

theorem zapStage_spec (h : MoveHandler) (hR : h.grid.Rect)
    (hok : ∀ m ∈ h.moving, m.cell ≠ Cell.Explosive) :
    (zapStage h).grid.Rect ∧
    muHandler (zapStage h) = muHandler h ∧
    (zapStage h).moving = [] ∧
    (zapStage h).zapping = [] ∧
    (zapStage h).triggered_numbers = [] ∧
    (zapStage h).exploding = h.exploding := by
  obtain ⟨B1, B2, B3, B4, B5⟩ := trigDone_movingDone_spec h hR hok
  unfold zapStage zapDone
  by_cases hz : (trigDone (movingDone h)).zapping = []
  · rw [if_pos hz]
    exact ⟨B1, B2, B3, hz, B4, B5⟩
  · rw [if_neg hz]
    obtain ⟨c1, c2, c3, c4, c5, c6⟩ :=
      finish_zap_wave_spec2 (trigDone (movingDone h)) B1
    exact ⟨c1, c2.trans B2, c4.trans B3, c3, c5.trans B4, c6.trans B5⟩


theorem advanceAnimation_some (F : Nat) (d : ℚ) (h : MoveHandler) :
    (∃ h', movingPhase (some d) h = Sum.inr h'
      ∧ advanceAnimation F (some d) h = (h', some d, false)) ∨
    (∃ dt1 h'', zapPhase dt1 (trigDone (movingDone h)) = Sum.inr h''
      ∧ advanceAnimation F (some d) h = (h'', dt1, false)) ∨
    (∃ dt2, advanceAnimation F (some d) h
      = explosionLoop F dt2 (zapStage h)) := by
  unfold advanceAnimation
  rcases hmp : movingPhase (some d) h with p | h'
  case inr =>
    exact Or.inl ⟨h', rfl, rfl⟩
  case inl =>
    rcases p with ⟨hm1, dt1⟩
    have hp1 : hm1 = movingDone h := movingPhase_inl _ _ _ hmp
    subst hp1
    dsimp only
    have htd : (if (movingDone h).triggered_numbers = [] then movingDone h
        else (movingDone h).start_zap_wave) = trigDone (movingDone h) := rfl
    rw [htd]
    rcases hzp : zapPhase dt1 (trigDone (movingDone h)) with q | h''
    case inr =>
      exact Or.inr (Or.inl ⟨dt1, h'', hzp, rfl⟩)
    case inl =>
      rcases q with ⟨hq1, dt2⟩
      have hq : hq1 = zapDone (trigDone (movingDone h)) := zapPhase_inl _ _ _ hzp
      subst hq
      exact Or.inr (Or.inr ⟨dt2, rfl⟩)

theorem advanceAnimation_step (h : MoveHandler) (d : ℚ) (hR : h.grid.Rect)
    (hok : ∀ m ∈ h.moving, m.cell ≠ Cell.Explosive) :
    ((advanceAnimation (explosionFuel h) (some d) h).2.2 = true →
      (advanceAnimation (explosionFuel h) (some d) h).1
        = (advanceAnimation (explosionFuel h) none h).1) ∧
    ((advanceAnimation (explosionFuel h) (some d) h).2.2 = false →
      (advanceAnimation (explosionFuel h) (some d) h).1.grid.Rect ∧
      (∀ m ∈ (advanceAnimation (explosionFuel h) (some d) h).1.moving,
        m.cell ≠ Cell.Explosive) ∧
      (advanceAnimation
          (explosionFuel (advanceAnimation (explosionFuel h) (some d) h).1) none
          (advanceAnimation (explosionFuel h) (some d) h).1).1
        = (advanceAnimation (explosionFuel h) none h).1) := by
  obtain ⟨hzR, hzmu, hzm, hzz, hzt, _⟩ := zapStage_spec h hR hok
  have hEF : 2 * muHandler h + 2 ≤ explosionFuel h := explosionFuel_ge h
  have hmEz : mEHandler (zapStage h) < explosionFuel h := by
    unfold mEHandler
    rw [hzmu]
    by_cases hse : (zapStage h).exploding = []
    · rw [if_pos hse]
      omega
    · rw [if_neg hse]
      omega
  rw [advanceAnimation_none]
  rcases advanceAnimation_some (explosionFuel h) d h with
    ⟨h', hmp, heq⟩ | ⟨dt1, h'', hzp, heq⟩ | ⟨dt2, heq⟩
  · -- stalled in the moving block
    rw [heq]
    constructor
    · intro htrue
      exact Bool.noConfusion htrue
    · intro _
      obtain ⟨hh', hne⟩ := movingPhase_inr _ _ _ hmp
      subst hh'
      refine ⟨hR, ?_, ?_⟩
      · intro m hm
        have hm' : m ∈ h.moving.map
            (fun m => { m with progress := dtProg m.progress (some d) }) := hm
        rw [List.mem_map] at hm'
        obtain ⟨m0, hm0, hme⟩ := hm'
        rw [← hme]
        exact hok m0 hm0
      · rw [advanceAnimation_none]
        have hmapne : h.moving.map
            (fun m => { m with progress := dtProg m.progress (some d) }) ≠ [] :=
          fun hcon => hne (List.map_eq_nil_iff.mp hcon)
        have hmd : movingDone { h with moving := h.moving.map (fun m => { m with progress := dtProg m.progress (some d) }) } = movingDone h := by
          unfold movingDone
          rw [if_neg hmapne, if_neg hne]
          exact finish_moving_map_progress h _
        have hzs : zapStage { h with moving := h.moving.map (fun m => { m with progress := dtProg m.progress (some d) }) } = zapStage h := by
          unfold zapStage
          rw [hmd]
        have heFr : explosionFuel { h with moving := h.moving.map (fun m => { m with progress := dtProg m.progress (some d) }) } = explosionFuel h := rfl
        rw [hzs, heFr]
  · -- stalled in the zap block
    rw [heq]
    obtain ⟨B1, B2, B3, B4, B5⟩ := trigDone_movingDone_spec h hR hok
    constructor
    · intro htrue
      exact Bool.noConfusion htrue
    · intro _
      obtain ⟨hh'', hzne⟩ := zapPhase_inr _ _ _ hzp
      subst hh''
      refine ⟨B1, ?_, ?_⟩
      · intro m hm
        have hm' : m ∈ (trigDone (movingDone h)).moving := hm
        rw [B3] at hm'
        cases hm'
      · rw [advanceAnimation_none]
        have hmapne : (trigDone (movingDone h)).zapping.map
            (fun z => { z with progress := dtProg z.progress dt1 }) ≠ [] :=
          fun hcon => hzne (List.map_eq_nil_iff.mp hcon)
        have hmv : movingDone { trigDone (movingDone h) with zapping := (trigDone (movingDone h)).zapping.map (fun z => { z with progress := dtProg z.progress dt1 }) } = { trigDone (movingDone h) with zapping := (trigDone (movingDone h)).zapping.map (fun z => { z with progress := dtProg z.progress dt1 }) } := by
          unfold movingDone
          exact if_pos B3
        have htd2 : trigDone { trigDone (movingDone h) with zapping := (trigDone (movingDone h)).zapping.map (fun z => { z with progress := dtProg z.progress dt1 }) } = { trigDone (movingDone h) with zapping := (trigDone (movingDone h)).zapping.map (fun z => { z with progress := dtProg z.progress dt1 }) } := by
          unfold trigDone
          exact if_pos B4
        have hzs : zapStage { trigDone (movingDone h) with zapping := (trigDone (movingDone h)).zapping.map (fun z => { z with progress := dtProg z.progress dt1 }) } = zapStage h := by
          unfold zapStage
          rw [hmv, htd2]
          unfold zapDone
          rw [if_neg hmapne, if_neg hzne]
          exact finish_zap_wave_map_progress (trigDone (movingDone h)) _
        rw [hzs]
        refine congrArg (fun (t : MoveHandler × Option ℚ × Bool) => t.1) ?_
        refine explosionLoop_fuel_stable _ _ _ hzR ?_ hmEz
        show mEHandler (zapStage h) < explosionFuel { trigDone (movingDone h) with zapping := (trigDone (movingDone h)).zapping.map (fun z => { z with progress := dtProg z.progress dt1 }) }
        have h1 : 2 * muHandler { trigDone (movingDone h) with zapping := (trigDone (movingDone h)).zapping.map (fun z => { z with progress := dtProg z.progress dt1 }) } + 2 ≤ explosionFuel { trigDone (movingDone h) with zapping := (trigDone (movingDone h)).zapping.map (fun z => { z with progress := dtProg z.progress dt1 }) } := explosionFuel_ge _
        have h2 : muHandler { trigDone (movingDone h) with zapping := (trigDone (movingDone h)).zapping.map (fun z => { z with progress := dtProg z.progress dt1 }) } = muHandler h := by
          have hm2 : muHandler { trigDone (movingDone h) with zapping := (trigDone (movingDone h)).zapping.map (fun z => { z with progress := dtProg z.progress dt1 }) } = muHandler (trigDone (movingDone h)) := rfl
          rw [hm2, B2]
        unfold mEHandler
        rw [hzmu]
        by_cases hse : (zapStage h).exploding = []
        · rw [if_pos hse]
          omega
        · rw [if_neg hse]
          omega
  · -- reached the explosion loop
    rw [heq]
    constructor
    · intro htrue
      obtain ⟨ht1, ht2⟩ := explosionLoop_true_eq _ _ _ hzR htrue
      rw [ht1]
      refine congrArg (fun (t : MoveHandler × Option ℚ × Bool) => t.1) ?_
      refine (explosionLoop_fuel_stable _ _ _ hzR hmEz (Nat.lt_succ_self _)).symm
    · intro hfalse
      obtain ⟨f1, f2, f3, f4, f5⟩ := explosionLoop_false_eq _ _ _ hzR hfalse
      refine ⟨f1, ?_, ?_⟩
      · intro m hm
        rw [f2, hzm] at hm
        cases hm
      · rw [advanceAnimation_none]
        have hzsr : zapStage (explosionLoop (explosionFuel h) dt2 (zapStage h)).1
            = (explosionLoop (explosionFuel h) dt2 (zapStage h)).1 := by
          have e1 : movingDone (explosionLoop (explosionFuel h) dt2 (zapStage h)).1
              = (explosionLoop (explosionFuel h) dt2 (zapStage h)).1 := by
            unfold movingDone
            exact if_pos (f2.trans hzm)
          have e2 : trigDone (explosionLoop (explosionFuel h) dt2 (zapStage h)).1
              = (explosionLoop (explosionFuel h) dt2 (zapStage h)).1 := by
            unfold trigDone
            exact if_pos (f4.trans hzt)
          have e3 : zapDone (explosionLoop (explosionFuel h) dt2 (zapStage h)).1
              = (explosionLoop (explosionFuel h) dt2 (zapStage h)).1 := by
            unfold zapDone
            exact if_pos (f3.trans hzz)
          show zapDone (trigDone (movingDone
            (explosionLoop (explosionFuel h) dt2 (zapStage h)).1))
              = (explosionLoop (explosionFuel h) dt2 (zapStage h)).1
          rw [e1, e2, e3]
        rw [hzsr]
        have s1 := congrArg (fun (t : MoveHandler × Option ℚ × Bool) => t.1)
          (explosionLoop_fuel_stable
            (explosionFuel (explosionLoop (explosionFuel h) dt2 (zapStage h)).1)
            (mEHandler (explosionLoop (explosionFuel h) dt2 (zapStage h)).1 + 1)
            (explosionLoop (explosionFuel h) dt2 (zapStage h)).1 f1
            (mEHandler_lt_explosionFuel _) (Nat.lt_succ_self _))
        have s2 := congrArg (fun (t : MoveHandler × Option ℚ × Bool) => t.1)
          (explosionLoop_fuel_stable (explosionFuel h)
            (mEHandler (zapStage h) + 1) (zapStage h) hzR hmEz (Nat.lt_succ_self _))
        dsimp only at s1 s2
        rw [s1, f5]
        exact s2.symm


theorem stepShape_moving {α : Type} (blocksX isKind : Cell → Bool)
    (posOf : α → Position) (step : MoveHandler → α → MoveHandler)
    (hshape : StepShape blocksX isKind posOf step) :
    ∀ (hh : MoveHandler) (a : α) (m : Moving),
      m ∈ (step hh a).moving → m ∈ hh.moving ∨ isKind m.cell = true := by
  intro hh a m hm
  rcases hshape hh a with heq | ⟨cell, pr, c, hkind, hstep2, _⟩
  · rw [heq] at hm
    exact Or.inl hm
  · rw [hstep2, MoveHandler.moving_begin_move, List.mem_append] at hm
    rcases hm with hm | hm
    · exact Or.inl hm
    · rw [List.mem_singleton] at hm
      subst hm
      exact Or.inr hkind

theorem move_rats_movers (h : MoveHandler) (player : Position) (facing : Dir4) :
    ∀ m ∈ (h.move_rats player facing).moving,
      m ∈ h.moving ∨ isRatOnlyCell m.cell = true := by
  intro m hm
  simp only [MoveHandler.move_rats] at hm
  exact processList_moving _ _
    (stepShape_moving _ _ _ _ (ratStep_shape player facing.opposite)) _ _ _ hm

theorem move_cyborg_rats_movers (h : MoveHandler) (player : Position)
    (facing : Dir4) :
    ∀ m ∈ (h.move_cyborg_rats player facing).moving,
      m ∈ h.moving ∨ isCyborgCell m.cell = true := by
  intro m hm
  simp only [MoveHandler.move_cyborg_rats] at hm
  rcases processList_moving _ _
      (stepShape_moving _ _ _ _ (cyborgMoveStep_shape _ _ _)) _ _ _ hm with
    hm2 | hq
  · rcases processList_moving _ _
        (stepShape_moving _ _ _ _ (cyborgTurnStep_shape _)) _ _ _ hm2 with
      hm3 | hq
    · exact Or.inl hm3
    · exact Or.inr hq
  · exact Or.inr hq

theorem do_player_move_inv (g : Grid) (a : Action) (hR : g.Rect) :
    ((MoveHandler.new g).do_player_move a).grid.Rect ∧
    ∀ m ∈ ((MoveHandler.new g).do_player_move a).moving,
      m.cell ≠ Cell.Explosive := by
  unfold MoveHandler.do_player_move
  cases hfp : (MoveHandler.new g).find_player with
  | none =>
    refine ⟨hR, ?_⟩
    intro m hm
    cases hm
  | some pd =>
    dsimp only
    constructor
    · exact foldl_preserve Grid.Rect _ _ _ hR (fun b mv hb2 => hb2.setCell _ _)
    · intro m hm
      rcases move_rats_movers _ _ _ m hm with hm2 | hq
      · rcases move_cyborg_rats_movers _ _ _ m hm2 with hm3 | hq
        · cases a with
          | Stall =>
            cases hm3
          | Move dir =>
            rw [MoveHandler.moving_begin_move] at hm3
            rcases List.mem_append.mp hm3 with hm4 | hm4
            · cases hm4
            · rw [List.mem_singleton] at hm4
              subst hm4
              exact fun hcon => Cell.noConfusion hcon
        · intro hcon
          rw [hcon] at hq
          exact Bool.noConfusion hq
      · intro hcon
        rw [hcon] at hq
        exact Bool.noConfusion hq

theorem runAnimation_grid :
    ∀ (dts : List ℚ) (h : MoveHandler), h.grid.Rect →
      (∀ m ∈ h.moving, m.cell ≠ Cell.Explosive) →
      ∀ hf, runAnimation dts h = some hf →
        hf.grid = h.resolve_all.grid := by
  intro dts
  induction dts with
  | nil =>
    intro h hR hok hf hrun
    exact Option.noConfusion hrun
  | cons d rest ih =>
    intro h hR hok hf hrun
    simp only [runAnimation] at hrun
    obtain ⟨hstep1, hstep2⟩ := advanceAnimation_step h d hR hok
    by_cases hdone2 : (advanceAnimation (explosionFuel h) (some d) h).2.2 = true
    · rw [if_pos hdone2] at hrun
      injection hrun with h2
      rw [← h2, hstep1 hdone2]
      rfl
    · have hfb : (advanceAnimation (explosionFuel h) (some d) h).2.2 = false :=
        Bool.eq_false_iff.mpr hdone2
      rw [if_neg hdone2] at hrun
      obtain ⟨r1, r2, r3⟩ := hstep2 hfb
      rw [ih _ r1 r2 hf hrun]
      unfold MoveHandler.resolve_all
      rw [r3]

/-- Claim C1: for every rectangular grid and action, the turn resolver is
confluent — `resolve_all` (one `advance_animation` call with an infinite time
delta) genuinely completes, and every frame-by-frame replay of the same turn
with finite time deltas that reports completion ends on exactly the same
grid, cell for cell. -/
theorem c1_animation_confluence (g : Grid) (a : Action) (hR : g.Rect) :
    ((advanceAnimation (explosionFuel ((MoveHandler.new g).do_player_move a))
        none ((MoveHandler.new g).do_player_move a)).2.2 = true) ∧
    (∀ dts hf,
      runAnimation dts ((MoveHandler.new g).do_player_move a) = some hf →
      hf.grid = ((MoveHandler.new g).do_player_move a).resolve_all.grid) := by
  obtain ⟨h0R, h0ok⟩ := do_player_move_inv g a hR
  constructor
  · rw [advanceAnimation_none]
    obtain ⟨hzR, hzmu, _, _, _, _⟩ := zapStage_spec _ h0R h0ok
    apply explosionLoop_completes _ _ hzR
    show mEHandler (zapStage ((MoveHandler.new g).do_player_move a))
      < explosionFuel ((MoveHandler.new g).do_player_move a)
    have hEF := explosionFuel_ge ((MoveHandler.new g).do_player_move a)
    unfold mEHandler
    rw [hzmu]
    by_cases hse : (zapStage ((MoveHandler.new g).do_player_move a)).exploding = []
    · rw [if_pos hse]
      omega
    · rw [if_neg hse]
      omega
  · exact fun dts hf => runAnimation_grid dts _ h0R h0ok hf

theorem c1_animation_confluence_witness :
    ((advanceAnimation (explosionFuel ((MoveHandler.new
        (⟨[[Cell.Player Dir4.South, Cell.Rat Dir8.West]]⟩ : Grid)).do_player_move
          Action.Stall))
        none ((MoveHandler.new
        (⟨[[Cell.Player Dir4.South, Cell.Rat Dir8.West]]⟩ : Grid)).do_player_move
          Action.Stall)).2.2 = true) ∧
    (∀ dts hf,
      runAnimation dts ((MoveHandler.new
        (⟨[[Cell.Player Dir4.South, Cell.Rat Dir8.West]]⟩ : Grid)).do_player_move
          Action.Stall) = some hf →
      hf.grid = ((MoveHandler.new
        (⟨[[Cell.Player Dir4.South, Cell.Rat Dir8.West]]⟩ : Grid)).do_player_move
          Action.Stall).resolve_all.grid) :=
  c1_animation_confluence
    (⟨[[Cell.Player Dir4.South, Cell.Rat Dir8.West]]⟩ : Grid) Action.Stall
    (by decide)

end Infestation
